import Mathlib

/-!
# stashcp: the transfer orchestration of `main.go`

A shallow embedding of `getTokenName`, `getToken`, `doWriteBack`, `Find`,
`get_ips`, `parse_job_ad`, `es_send` and `DoStashCPSingle`.

Conventions of the embedding:

* a Go `error` is an `Option String`: `none` is `nil`, `some msg` an error value;
* a Go `string` is a Lean `String`; the only byte-level operations of the program
  (`strings.Split` on `+`, `sourceFile[0]` against `/`) look for ASCII characters, for
  which bytes and characters agree;
* everything the program obtains from outside (`os`, `net`, `net/url`, `path`,
  `encoding/json`, the OpenTelemetry exporter, the clock, and the functions of the package
  that live in other files: `MatchNamespace`, `UploadFile`, `download_cvmfs`,
  `download_xrootd`, `download_http`, `AddError`, `classads`) is a field of `Env`;
* the collaborators that carry state see the list of calls made so far, so that two calls
  of the same backend may answer differently;
* a call either returns, panics, or ends the process (`log.Fatal`).
-/

namespace Stashcp

/-! ## Values -/

/-- Go `error`: `none` is `nil`. -/
abbrev GoError := Option String

/-- How a call ends: it returns a value, it panics with a value (printed with `%v`), or it
ends the process with an exit code (`log.Fatal` is `os.Exit(1)`). -/
inductive Ret (α : Type) where
  | val (a : α)
  | panic (r : String)
  | exit (code : Nat)
deriving DecidableEq, Repr

/-- The fields of `url.URL` that the program reads. -/
structure URL where
  Scheme : String
  Host : String
  Path : String
deriving DecidableEq, Repr

/-- The `Namespace` value of the package (declared in another file). The orchestration
only passes it along, so it is kept as an uninterpreted handle; `0` is the zero value. -/
structure Namespace where
  id : Nat
deriving DecidableEq, Repr

/-- Go: `type payloadStruct struct`. -/
structure payloadStruct where
  filename : String
  sitename : String
  status : String
  Owner : String
  ProjectName : String
  version : String
  start1 : Int
  end1 : Int
  timestamp : Int
  downloadTime : Int
  fileSize : Int
  downloadSize : Int
deriving DecidableEq, Repr

/-- Go: `payloadStruct{}`. -/
def payloadStruct.zero : payloadStruct :=
  ⟨"", "", "", "", "", "", 0, 0, 0, 0, 0, 0⟩

/-- Go: the local `type tokenJson struct` of `getToken`. -/
structure tokenJson where
  AccessKey : String
  ExpiresIn : Int
deriving DecidableEq, Repr

/-- What `os.Stat` reports for a path: a regular file, a directory, an error for which
`os.IsNotExist` holds, or any other error (the returned `FileInfo` is `nil` then). -/
inductive FileStat where
  | file
  | dir
  | notExist
  | otherErr
deriving DecidableEq, Repr

/-- Go: `_, err := os.Stat(p); err == nil`. -/
def FileStat.ok : FileStat → Bool
  | .file => true
  | .dir => true
  | .notExist => false
  | .otherErr => false

/-- A value stored in a ClassAd, as `Get` hands it out in an `interface{}`. -/
inductive AdValue where
  | str (s : String)
  | int (n : Int)
  | other (goType : String)
deriving DecidableEq, Repr

/-- A ClassAd: its attributes. `Get` of a missing attribute yields a `nil` interface. -/
abbrev ClassAd := List (String × AdValue)

/-- How the race in `es_send` between the POST and the 5 second timer ends: the POST
goroutine delivered its error on the channel first, or the timer fired first. -/
inductive EsRace where
  | posted (returnedError : GoError)
  | timeout
deriving DecidableEq, Repr

/-- One call of a collaborator, with its arguments and how it ended. -/
inductive Event where
  | MatchNamespace (path : String) (res : Ret (Namespace × GoError))
  | getToken (token_name : String) (res : String × GoError)
  | UploadFile (source : String) (destination : URL) (token : String) (ns : Namespace)
      (res : Ret (Int × GoError))
  | download_cvmfs (sourceFile destination : String) (res : Ret (Int × GoError))
  | download_xrootd (sourceFile destination : String) (res : Ret (Int × GoError))
  | download_http (sourceFile destination : String) (ns : Namespace) (recursive : Bool)
      (token_name : String) (res : Ret (Int × GoError))
  | es_send (payload : payloadStruct) (res : GoError)
  | AddError (err : String)
deriving DecidableEq, Repr

/-- Everything outside `main.go`. -/
structure Env where
  /-- Go: the global `Options.Token`. -/
  Options_Token : String
  /-- Go: the global `version`. -/
  version : String
  /-- Go: `os.LookupEnv`; `none` when the variable is not set. -/
  LookupEnv : String → Option String
  /-- Go: `os.Stat`. -/
  Stat : String → FileStat
  /-- Go: `os.ReadFile`. -/
  ReadFile : String → String × GoError
  /-- Go: `os.Getuid`. -/
  Getuid : Nat
  /-- Go: `filepath.Join` and `path.Join` (the same function on a POSIX host). -/
  Join : List String → String
  /-- Go: `path.Base`. -/
  Base : String → String
  /-- Go: `filepath.Abs`, which yields `""` together with its error. -/
  Abs : String → String × GoError
  /-- Go: the size in bits of an `int` on the platform (`strconv.IntSize`): 32 or 64. -/
  IntSize : Nat
  /-- Go: `json.Marshal(payload)`. -/
  json_Marshal : payloadStruct → String × GoError
  /-- Go: `url.Parse`. -/
  url_Parse : String → URL × GoError
  /-- Go: `net.LookupHost`. -/
  net_LookupHost : String → List String × GoError
  /-- Go: `net.ParseIP`, as the byte slice it returns; `[]` is the `nil` IP. -/
  net_ParseIP : String → List Nat
  /-- Go: `time.Now().Unix()`, by the number of the reading. -/
  time_Now : Nat → Int
  /-- Go: the error of `otlptrace.New(...)`. -/
  otlptrace_New : GoError
  /-- Go: the error of `tp.Shutdown(context.Background())`. -/
  tp_Shutdown : GoError
  /-- Go: `classads.ReadClassAd` on the opened file of that name. -/
  ReadClassAd : String → List ClassAd × GoError
  /-- Go: `MatchNamespace(ctx, path)`. -/
  MatchNamespace : List Event → String → Ret (Namespace × GoError)
  /-- Go: `UploadFile(ctx, source, destination, token, namespace)`. -/
  UploadFile : List Event → String → URL → String → Namespace → Ret (Int × GoError)
  /-- Go: `download_cvmfs(ctx, sourceFile, destination, &payload)`; the payload it leaves
  behind comes first. -/
  download_cvmfs : List Event → String → String → payloadStruct →
    Ret (payloadStruct × Int × GoError)
  /-- Go: `download_xrootd(ctx, sourceFile, destination, &payload)`. -/
  download_xrootd : List Event → String → String → payloadStruct →
    Ret (payloadStruct × Int × GoError)
  /-- Go: `download_http(ctx, sourceFile, destination, &payload, ns, recursive, token_name)`. -/
  download_http : List Event → String → String → payloadStruct → Namespace → Bool → String →
    Ret (payloadStruct × Int × GoError)
  /-- How the `select` of `es_send` ends for the marshalled payload. -/
  doEsSend_race : List Event → String → EsRace

/-! ## `strings` -/

/-- The pieces of a character list between the occurrences of `sep`. -/
def splitChars (sep : Char) : List Char → List (List Char)
  | [] => [[]]
  | c :: cs =>
    if c = sep then [] :: splitChars sep cs
    else
      match splitChars sep cs with
      | [] => [[c]]
      | p :: ps => (c :: p) :: ps

/-- Go: `strings.Split(s, sep)` for a separator of one character. -/
def strings_Split (s : String) (sep : Char) : List String :=
  (splitChars sep s.data).map String.mk

/-- Go: `strings.Join(elems, sep)`. -/
def strings_Join (elems : List String) (sep : String) : String :=
  String.mk (List.intercalate sep.data (elems.map String.data))

/-- Go: `unicode.IsSpace`. -/
def unicode_IsSpace (c : Char) : Bool :=
  let n := c.toNat
  n = 9 || n = 10 || n = 11 || n = 12 || n = 13 || n = 32 || n = 0x85 || n = 0xA0 ||
  n = 0x1680 || (0x2000 ≤ n && n ≤ 0x200a) || n = 0x2028 || n = 0x2029 || n = 0x202f ||
  n = 0x205f || n = 0x3000

/-- Go: `strings.TrimSpace`. -/
def strings_TrimSpace (s : String) : String :=
  String.mk ((s.data.dropWhile unicode_IsSpace).reverse.dropWhile unicode_IsSpace).reverse

theorem splitChars_ne_nil (sep : Char) (cs : List Char) : splitChars sep cs ≠ [] := by
  induction cs with
  | nil => simp [splitChars]
  | cons c cs ih =>
    unfold splitChars
    split
    · simp
    · split <;> simp

theorem strings_Split_ne_nil (s : String) (sep : Char) : strings_Split s sep ≠ [] := by
  simp [strings_Split, splitChars_ne_nil]

/-! ## `getTokenName` -/

/-- Go: `func getTokenName(destination *url.URL) (scheme, tokenName string)`.
`schemePieces[len(schemePieces)-1]` is in range because `strings.Split` never returns an
empty slice. -/
def getTokenName (destination : URL) : String × String :=
  let schemePieces := strings_Split destination.Scheme '+'
  let scheme := schemePieces.getLast (strings_Split_ne_nil _ _)
  let tokenName := if schemePieces.length > 1 then strings_Join schemePieces.dropLast "+" else ""
  (scheme, tokenName)

/-! ## `getToken` -/

/-- Where the search of `getToken` ends: at a `return bearerToken, nil`, at a file to read,
or at "failed to find token...". -/
inductive TokenSearch where
  | literal (bearerToken : String)
  | location (token_location : String)
  | notFound
deriving DecidableEq, Repr

/-- Go: `token_filename` in `getToken`. -/
def token_filename (token_name : String) : String :=
  if token_name.length > 0 then token_name ++ ".use" else "scitokens.use"

/-- Go: the `else if bearerTokenFile, isBearerTokenFileSet := ...` block: the value it
leaves in `token_location`, which was `""` before. -/
def tryBearerTokenFile (env : Env) : String :=
  match env.LookupEnv "BEARER_TOKEN_FILE" with
  | some bearerTokenFile => if (env.Stat bearerTokenFile).ok then bearerTokenFile else ""
  | none => ""

/-- Go: the block `if xdgRuntimeDir, xdgRuntimeDirSet := os.LookupEnv("XDG_RUNTIME_DIR");
token_location == "" && xdgRuntimeDirSet`. -/
def tryXdgRuntimeDir (env : Env) (token_location : String) : String :=
  match env.LookupEnv "XDG_RUNTIME_DIR" with
  | some xdgRuntimeDir =>
    if token_location = "" then
      let tmpTokenPath := env.Join [xdgRuntimeDir, "bt_u" ++ toString env.Getuid]
      if (env.Stat tmpTokenPath).ok then tmpTokenPath else token_location
    else token_location
  | none => token_location

/-- Go: the block "Check for /tmp/bt_u<uid>". -/
def tryTmp (env : Env) (token_location : String) : String :=
  if token_location = "" then
    let tmpTokenPath := "/tmp/bt_u" ++ toString env.Getuid
    if (env.Stat tmpTokenPath).ok then tmpTokenPath else token_location
  else token_location

/-- Go: the block `if tokenFile, isTokenSet := os.LookupEnv("TOKEN"); isTokenSet &&
token_location == ""`. -/
def tryTokenVariable (env : Env) (token_location : String) : String :=
  match env.LookupEnv "TOKEN" with
  | some tokenFile =>
    if token_location = "" then
      (if (env.Stat tokenFile).ok then tokenFile else token_location)
    else token_location
  | none => token_location

/-- Go: the block `if credsDir, isCondorCredsSet := os.LookupEnv("_CONDOR_CREDS");
token_location == "" && isCondorCredsSet`. -/
def tryCondorCreds (env : Env) (token_name token_location : String) : String :=
  match env.LookupEnv "_CONDOR_CREDS" with
  | some credsDir =>
    if token_location = "" then
      (if (env.Stat (env.Join [credsDir, token_filename token_name])).ok
        then env.Join [credsDir, token_filename token_name] else token_location)
    else token_location
  | none => token_location

/-- Go: the block `if _, err := os.Stat(".condor_creds/" + token_filename); err == nil &&
token_location == ""`, where the error of `filepath.Abs` is dropped. -/
def tryLocalCreds (env : Env) (token_name token_location : String) : String :=
  if (env.Stat (".condor_creds/" ++ token_filename token_name)).ok ∧ token_location = "" then
    (env.Abs (".condor_creds/" ++ token_filename token_name)).1
  else token_location

/-- Go: the `else` branch of `getToken`, from "WLCG Token Discovery" to the test
`token_location == ""`. The variable `token_location` starts as `""` and each block
assigns it under the guard written in the source. -/
def searchToken (env : Env) (token_name : String) : TokenSearch :=
  match env.LookupEnv "BEARER_TOKEN" with
  | some bearerToken => .literal bearerToken
  | none =>
    let token_location := tryBearerTokenFile env
    let token_location := tryXdgRuntimeDir env token_location
    let token_location := tryTmp env token_location
    let token_location := tryTokenVariable env token_location
    let token_location := tryCondorCreds env token_name token_location
    let token_location := tryLocalCreds env token_name token_location
    if token_location = "" then .notFound else .location token_location

/-! ## `encoding/json`

`json.Unmarshal(tokenContents, &tokenParsed)` as the standard library runs it on the struct
`tokenJson`: the text is first checked to be one JSON value (`checkValid`, here `parseJSON`),
then decoded into the two tagged fields. The content of the file is a text in UTF-8. The
scanner refuses arrays and objects nested more than `maxNestingDepth` deep. -/

/-- A JSON value as `encoding/json` scans it: a string is held with its escapes decoded,
a number as its literal. -/
inductive JSON where
  | null
  | bool (b : Bool)
  | num (literal : List Char)
  | str (s : List Char)
  | arr (elems : List JSON)
  | obj (members : List (List Char × JSON))

/-- Go: the white space of JSON: space, tab, carriage return, line feed. -/
def json_isSpace (c : Char) : Bool :=
  c = ' ' || c = '\t' || c = '\r' || c = '\n'

/-- The input without its leading JSON white space. -/
def json_skipSpace (cs : List Char) : List Char :=
  cs.dropWhile json_isSpace

/-- The value of a hexadecimal digit. -/
def hexDigit (c : Char) : Option Nat :=
  if '0' ≤ c ∧ c ≤ '9' then some (c.toNat - '0'.toNat)
  else if 'a' ≤ c ∧ c ≤ 'f' then some (c.toNat - 'a'.toNat + 10)
  else if 'A' ≤ c ∧ c ≤ 'F' then some (c.toNat - 'A'.toNat + 10)
  else none

/-- Go: `getu4` on the four characters after a backslash and `u`. -/
def hex4 (h1 h2 h3 h4 : Char) : Option Nat :=
  match hexDigit h1, hexDigit h2, hexDigit h3, hexDigit h4 with
  | some a, some b, some c, some d => some (((a * 16 + b) * 16 + c) * 16 + d)
  | _, _, _, _ => none

/-- Go: the characters that may follow a backslash in a string, `u` apart. -/
def simpleEscape (c : Char) : Option Char :=
  if c = '"' then some '"'
  else if c = '\\' then some '\\'
  else if c = '/' then some '/'
  else if c = 'b' then some (Char.ofNat 8)
  else if c = 'f' then some (Char.ofNat 12)
  else if c = 'n' then some '\n'
  else if c = 'r' then some '\r'
  else if c = 't' then some '\t'
  else none

/-- Go: the scanner inside a string literal, entered after the opening quote: the body of
the literal with its escapes as written, and what follows the closing quote. A control
character, an unknown escape or an unfinished literal is a syntax error. -/
def scanString : List Char → Option (List Char × List Char)
  | [] => none
  | c :: rest =>
    if c = '"' then some ([], rest)
    else if c = '\\' then
      match rest with
      | [] => none
      | e :: rest1 =>
        if e = 'u' then
          match rest1 with
          | h1 :: h2 :: h3 :: h4 :: rest2 =>
            match hex4 h1 h2 h3 h4, scanString rest2 with
            | some _, some (body, after) => some (c :: e :: h1 :: h2 :: h3 :: h4 :: body, after)
            | _, _ => none
          | _ => none
        else
          match simpleEscape e, scanString rest1 with
          | some _, some (body, after) => some (c :: e :: body, after)
          | _, _ => none
    else if c.toNat < 32 then none
    else
      match scanString rest with
      | some (body, after) => some (c :: body, after)
      | none => none

/-- The body of a scanned string literal, escape by escape: a character (written as it is
or with a backslash), or the number of a `\\u` escape. -/
def codeUnits : List Char → List (Char ⊕ Nat)
  | [] => []
  | c :: rest =>
    if c = '\\' then
      match rest with
      | [] => []
      | e :: rest1 =>
        if e = 'u' then
          match rest1 with
          | h1 :: h2 :: h3 :: h4 :: rest2 => .inr ((hex4 h1 h2 h3 h4).getD 0) :: codeUnits rest2
          | _ => []
        else .inl ((simpleEscape e).getD e) :: codeUnits rest1
    else .inl c :: codeUnits rest

/-- Go: `utf16.IsSurrogate`. -/
def utf16_IsSurrogate (r : Nat) : Bool :=
  decide (0xD800 ≤ r ∧ r < 0xE000)

/-- Go: `utf16.DecodeRune`: the code point of a surrogate pair, U+FFFD for any other two
numbers. -/
def utf16_DecodeRune (r1 r2 : Nat) : Char :=
  if 0xD800 ≤ r1 ∧ r1 < 0xDC00 ∧ 0xDC00 ≤ r2 ∧ r2 < 0xE000 then
    Char.ofNat ((r1 - 0xD800) * 1024 + (r2 - 0xDC00) + 0x10000)
  else Char.ofNat 0xFFFD

/-- Go: the `\\u` case of `unquote`: a surrogate is decoded together with a `\\u` escape that
follows it at once, when the two are a pair, and is U+FFFD otherwise. -/
def joinUnits : List (Char ⊕ Nat) → List Char
  | [] => []
  | .inl c :: rest => c :: joinUnits rest
  | .inr rr :: .inr rr1 :: rest =>
    if utf16_IsSurrogate rr then
      (if utf16_DecodeRune rr rr1 = Char.ofNat 0xFFFD then
        Char.ofNat 0xFFFD :: joinUnits (.inr rr1 :: rest)
      else utf16_DecodeRune rr rr1 :: joinUnits rest)
    else Char.ofNat rr :: joinUnits (.inr rr1 :: rest)
  | .inr rr :: rest =>
    (if utf16_IsSurrogate rr then Char.ofNat 0xFFFD else Char.ofNat rr) :: joinUnits rest

/-- Go: `unquote` on the body of a scanned string literal: the text with its escapes
decoded. -/
def unquote (body : List Char) : List Char :=
  joinUnits (codeUnits body)

/-- A decimal digit. -/
def json_isDigit (c : Char) : Bool :=
  decide ('0' ≤ c ∧ c ≤ '9')

/-- Go: the scanner on the exponent of a number, entered after `e` or `E`: an optional
sign and at least one digit. -/
def scanExponent (e : Char) (cs : List Char) : Option (List Char × List Char) :=
  match cs with
  | [] => none
  | c :: rest =>
    if c = '+' ∨ c = '-' then
      (if rest.takeWhile json_isDigit = [] then none
        else some (e :: c :: rest.takeWhile json_isDigit, rest.dropWhile json_isDigit))
    else
      (if cs.takeWhile json_isDigit = [] then none
        else some (e :: cs.takeWhile json_isDigit, cs.dropWhile json_isDigit))

/-- Go: the scanner on what may follow the integer part of a number: a fraction with at
least one digit, then an exponent, both optional. -/
def scanFraction (cs : List Char) : Option (List Char × List Char) :=
  let frac : Option (List Char × List Char) :=
    match cs with
    | [] => some ([], [])
    | c :: rest =>
      if c = '.' then
        (if rest.takeWhile json_isDigit = [] then none
          else some (c :: rest.takeWhile json_isDigit, rest.dropWhile json_isDigit))
      else some ([], cs)
  match frac with
  | none => none
  | some (f, after) =>
    match after with
    | [] => some (f, [])
    | c :: rest =>
      if c = 'e' ∨ c = 'E' then
        match scanExponent c rest with
        | some (x, after1) => some (f ++ x, after1)
        | none => none
      else some (f, after)

/-- Go: the scanner on the digits of a number: a single `0`, or a digit from 1 to 9 and
any digits; then `scanFraction`. -/
def scanDigits (cs : List Char) : Option (List Char × List Char) :=
  match cs with
  | [] => none
  | c :: rest =>
    if c = '0' then
      match scanFraction rest with
      | some (f, after) => some (c :: f, after)
      | none => none
    else if json_isDigit c then
      match scanFraction (rest.dropWhile json_isDigit) with
      | some (f, after) => some (c :: rest.takeWhile json_isDigit ++ f, after)
      | none => none
    else none

/-- Go: the scanner on a number: its literal and what follows it. -/
def scanNumber (cs : List Char) : Option (List Char × List Char) :=
  match cs with
  | [] => none
  | c :: rest =>
    if c = '-' then
      match scanDigits rest with
      | some (ds, after) => some (c :: ds, after)
      | none => none
    else scanDigits cs

/-- What is left of the input after the given word, when the input starts with it. -/
def afterWord (word cs : List Char) : Option (List Char) :=
  if word.isPrefixOf cs then some (cs.drop word.length) else none

/-- Go: the elements of an array, entered where an element is due: values separated by
commas up to the closing bracket. `value` scans one value; `fuel` bounds the number of
elements. -/
def scanElements (value : List Char → Option (JSON × List Char)) :
    Nat → List Char → Option (List JSON × List Char)
  | 0, _ => none
  | fuel + 1, cs =>
    match value cs with
    | none => none
    | some (v, after) =>
      match json_skipSpace after with
      | [] => none
      | c :: rest =>
        if c = ',' then
          match scanElements value fuel rest with
          | some (vs, after1) => some (v :: vs, after1)
          | none => none
        else if c = ']' then some ([v], rest)
        else none

/-- Go: the members of an object, entered where a key is due: `"key": value` pairs
separated by commas up to the closing brace. -/
def scanMembers (value : List Char → Option (JSON × List Char)) :
    Nat → List Char → Option (List (List Char × JSON) × List Char)
  | 0, _ => none
  | fuel + 1, cs =>
    match json_skipSpace cs with
    | [] => none
    | q :: rest =>
      if q = '"' then
        match scanString rest with
        | none => none
        | some (key, after) =>
          match json_skipSpace after with
          | [] => none
          | colon :: rest1 =>
            if colon = ':' then
              match value rest1 with
              | none => none
              | some (v, after1) =>
                match json_skipSpace after1 with
                | [] => none
                | c :: rest2 =>
                  if c = ',' then
                    match scanMembers value fuel rest2 with
                    | some (ms, after2) => some ((unquote key, v) :: ms, after2)
                    | none => none
                  else if c = '\x7d' then some ([(unquote key, v)], rest2)
                  else none
            else none
      else none

/-- Go: the scanner on one value, after any white space: the value and what follows it.
`depth` is the number of arrays and objects that may still be opened inside one another. -/
def scanValue : Nat → List Char → Option (JSON × List Char)
  | depth, cs =>
    match json_skipSpace cs with
    | [] => none
    | c :: rest =>
      if c = '"' then
        match scanString rest with
        | some (body, after) => some (.str (unquote body), after)
        | none => none
      else if c = '-' ∨ json_isDigit c then
        match scanNumber (c :: rest) with
        | some (literal, after) => some (.num literal, after)
        | none => none
      else if c = 't' then (afterWord "rue".data rest).map fun after => (.bool true, after)
      else if c = 'f' then (afterWord "alse".data rest).map fun after => (.bool false, after)
      else if c = 'n' then (afterWord "ull".data rest).map fun after => (.null, after)
      else
        match depth with
        | 0 => none
        | depth1 + 1 =>
          if c = '[' then
            match json_skipSpace rest with
            | [] => none
            | d :: rest1 =>
              if d = ']' then some (.arr [], rest1)
              else
                match scanElements (scanValue depth1) (rest.length + 1) rest with
                | some (vs, after) => some (.arr vs, after)
                | none => none
          else if c = '\x7b' then
            match json_skipSpace rest with
            | [] => none
            | d :: rest1 =>
              if d = '\x7d' then some (.obj [], rest1)
              else
                match scanMembers (scanValue depth1) (rest.length + 1) rest with
                | some (ms, after) => some (.obj ms, after)
                | none => none
          else none

/-- Go: `maxNestingDepth` of the scanner. -/
def maxNestingDepth : Nat := 10000

/-- Go: the JSON text read as one value with white space around it; `none` is a syntax
error. -/
def parseJSON (text : String) : Option JSON :=
  match scanValue maxNestingDepth text.data with
  | none => none
  | some (v, after) => if json_skipSpace after = [] then some v else none

/-- Go: the fold of `encoding/json` on one character of a field name in ASCII against one
character of an object key: the same character, the same letter in the other case, or the
Kelvin sign for `k` and the long s for `s`. -/
def foldsTo (nameChar keyChar : Char) : Bool :=
  nameChar = keyChar ||
  (nameChar.isAlpha && nameChar.toUpper = keyChar.toUpper) ||
  ((nameChar = 'k' || nameChar = 'K') && keyChar = Char.ofNat 0x212A) ||
  ((nameChar = 's' || nameChar = 'S') && keyChar = Char.ofNat 0x017F)

/-- Go: whether the object key `key` selects the struct field tagged `name`. -/
def equalFold : List Char → List Char → Bool
  | [], [] => true
  | n :: name, k :: key => foldsTo n k && equalFold name key
  | _, _ => false

/-- The number written by decimal digits. -/
def digitsValue (ds : List Char) : Nat :=
  ds.foldl (fun n d => n * 10 + (d.toNat - '0'.toNat)) 0

/-- Go: `strconv.ParseInt(literal, 10, 64)` followed by `OverflowInt` for an `int` of
`intSize` bits, on the literal of a JSON number: the integer, and `none` for a literal with
a fraction or an exponent and for an integer out of range. -/
def parseInt (intSize : Nat) (literal : List Char) : Option Int :=
  let negative : Bool := literal.head? = some '-'
  let ds : List Char := if negative then literal.drop 1 else literal
  if ds ≠ [] ∧ ds.all json_isDigit = true then
    let n : Int := if negative then -((digitsValue ds : Nat) : Int) else ((digitsValue ds : Nat) : Int)
    if -((2 ^ 63 : Nat) : Int) ≤ n ∧ n < ((2 ^ 63 : Nat) : Int) ∧
        -((2 ^ (intSize - 1) : Nat) : Int) ≤ n ∧ n < ((2 ^ (intSize - 1) : Nat) : Int) then some n
    else none
  else none

/-- Go: `d.saveError`: the first error of a decoding is the one it reports. -/
def saveError (saved : GoError) (err : String) : GoError :=
  match saved with
  | none => some err
  | some first => some first

/-- Go: the decoder on one member of the object, into the struct `tokenJson`: a member
whose key selects `access_token` stores a string, a member whose key selects `expires_in`
stores an integer that fits an `int`, `null` stores nothing, any other value for these two
is an `UnmarshalTypeError`, after which decoding goes on; a member with another key is
skipped. -/
def storeMember (intSize : Nat) (st : tokenJson × GoError) (m : List Char × JSON) :
    tokenJson × GoError :=
  if equalFold "access_token".data m.1 then
    match m.2 with
    | .str s => ({ st.1 with AccessKey := String.mk s }, st.2)
    | .null => st
    | _ => (st.1, saveError st.2
        "json: cannot unmarshal into Go struct field tokenJson.access_token of type string")
  else if equalFold "expires_in".data m.1 then
    match m.2 with
    | .num literal =>
      match parseInt intSize literal with
      | some n => ({ st.1 with ExpiresIn := n }, st.2)
      | none => (st.1, saveError st.2
          "json: cannot unmarshal number into Go struct field tokenJson.expires_in of type int")
    | .null => st
    | _ => (st.1, saveError st.2
        "json: cannot unmarshal into Go struct field tokenJson.expires_in of type int")
  else st

/-- Go: `json.Unmarshal(data, &tokenParsed)` on a zero `tokenParsed`: the struct after
the call and the error of the call. A text that is not JSON is a syntax error
and stores nothing; `null` stores nothing and is no error; an object is decoded member by
member; any other value is an `UnmarshalTypeError`. -/
def json_Unmarshal (intSize : Nat) (data : String) : tokenJson × GoError :=
  match parseJSON data with
  | none => (⟨"", 0⟩, some "invalid character looking for beginning of value")
  | some .null => (⟨"", 0⟩, none)
  | some (.obj members) => members.foldl (storeMember intSize) (⟨"", 0⟩, none)
  | some _ => (⟨"", 0⟩, some "json: cannot unmarshal into Go value of type main.tokenJson")

/-- Whether the decoder stores the member of an object in `tokenJson` without an error:
under the key `access_token` a string or `null`, under the key `expires_in` an integer that
fits an `int` or `null`, under any other key any value. -/
def memberFits (intSize : Nat) (m : List Char × JSON) : Bool :=
  if equalFold "access_token".data m.1 then
    match m.2 with
    | .str _ => true
    | .null => true
    | _ => false
  else if equalFold "expires_in".data m.1 then
    match m.2 with
    | .num literal => (parseInt intSize literal).isSome
    | .null => true
    | _ => false
  else true

/-- The string of a member of an object whose key selects `access_token`. -/
def accessTokenMember (m : List Char × JSON) : Option String :=
  if equalFold "access_token".data m.1 then
    match m.2 with
    | .str s => some (String.mk s)
    | _ => none
  else none

/-- The value of the `access_token` field of an object: the string of its last member under
that key, and the empty string when it has none. -/
def accessTokenField (members : List (List Char × JSON)) : String :=
  ((members.filterMap accessTokenMember).getLast?).getD ""

/-- Whether a scanned value is an object or `null`. -/
def JSON.isObjOrNull : JSON → Bool
  | .obj _ => true
  | .null => true
  | _ => false

/-- Go: `getToken` from "Read in the JSON" on. -/
def readToken (env : Env) (token_location : String) : String × GoError :=
  match env.ReadFile token_location with
  | (_, some err) => ("", some err)
  | (tokenContents, none) =>
    match json_Unmarshal env.IntSize tokenContents with
    | (_, some _) => (strings_TrimSpace tokenContents, none)
    | (tokenParsed, none) => (tokenParsed.AccessKey, none)

/-- Go: where `getToken` looks, the test of `Options.Token` included. -/
def locateToken (env : Env) (token_name : String) : TokenSearch :=
  if env.Options_Token ≠ "" then .location env.Options_Token else searchToken env token_name

/-- Go: `func getToken(token_name string) (string, error)`. -/
def getToken (env : Env) (token_name : String) : String × GoError :=
  match locateToken env token_name with
  | .literal bearerToken => (bearerToken, none)
  | .notFound => ("", some "failed to find token...")
  | .location token_location => readToken env token_location

/-- What `getToken` returns for the place where the search ended. -/
def resolveToken (env : Env) : TokenSearch → String × GoError
  | .literal bearerToken => (bearerToken, none)
  | .notFound => ("", some "failed to find token...")
  | .location token_location => readToken env token_location

/-- The existence check of a step: the path, when there is one and `os.Stat` finds it. -/
def existing (env : Env) (path : Option String) : Option String :=
  path.bind fun p => if (env.Stat p).ok then some p else none

/-- The steps (2) to (8) of the search order, as the specification lists them: the
literal `BEARER_TOKEN`, then the files named by `BEARER_TOKEN_FILE`,
`$XDG_RUNTIME_DIR/bt_u<uid>`, `/tmp/bt_u<uid>`, `TOKEN`, `$_CONDOR_CREDS/<hint>.use` and
`./.condor_creds/<hint>.use` (read through its absolute path), each file step matching
when its file exists. -/
def laterSteps (env : Env) (token_name : String) : List (Option TokenSearch) :=
  [ (env.LookupEnv "BEARER_TOKEN").map TokenSearch.literal,
    (existing env (env.LookupEnv "BEARER_TOKEN_FILE")).map TokenSearch.location,
    (existing env ((env.LookupEnv "XDG_RUNTIME_DIR").map fun d =>
      env.Join [d, "bt_u" ++ toString env.Getuid])).map TokenSearch.location,
    (existing env (some ("/tmp/bt_u" ++ toString env.Getuid))).map TokenSearch.location,
    (existing env (env.LookupEnv "TOKEN")).map TokenSearch.location,
    (existing env ((env.LookupEnv "_CONDOR_CREDS").map fun d =>
      env.Join [d, token_filename token_name])).map TokenSearch.location,
    (existing env (some (".condor_creds/" ++ token_filename token_name))).map fun _ =>
      TokenSearch.location (env.Abs (".condor_creds/" ++ token_filename token_name)).1 ]

/-- Step (1) as the specification words it: the configured token file, under the same
existence check as the other file steps. -/
def specStepOne (env : Env) : Option TokenSearch :=
  (existing env (if env.Options_Token ≠ "" then some env.Options_Token else none)).map
    TokenSearch.location

/-- Step (1) as the code has it: the configured token file whenever one is configured. -/
def codeStepOne (env : Env) : Option TokenSearch :=
  if env.Options_Token ≠ "" then some (.location env.Options_Token) else none

/-- First match wins; no match is "not found". -/
def firstMatch (steps : List (Option TokenSearch)) : TokenSearch :=
  (steps.findSome? id).getD .notFound

/-- The credential search as the specification words it: eight steps, each file step
skipped when its file does not exist. -/
def specGetToken (env : Env) (token_name : String) : String × GoError :=
  resolveToken env (firstMatch (specStepOne env :: laterSteps env token_name))

/-- One block of the search: it leaves `token_location` alone when it is set, and sets it
to the candidate of the block, if there is one, when it is still `""`. -/
def chain (token_location : String) (candidate : Option String) : String :=
  if token_location = "" then candidate.getD "" else token_location

/-- The candidates of the six file blocks after `BEARER_TOKEN`, in the order of the
source. -/
def fileCandidates (env : Env) (token_name : String) : List (Option String) :=
  [ existing env (env.LookupEnv "BEARER_TOKEN_FILE"),
    existing env ((env.LookupEnv "XDG_RUNTIME_DIR").map fun d =>
      env.Join [d, "bt_u" ++ toString env.Getuid]),
    existing env (some ("/tmp/bt_u" ++ toString env.Getuid)),
    existing env (env.LookupEnv "TOKEN"),
    existing env ((env.LookupEnv "_CONDOR_CREDS").map fun d =>
      env.Join [d, token_filename token_name]),
    (existing env (some (".condor_creds/" ++ token_filename token_name))).map fun _ =>
      (env.Abs (".condor_creds/" ++ token_filename token_name)).1 ]

/-! ## `Find` -/

/-- The loop of `Find`, entered at index `i`. -/
def Find.loop (val : String) : List String → Nat → Int × Bool
  | [], _ => (-1, false)
  | item :: rest, i => if item = val then ((i : Int), true) else Find.loop val rest (i + 1)

/-- Go: `func Find(slice []string, val string) (int, bool)`. -/
def Find (slice : List String) (val : String) : Int × Bool :=
  Find.loop val slice 0

/-! ## `get_ips` -/

/-- Go: `net.IP.To4`; `[]` is `nil`. -/
def IP_To4 (ip : List Nat) : List Nat :=
  if ip.length = 4 then ip
  else if ip.length = 16 ∧ (ip.take 10).all (fun b => b = 0) ∧ ip.getD 10 0 = 255 ∧
      ip.getD 11 0 = 255 then ip.drop 12
  else []

/-- Go: `net.IP.To16`; `[]` is `nil`. -/
def IP_To16 (ip : List Nat) : List Nat :=
  if ip.length = 4 then [0, 0, 0, 0, 0, 0, 0, 0, 0, 0, 255, 255] ++ ip
  else if ip.length = 16 then ip
  else []

/-- Go: `parsedIP.To4() != nil`, the test that sends `addr` to `ipv4s`. -/
def isIPv4 (env : Env) (addr : String) : Bool :=
  decide (IP_To4 (env.net_ParseIP addr) ≠ [])

/-- Go: the test that sends `addr` to `ipv6s`: `To4()` is `nil` and `To16()` is not. -/
def isIPv6 (env : Env) (addr : String) : Bool :=
  !isIPv4 env addr && decide (IP_To16 (env.net_ParseIP addr) ≠ [])

/-- Go: the `for _, addr := range info` loop of `get_ips`, which fills `ipv4s` and
`ipv6s`. -/
def partitionIPs (env : Env) : List String → List String × List String
  | [] => ([], [])
  | addr :: rest =>
    let parsedIP := env.net_ParseIP addr
    let r := partitionIPs env rest
    if IP_To4 parsedIP ≠ [] then (addr :: r.1, r.2)
    else if IP_To16 parsedIP ≠ [] then (r.1, ("[" ++ addr ++ "]") :: r.2)
    else r

/-- Go: `s[i], s[j] = s[j], s[i]`. -/
def swap (s : List String) (i j : Nat) : List String :=
  (s.set i (s.getD j "")).set j (s.getD i "")

/-- Go: the loop of `rand.Shuffle`, `for ; i > 0; i-- { j := r.int31n(i+1); swap(i, j) }`,
where `draw i` is the number the generator hands out at index `i`, reduced into
`[0, i]`. -/
def shuffleFrom (draw : Nat → Nat) : Nat → List String → List String
  | 0, s => s
  | i + 1, s => shuffleFrom draw i (swap s (i + 1) (draw (i + 1) % (i + 2)))

/-- Go: `rand.Shuffle(len(s), func(i, j int) { s[i], s[j] = s[j], s[i] })`. -/
def rand_Shuffle (draw : Nat → Nat) (s : List String) : List String :=
  shuffleFrom draw (s.length - 1) s

/-- Go: `func get_ips(name string) []string`; `draw4` and `draw6` are the outcomes of the
two shuffles. -/
def get_ips (env : Env) (draw4 draw6 : Nat → Nat) (name : String) : List String :=
  match env.net_LookupHost name with
  | (_, some _) => []
  | (info, none) =>
    let p := partitionIPs env info
    rand_Shuffle draw4 p.1 ++ rand_Shuffle draw6 p.2

/-! ## `parse_job_ad` -/

/-- Sequencing of calls that may fault: a panic or an exit ends the sequence. -/
def Ret.bind {α β : Type} (x : Ret α) (f : α → Ret β) : Ret β :=
  match x with
  | .val a => f a
  | .panic r => .panic r
  | .exit code => .exit code

/-- Go: the Go name of the dynamic type of an `interface{}` holding a ClassAd value. -/
def goTypeName : Option AdValue → String
  | none => "nil"
  | some (.str _) => "string"
  | some (.int _) => "int"
  | some (.other goType) => goType

/-- Go: the type assertion `v.(string)`, which panics on any other dynamic type. -/
def assertString (v : Option AdValue) : Ret String :=
  match v with
  | some (.str s) => .val s
  | _ => .panic ("interface conversion: interface {} is " ++ goTypeName v ++ ", not string")

/-- Go: the type assertion `v.(int)`. -/
def assertInt (v : Option AdValue) : Ret Int :=
  match v with
  | some (.int n) => .val n
  | _ => .panic ("interface conversion: interface {} is " ++ goTypeName v ++ ", not int")

/-- Go: `func parse_job_ad(span trace.Span)`. It only sets span attributes, so what is
left of it is how it ends: `log.Fatal` when the job ad cannot be read, a panic at `ads[0]`
or at a failed type assertion, a plain return otherwise. -/
def parse_job_ad (env : Env) : Ret Unit :=
  let filename : Option String :=
    match env.LookupEnv "_CONDOR_JOB_AD" with
    | some condorJobAd => some condorJobAd
    | none => if (env.Stat ".job.ad").ok then some ".job.ad" else none
  match filename with
  | none => .val ()
  | some filename =>
    match env.ReadClassAd filename with
    | (_, some _) => .exit 1
    | ([], none) => .panic "runtime error: index out of range [0] with length 0"
    | (ad :: _, none) =>
      (assertString (ad.lookup "Owner")).bind fun _ =>
      (assertString (ad.lookup "ProjectName")).bind fun _ =>
      (assertInt (ad.lookup "ClusterId")).bind fun _ =>
      (assertInt (ad.lookup "ProcId")).bind fun _ =>
      (assertString (ad.lookup "JOBGLIDEIN_ResourceName")).bind fun _ =>
      .val ()

/-! ## `es_send` -/

/-- Go: `func es_send(payload *payloadStruct) error`. The goroutine and the `select` are
represented by how their race ends. The payload it leaves behind comes first. -/
def es_send (env : Env) (tr : List Event) (payload : payloadStruct) : payloadStruct × GoError :=
  let payload := { payload with timestamp := env.time_Now 2 }
  match env.json_Marshal payload with
  | (_, some err) => (payload, some err)
  | (jsonBytes, none) =>
    match env.doEsSend_race tr jsonBytes with
    | .posted returnedError => (payload, returnedError)
    | .timeout => (payload, some "ES send timed out")

/-! ## `doWriteBack` -/

/-- Go: `func doWriteBack(ctx, source string, destination *url.URL, namespace Namespace)
(int64, error)`, with `ns` for the parameter `namespace`; `tr` is the list of calls made before, and the calls made here are
appended to it. -/
def doWriteBack (env : Env) (tr : List Event) (source : String) (destination : URL)
    (ns : Namespace) : Ret (Int × GoError) × List Event :=
  let tokenName := (getTokenName destination).2
  let tok := getToken env tokenName
  let tr1 := tr ++ [Event.getToken tokenName tok]
  match tok.2 with
  | some err => (.val (0, some err), tr1)
  | none =>
    let res := env.UploadFile tr1 source destination tok.1 ns
    (res, tr1 ++ [Event.UploadFile source destination tok.1 ns res])

/-! ## The method loop of `DoStashCPSingle` -/

/-- The variables the loop assigns: `payload` (through the pointer handed to the
backends), `downloaded` and `success`. -/
structure LoopVars where
  payload : payloadStruct
  downloaded : Int
  success : Bool
deriving DecidableEq, Repr

/-- Go: the `switch method` of the loop: the backend called for a method name, `none` in
the `default` case, which only logs. -/
def callBackend (env : Env) (tr : List Event) (method sourceFile destination : String)
    (payload : payloadStruct) (ns : Namespace) (recursive : Bool) (token_name : String) :
    Option (Ret (payloadStruct × Int × GoError)) :=
  if method = "cvmfs" then some (env.download_cvmfs tr sourceFile destination payload)
  else if method = "xrootd" then some (env.download_xrootd tr sourceFile destination payload)
  else if method = "http" then
    some (env.download_http tr sourceFile destination payload ns recursive token_name)
  else none

/-- What a backend call hands back to the loop, without the payload. -/
def Ret.dropPayload : Ret (payloadStruct × Int × GoError) → Ret (Int × GoError)
  | .val (_, n, err) => .val (n, err)
  | .panic r => .panic r
  | .exit code => .exit code

/-- The record of the backend call made for a recognised method name. -/
def backendEvent (method sourceFile destination : String) (ns : Namespace) (recursive : Bool)
    (token_name : String) (res : Ret (Int × GoError)) : Event :=
  if method = "cvmfs" then .download_cvmfs sourceFile destination res
  else if method = "xrootd" then .download_xrootd sourceFile destination res
  else .download_http sourceFile destination ns recursive token_name res

/-- Go: `Loop: for _, method := range methods { switch method { ... } }`. In each case
`downloaded, err = download_x(...)` is assigned whatever the backend returns, and
`err == nil` sets `success` and leaves the loop. -/
def methodLoop (env : Env) (sourceFile destination : String) (ns : Namespace)
    (recursive : Bool) (token_name : String) :
    List String → LoopVars → List Event → Ret LoopVars × List Event
  | [], v, tr => (.val v, tr)
  | method :: rest, v, tr =>
    match callBackend env tr method sourceFile destination v.payload ns recursive token_name with
    | none => methodLoop env sourceFile destination ns recursive token_name rest v tr
    | some res =>
      let tr1 := tr ++ [backendEvent method sourceFile destination ns recursive token_name
        res.dropPayload]
      match res with
      | .val (payload, downloaded, none) => (.val ⟨payload, downloaded, true⟩, tr1)
      | .val (payload, downloaded, some _) =>
        methodLoop env sourceFile destination ns recursive token_name rest
          ⟨payload, downloaded, v.success⟩ tr1
      | .panic r => (.panic r, tr1)
      | .exit code => (.exit code, tr1)

/-! ## `DoStashCPSingle` -/

/-- Go: `DoStashCPSingle` from `payload.end1 = time.Now().Unix()` to its last `return`:
the payload is completed, `es_send` is called and its error only logged, and the results
are `downloaded` with `nil` or with the error "failed to download file". -/
def report (env : Env) (v : LoopVars) (tr : List Event) : Ret (Int × GoError) × List Event :=
  let end1 := env.time_Now 1
  let payload :=
    { v.payload with end1 := end1, timestamp := end1, downloadTime := end1 - v.payload.start1 }
  let payload :=
    if v.success then
      { payload with status := "Success", fileSize := v.downloaded, downloadSize := v.downloaded }
    else { payload with status := "Fail" }
  let tr1 := tr ++ [Event.es_send payload (es_send env tr payload).2]
  if v.success then (.val (v.downloaded, none), tr1)
  else (.val (v.downloaded, some "failed to download file"), tr1)

/-- Go: the payload as `DoStashCPSingle` fills it before the loop. -/
def initialPayload (env : Env) (source_url : URL) : payloadStruct :=
  { payloadStruct.zero with
    version := env.version
    sitename := (env.LookupEnv "OSG_SITE_NAME").getD "siteNotFound"
    filename := source_url.Path
    start1 := env.time_Now 0 }

/-- Go: `DoStashCPSingle` from "get absolute path" to its last `return`: the download
once the namespace is known. `destStat.IsDir()` on the `nil` that `os.Stat` returns with
an error other than "not exist" is a nil dereference. -/
def transfer (env : Env) (sourceFile destination : String) (source_url : URL)
    (ns : Namespace) (methods : List String) (recursive : Bool) (tr : List Event) :
    Ret (Int × GoError) × List Event :=
  let destPath := (env.Abs destination).1
  let dest : Ret String :=
    match env.Stat destPath with
    | .notExist => .val destPath
    | .dir => .val (env.Join [destPath, env.Base sourceFile])
    | .file => .val destination
    | .otherErr => .panic "runtime error: invalid memory address or nil pointer dereference"
  match dest with
  | .panic r => (.panic r, tr)
  | .exit code => (.exit code, tr)
  | .val destination =>
    match parse_job_ad env with
    | .panic r => (.panic r, tr)
    | .exit code => (.exit code, tr)
    | .val _ =>
      let methods := if recursive then ["http"] else methods
      let token_name := (getTokenName source_url).2
      match methodLoop env sourceFile destination ns recursive token_name methods
          ⟨initialPayload env source_url, 0, false⟩ tr with
      | (.panic r, tr1) => (.panic r, tr1)
      | (.exit code, tr1) => (.exit code, tr1)
      | (.val v, tr1) => report env v tr1

/-- Go: `understoodSchemes`. -/
def understoodSchemes : List String := ["stash", "file", "osdf", ""]

/-- Go: `if u.Host != "" { u.Path = path.Join(u.Host, u.Path) }`. -/
def foldHost (env : Env) (u : URL) : URL :=
  if u.Host ≠ "" then { u with Path := env.Join [u.Host, u.Path] } else u

/-- Go: `destScheme`, the transport scheme `DoStashCPSingle` reads off its argument
`destination`. -/
def destSchemeOf (env : Env) (destination : String) : String :=
  (getTokenName (foldHost env (env.url_Parse destination).1)).1

/-- Go: `DoStashCPSingle` from `url.Parse(sourceFile)` on, the deferred calls left out:
how the body ends and the calls it made. -/
def body (env : Env) (sourceFile destination : String) (methods : List String)
    (recursive : Bool) : Ret (Int × GoError) × List Event :=
  match env.url_Parse sourceFile with
  | (_, some err) => (.val (0, some err), [])
  | (source_url, none) =>
    match env.url_Parse destination with
    | (_, some err) => (.val (0, some err), [])
    | (dest_url, none) =>
      let source_url := foldHost env source_url
      let dest_url := foldHost env dest_url
      let sourceScheme := (getTokenName source_url).1
      let destScheme := (getTokenName dest_url).1
      if (Find understoodSchemes sourceScheme).2 = false then
        (.val (0, some "Do not understand source scheme"), [])
      else if (Find understoodSchemes destScheme).2 = false then
        (.val (0, some "Do not understand destination scheme"), [])
      else if destScheme = "stash" ∨ destScheme = "osdf" then
        match env.MatchNamespace [] dest_url.Path with
        | .val (ns, err) =>
          doWriteBack env [Event.MatchNamespace dest_url.Path (.val (ns, err))]
            source_url.Path dest_url ns
        | .panic r => (.panic r, [Event.MatchNamespace dest_url.Path (.panic r)])
        | .exit code => (.exit code, [Event.MatchNamespace dest_url.Path (.exit code)])
      else
        let destination := if dest_url.Scheme = "file" then dest_url.Path else destination
        let sourceFile :=
          if sourceScheme = "stash" ∨ sourceScheme = "osdf" then source_url.Path else sourceFile
        match sourceFile.data with
        | [] => (.panic "runtime error: index out of range [0] with length 0", [])
        | c :: _ =>
          let sourceFile := if c ≠ '/' then "/" ++ sourceFile else sourceFile
          match env.MatchNamespace [] source_url.Path with
          | .val (ns, none) =>
            transfer env sourceFile destination source_url ns methods recursive
              [Event.MatchNamespace source_url.Path (.val (ns, none))]
          | .val (ns, some err) =>
            (.val (0, some err), [Event.MatchNamespace source_url.Path (.val (ns, some err))])
          | .panic r => (.panic r, [Event.MatchNamespace source_url.Path (.panic r)])
          | .exit code => (.exit code, [Event.MatchNamespace source_url.Path (.exit code)])

/-- How a call of `DoStashCPSingle` ends for its caller: it returns its two results, or
the process is gone. -/
inductive Outcome where
  | returned (bytesTransferred : Int) (err : GoError)
  | exited (code : Nat)
deriving DecidableEq, Repr

/-- A run of `DoStashCPSingle`: how it ends and the collaborator calls it made, in
order. -/
structure Run where
  outcome : Outcome
  trace : List Event
deriving DecidableEq, Repr

/-- Go: the message built by the deferred recovery handler. -/
def panicMessage (r : String) : String :=
  "Unrecoverable error (panic) captured in DoStashCPSingle: " ++ r

/-- Go: `func DoStashCPSingle(sourceFile string, destination string, methods []string,
recursive bool) (bytesTransferred int64, err error)`.

The deferred calls run last in, first out: `span.End()`, then the closure around
`tp.Shutdown`, which ends the process through `log.Fatal` when the shutdown reports an
error, then the recovery handler, which turns a panic into `(0, err)` and hands it to
`AddError`. When `otlptrace.New` fails only the recovery handler is registered. -/
def DoStashCPSingle (env : Env) (sourceFile destination : String) (methods : List String)
    (recursive : Bool) : Run :=
  match env.otlptrace_New with
  | some err => ⟨.returned 0 (some err), []⟩
  | none =>
    match body env sourceFile destination methods recursive with
    | (.exit code, tr) => ⟨.exited code, tr⟩
    | (.val (n, err), tr) =>
      match env.tp_Shutdown with
      | some _ => ⟨.exited 1, tr⟩
      | none => ⟨.returned n err, tr⟩
    | (.panic r, tr) =>
      match env.tp_Shutdown with
      | some _ => ⟨.exited 1, tr⟩
      | none => ⟨.returned 0 (some (panicMessage r)), tr ++ [Event.AddError (panicMessage r)]⟩

/-! ## Reading a trace -/

/-- The method names for which the `switch` of the loop has a case. -/
def recognised (method : String) : Bool :=
  method = "cvmfs" || method = "xrootd" || method = "http"

/-- The backend call an event records, as the method name and how the call ended; `none`
for the call of another collaborator. -/
def Event.backend : Event → Option (String × Ret (Int × GoError))
  | .download_cvmfs _ _ res => some ("cvmfs", res)
  | .download_xrootd _ _ res => some ("xrootd", res)
  | .download_http _ _ _ _ _ res => some ("http", res)
  | _ => none

/-- The backend calls of a trace, in the order they were made. -/
def backendCalls (tr : List Event) : List (String × Ret (Int × GoError)) :=
  tr.filterMap Event.backend

/-- The call returned, and its error was `nil`. -/
def returnsNil : Ret (Int × GoError) → Bool
  | .val (_, none) => true
  | _ => false

/-- The event records a call of `UploadFile`. -/
def Event.isUploadFile : Event → Bool
  | .UploadFile _ _ _ _ _ => true
  | _ => false

/-- The event records a call of `es_send`. -/
def Event.isEsSend : Event → Bool
  | .es_send _ _ => true
  | _ => false

/-- The event records a call of `AddError`. -/
def Event.isAddError : Event → Bool
  | .AddError _ => true
  | _ => false

/-- Go: the list the loop ranges over, after `if recursive { methods = []string{"http"} }`. -/
def effectiveMethods (methods : List String) (recursive : Bool) : List String :=
  if recursive then ["http"] else methods

/-- The host `env` with another behaviour of what `es_send` depends on: the JSON encoder
and the race between the POST and the timer. -/
def withEsSend (env : Env) (marshal : payloadStruct → String × GoError)
    (race : List Event → String → EsRace) : Env :=
  { env with json_Marshal := marshal, doEsSend_race := race }

/-- An event without the error `es_send` returned. -/
def Event.eraseEsResult : Event → Event
  | .es_send payload _ => .es_send payload none
  | e => e

/-- The error `es_send` returned, for an event that records a call of `es_send`. -/
def Event.esSendResult : Event → Option GoError
  | .es_send _ res => some res
  | _ => none

/-- How the recorded call ended. -/
def Event.ret : Event → Option (Ret Unit)
  | .MatchNamespace _ res => some (res.bind fun _ => .val ())
  | .UploadFile _ _ _ _ res => some (res.bind fun _ => .val ())
  | .download_cvmfs _ _ res => some (res.bind fun _ => .val ())
  | .download_xrootd _ _ res => some (res.bind fun _ => .val ())
  | .download_http _ _ _ _ _ res => some (res.bind fun _ => .val ())
  | _ => none

/-- The recorded call ended the process with this exit code. -/
def Event.exitsWith (e : Event) (code : Nat) : Prop :=
  e.ret = some (.exit code)

/-- When the body ended the process with `code`, it was the `log.Fatal` of `parse_job_ad`
or a collaborator whose call is in the trace. -/
def ExitCause (env : Env) (code : Nat) (b : Ret (Int × GoError) × List Event) : Prop :=
  b.1 = .exit code → parse_job_ad env = .exit code ∨ ∃ e ∈ b.2, e.exitsWith code

/-- The calls in the trace of `b` are those of `tr`, backend calls and calls of
`es_send`. -/
def OnlyAdds (tr : List Event) (b : Ret (Int × GoError) × List Event) : Prop :=
  ∀ e ∈ b.2, e ∈ tr ∨ e.backend ≠ none ∨ e.isEsSend = true

/-- Go: `source_url` after the host is folded into the path. -/
def sourceUrlOf (env : Env) (sourceFile : String) : URL :=
  foldHost env (env.url_Parse sourceFile).1

/-- Go: `dest_url` after the host is folded into the path. -/
def destUrlOf (env : Env) (destination : String) : URL :=
  foldHost env (env.url_Parse destination).1

/-- Where a body (`b`) stands that recorded a call of `MatchNamespace` returning the
namespace `ns` with the error `e`: it is a download and the body returned `(0, e)` right
after that call, or it is a writeback, the call was made for the destination path, and the
body is what `doWriteBack` does with `ns`. -/
def NamespaceErrorCases (env : Env) (sourceFile destination path : String) (ns : Namespace)
    (e : String) (b : Ret (Int × GoError) × List Event) : Prop :=
  Event.MatchNamespace path (.val (ns, some e)) ∈ b.2 →
    (¬ (destSchemeOf env destination = "stash" ∨ destSchemeOf env destination = "osdf") ∧
      b = (.val (0, some e), [Event.MatchNamespace path (.val (ns, some e))])) ∨
    ((destSchemeOf env destination = "stash" ∨ destSchemeOf env destination = "osdf") ∧
      path = (destUrlOf env destination).Path ∧
      b = doWriteBack env [Event.MatchNamespace path (.val (ns, some e))]
        (sourceUrlOf env sourceFile).Path (destUrlOf env destination) ns)

/-- The recorded call is a call the program made: with `history` the calls made before
it, the collaborator applied to the recorded arguments (and, for a backend, to some payload)
ended as recorded. -/
def Event.madeBy (env : Env) (history : List Event) : Event → Prop
  | .MatchNamespace path res => res = env.MatchNamespace history path
  | .getToken token_name res => res = Stashcp.getToken env token_name
  | .UploadFile source destination token ns res =>
    res = env.UploadFile history source destination token ns
  | .download_cvmfs sourceFile destination res =>
    ∃ payload, res = (env.download_cvmfs history sourceFile destination payload).dropPayload
  | .download_xrootd sourceFile destination res =>
    ∃ payload, res = (env.download_xrootd history sourceFile destination payload).dropPayload
  | .download_http sourceFile destination ns recursive token_name res =>
    ∃ payload, res = (env.download_http history sourceFile destination payload ns recursive
      token_name).dropPayload
  | .es_send payload res => res = (Stashcp.es_send env history payload).2
  | .AddError _ => True

/-- Every call in the trace was made by the program, after the calls recorded before it. -/
def Faithful (env : Env) (tr : List Event) : Prop :=
  ∀ pre e post, tr = pre ++ e :: post → e.madeBy env pre

/-- The host `env` with other backends. -/
def withBackends (env : Env)
    (cvmfs xrootd : List Event → String → String → payloadStruct →
      Ret (payloadStruct × Int × GoError))
    (http : List Event → String → String → payloadStruct → Namespace → Bool → String →
      Ret (payloadStruct × Int × GoError)) : Env :=
  { env with download_cvmfs := cvmfs, download_xrootd := xrootd, download_http := http }

/-- The events the loop appends for a list of backend calls. -/
def callEvents (sourceFile destination : String) (ns : Namespace) (recursive : Bool)
    (token_name : String) (calls : List (String × Ret (Int × GoError))) : List Event :=
  calls.map fun c => backendEvent c.1 sourceFile destination ns recursive token_name c.2

/-- What holds of the way the body of `DoStashCPSingle` ends (`r`) and of the calls it made
(`tr`), for the method list `eff` the loop ranges over and the flag `recursive`; `wb` says
that the destination is in the federation (a writeback). -/
structure BodyFacts (wb : Prop) (eff : List String) (recursive : Bool)
    (r : Ret (Int × GoError)) (tr : List Event) : Prop where
  order : (backendCalls tr).map Prod.fst <+: eff.filter recognised
  stop : ∀ pre c post, backendCalls tr = pre ++ c :: post → returnsNil c.2 = true → post = []
  result : ∀ n err, r = .val (n, err) →
    (err = none ∧ ∃ pre m, backendCalls tr = pre ++ [(m, .val (n, none))]) ∨
    (err ≠ none ∧ ∀ c ∈ backendCalls tr, returnsNil c.2 = false) ∨ wb
  fault : (∀ x, r ≠ .val x) → ∀ c ∈ backendCalls tr, returnsNil c.2 = false
  panics : ∀ m p, (m, Ret.panic p) ∈ backendCalls tr → r = .panic p
  exits : ∀ m code, (m, Ret.exit code) ∈ backendCalls tr → r = .exit code
  flag : ∀ sf dst ns b tok res, Event.download_http sf dst ns b tok res ∈ tr → b = recursive
  complete : (∃ e ∈ tr, e.isEsSend = true) → (∀ c ∈ backendCalls tr, returnsNil c.2 = false) →
    (backendCalls tr).map Prod.fst = eff.filter recognised
  noAddError : ∀ e ∈ tr, e.isAddError = false
  esLast : ∀ pre e post, tr = pre ++ e :: post → e.isEsSend = true → post = []

/-- An event of a collaborator that is neither a backend, nor `UploadFile`, `es_send` or
`AddError`. -/
def Event.plain (e : Event) : Prop :=
  e.backend = none ∧ e.isUploadFile = false ∧ e.isEsSend = false ∧ e.isAddError = false

/-! ## Concrete environments -/

/-- A host with no token, no job ad and an empty filesystem, on which every collaborator
fails: `url.Parse` knows one federation locator and one `ftp` locator and reads anything
else as a plain path. -/
def quietEnv : Env where
  Options_Token := ""
  version := "6.0"
  LookupEnv := fun _ => none
  Stat := fun _ => .notExist
  ReadFile := fun _ => ("", some "no such file or directory")
  Getuid := 1000
  Join := fun elems => "/".intercalate elems
  Base := fun s => s
  Abs := fun s => (s, none)
  IntSize := 64
  json_Marshal := fun _ => ("\x7b\x7d", none)
  url_Parse := fun s =>
    if s = "stash:///osgconnect/public/data.txt" then
      (⟨"stash", "", "/osgconnect/public/data.txt"⟩, none)
    else if s = "ftp://host/path" then (⟨"ftp", "host", "/path"⟩, none)
    else (⟨"", "", s⟩, none)
  net_LookupHost := fun _ => ([], some "no such host")
  net_ParseIP := fun _ => []
  time_Now := fun n => 1700000000 + n
  otlptrace_New := none
  tp_Shutdown := none
  ReadClassAd := fun _ => ([], some "no job ad")
  MatchNamespace := fun _ _ => .val (⟨1⟩, none)
  UploadFile := fun _ _ _ _ _ => .val (0, some "upload failed")
  download_cvmfs := fun _ _ _ p => .val (p, 0, some "cvmfs failed")
  download_xrootd := fun _ _ _ p => .val (p, 0, some "xrootd failed")
  download_http := fun _ _ _ p _ _ _ => .val (p, 0, some "http failed")
  doEsSend_race := fun _ _ => .posted none

/-- The scenario of the fallback example: `download_cvmfs` and `download_xrootd` fail and
`download_http` succeeds with 1024 bytes. -/
def fallbackEnv : Env :=
  { quietEnv with download_http := fun _ _ _ p _ _ _ => .val (p, 1024, none) }

/-- A host with a configured token file that does not exist and a `BEARER_TOKEN` in the
environment. -/
def missingConfiguredTokenEnv : Env :=
  { quietEnv with
    Options_Token := "/home/user/token"
    LookupEnv := fun name => if name = "BEARER_TOKEN" then some "abc" else none }

/-- A host with `BEARER_TOKEN` set and a credential-store file `scitokens.use`. -/
def bearerAndStoreEnv : Env :=
  { quietEnv with
    LookupEnv := fun name =>
      if name = "BEARER_TOKEN" then some "abc"
      else if name = "_CONDOR_CREDS" then some "/var/lib/condor/creds" else none
    Stat := fun p => if p = "/var/lib/condor/creds/scitokens.use" then .file else .notExist
    ReadFile := fun p =>
      if p = "/var/lib/condor/creds/scitokens.use" then ("xyz123\n", none)
      else ("", some "no such file or directory") }

/-- A host whose configured token file holds a JSON object with a string `access_token`
and a number `expires_in`. -/
def jsonTokenEnv : Env :=
  { quietEnv with
    Options_Token := "/home/user/token"
    ReadFile := fun p =>
      if p = "/home/user/token" then
        ("\x7b\"access_token\":\"abc\",\"expires_in\":3600\x7d", none)
      else ("", some "no such file or directory") }

/-- A host whose configured token file holds a JSON object with a string `access_token`
and with `expires_in` written as a string. -/
def stringExpiryTokenEnv : Env :=
  { quietEnv with
    Options_Token := "/home/user/token"
    ReadFile := fun p =>
      if p = "/home/user/token" then
        ("\x7b\"access_token\":\"abc\",\"expires_in\":\"3600\"\x7d", none)
      else ("", some "no such file or directory") }

/-- A host whose configured token file holds the bare token and a newline. -/
def plainTokenEnv : Env :=
  { quietEnv with
    Options_Token := "/home/user/token"
    ReadFile := fun p =>
      if p = "/home/user/token" then ("xyz123\n", none)
      else ("", some "no such file or directory") }

/-- A host on which `cache.example.org` resolves to two IPv6 and two IPv4 addresses, the
IPv6 ones first; `net.ParseIP` returns the 16-byte form, as it does for both families. -/
def dnsEnv : Env :=
  { quietEnv with
    net_LookupHost := fun name =>
      if name = "cache.example.org" then
        (["2001:db8::1", "192.0.2.1", "2001:db8::2", "192.0.2.2"], none)
      else ([], some "no such host")
    net_ParseIP := fun addr =>
      if addr = "192.0.2.1" then [0, 0, 0, 0, 0, 0, 0, 0, 0, 0, 255, 255, 192, 0, 2, 1]
      else if addr = "192.0.2.2" then [0, 0, 0, 0, 0, 0, 0, 0, 0, 0, 255, 255, 192, 0, 2, 2]
      else if addr = "2001:db8::1" then [32, 1, 13, 184, 0, 0, 0, 0, 0, 0, 0, 0, 0, 0, 0, 1]
      else if addr = "2001:db8::2" then [32, 1, 13, 184, 0, 0, 0, 0, 0, 0, 0, 0, 0, 0, 0, 2]
      else [] }

/-- The host of `quietEnv`, on which `download_http` panics. -/
def panickingBackendEnv : Env :=
  { quietEnv with
    download_http := fun _ _ _ _ _ _ _ => .panic "assignment to entry in nil map" }

/-- The host of `quietEnv`, on which `download_http` succeeds with 1024 bytes when it is
called with the recursive flag and fails without it. -/
def recursiveOnlyEnv : Env :=
  { quietEnv with
    download_http := fun _ _ _ p _ recursive _ =>
      if recursive then .val (p, 1024, none) else .val (p, 0, some "not a directory listing") }

/-- The host of `fallbackEnv`, on which the namespace lookup fails: `MatchNamespace`
returns the zero namespace and an error. `download_http` would succeed if it were called. -/
def namespaceFailsEnv : Env :=
  { fallbackEnv with MatchNamespace := fun _ _ => .val (⟨0⟩, some "no namespace found") }

/-- The host of `namespaceFailsEnv` with a bearer token in the environment and an upload
backend that stores 2048 bytes. -/
def namespaceFailsUploadEnv : Env :=
  { namespaceFailsEnv with
    LookupEnv := fun name => if name = "BEARER_TOKEN" then some "abc" else none
    UploadFile := fun _ _ _ _ _ => .val (2048, none) }

/-! ## Lemmas on the method loop and on the body -/

theorem callBackend_eq_none (env : Env) (tr : List Event) (method sf dst : String)
    (p : payloadStruct) (ns : Namespace) (rc : Bool) (tok : String) :
    callBackend env tr method sf dst p ns rc tok = none ↔ recognised method = false := by
  unfold callBackend recognised
  by_cases h1 : method = "cvmfs"
  · simp [h1]
  · by_cases h2 : method = "xrootd"
    · simp [h2]
    · by_cases h3 : method = "http"
      · simp [h3]
      · simp [h1, h2, h3]

theorem backend_backendEvent (method sf dst : String) (ns : Namespace) (rc : Bool)
    (tok : String) (res : Ret (Int × GoError)) (h : recognised method = true) :
    (backendEvent method sf dst ns rc tok res).backend = some (method, res) := by
  unfold backendEvent
  unfold recognised at h
  by_cases h1 : method = "cvmfs"
  · simp [h1, Event.backend]
  · by_cases h2 : method = "xrootd"
    · simp [h2, Event.backend]
    · have h3 : method = "http" := by simpa [h1, h2] using h
      simp [h3, Event.backend]

theorem methodLoop_spec (env : Env) (sf dst : String) (ns : Namespace) (rc : Bool)
    (tok : String) : ∀ (ms : List String) (v : LoopVars) (tr : List Event),
    ∃ calls : List (String × Ret (Int × GoError)),
      (methodLoop env sf dst ns rc tok ms v tr).2 = tr ++ callEvents sf dst ns rc tok calls ∧
      (∀ c ∈ calls, recognised c.1 = true) ∧
      calls.map Prod.fst <+: ms.filter recognised ∧
      (∀ pre c post, calls = pre ++ c :: post → returnsNil c.2 = true → post = []) ∧
      (∀ w, (methodLoop env sf dst ns rc tok ms v tr).1 = .val w →
        (w.success = true ∧ ∃ pre m, calls = pre ++ [(m, .val (w.downloaded, none))]) ∨
        (w.success = v.success ∧ (∀ c ∈ calls, returnsNil c.2 = false) ∧
          calls.map Prod.fst = ms.filter recognised)) ∧
      ((∀ w, (methodLoop env sf dst ns rc tok ms v tr).1 ≠ .val w) →
        ∀ c ∈ calls, returnsNil c.2 = false) ∧
      (∀ m r, (m, Ret.panic r) ∈ calls → (methodLoop env sf dst ns rc tok ms v tr).1 = .panic r) ∧
      (∀ m code, (m, Ret.exit code) ∈ calls →
        (methodLoop env sf dst ns rc tok ms v tr).1 = .exit code) := by
  intro ms
  induction ms with
  | nil =>
    intro v tr
    refine ⟨[], ?_⟩
    simp [methodLoop, callEvents]
  | cons m rest ih =>
    intro v tr
    unfold methodLoop
    cases hcb : callBackend env tr m sf dst v.payload ns rc tok with
    | none =>
      have hm : recognised m = false := (callBackend_eq_none ..).1 hcb
      obtain ⟨calls, h1, h2, h3, h4, h5, h6, h7, h8⟩ := ih v tr
      refine ⟨calls, ?_⟩
      simp only [List.filter_cons, hm]
      exact ⟨h1, h2, by simpa using h3, h4, h5, h6, h7, h8⟩
    | some res =>
      have hm : recognised m = true := by
        by_contra hne
        have := (callBackend_eq_none env tr m sf dst v.payload ns rc tok).2 (by simpa using hne)
        simp [hcb] at this
      cases res with
      | val a =>
        obtain ⟨p, n, err⟩ := a
        cases err with
        | none =>
          refine ⟨[(m, .val (n, none))], ?_⟩
          simp only [Ret.dropPayload, callEvents, List.map_cons, List.map_nil, true_and]
          refine ⟨?_, ?_, ?_, ?_, ?_, ?_, ?_⟩
          · simpa using hm
          · simp [List.filter_cons, hm]
          · intro pre c post h _
            cases pre with
            | nil => simp at h; exact h.2
            | cons x xs => simp at h
          · intro w hw
            left
            simp at hw
            subst hw
            exact ⟨rfl, [], m, rfl⟩
          · intro hne
            exact absurd rfl (hne _)
          · intro m' r hmem
            simp at hmem
          · intro m' r hmem
            simp at hmem
        | some e =>
          obtain ⟨calls, h1, h2, h3, h4, h5, h6, h7, h8⟩ := ih ⟨p, n, v.success⟩
            (tr ++ [backendEvent m sf dst ns rc tok (.val (n, some e))])
          refine ⟨(m, .val (n, some e)) :: calls, ?_⟩
          simp only [Ret.dropPayload]
          refine ⟨?_, ?_, ?_, ?_, ?_, ?_, ?_, ?_⟩
          · rw [h1]; simp [callEvents]
          · intro c hc
            rcases List.mem_cons.1 hc with rfl | hc
            · exact hm
            · exact h2 c hc
          · simp only [List.filter_cons, hm, List.map_cons, if_true]
            exact List.prefix_cons_inj _ |>.2 h3
          · intro pre c post h hok
            cases pre with
            | nil =>
              simp at h
              rw [← h.1] at hok
              simp [returnsNil] at hok
            | cons x xs =>
              simp at h
              exact h4 xs c post h.2 hok
          · intro w hw
            rcases h5 w hw with ⟨hs, pre, m', hp⟩ | ⟨hs, hno, hall⟩
            · left
              exact ⟨hs, (m, .val (n, some e)) :: pre, m', by simp [hp]⟩
            · right
              refine ⟨hs, ?_, ?_⟩
              · intro c hc
                rcases List.mem_cons.1 hc with rfl | hc
                · simp [returnsNil]
                · exact hno c hc
              · simp [List.filter_cons, hm, hall]
          · intro hne c hc
            rcases List.mem_cons.1 hc with rfl | hc
            · simp [returnsNil]
            · exact h6 hne c hc
          · intro m' r hmem
            rcases List.mem_cons.1 hmem with h | h
            · simp at h
            · exact h7 m' r h
          · intro m' r hmem
            rcases List.mem_cons.1 hmem with h | h
            · simp at h
            · exact h8 m' r h
      | panic r =>
        refine ⟨[(m, .panic r)], ?_⟩
        simp only [Ret.dropPayload, callEvents, List.map_cons, List.map_nil, true_and]
        refine ⟨?_, ?_, ?_, ?_, ?_, ?_, ?_⟩
        · simpa using hm
        · simp [List.filter_cons, hm]
        · intro pre c post h _
          cases pre with
          | nil => simp at h; exact h.2
          | cons x xs => simp at h
        · intro w hw
          simp at hw
        · intro _ c hc
          simp at hc
          subst hc
          simp [returnsNil]
        · intro m' r' hmem
          simp at hmem
          try simp [hmem]
        · intro m' r' hmem
          simp at hmem
          try simp [hmem]
      | exit code =>
        refine ⟨[(m, .exit code)], ?_⟩
        simp only [Ret.dropPayload, callEvents, List.map_cons, List.map_nil, true_and]
        refine ⟨?_, ?_, ?_, ?_, ?_, ?_, ?_⟩
        · simpa using hm
        · simp [List.filter_cons, hm]
        · intro pre c post h _
          cases pre with
          | nil => simp at h; exact h.2
          | cons x xs => simp at h
        · intro w hw
          simp at hw
        · intro _ c hc
          simp at hc
          subst hc
          simp [returnsNil]
        · intro m' r' hmem
          simp at hmem
          try simp [hmem]
        · intro m' r' hmem
          simp at hmem
          try simp [hmem]

theorem backendCalls_append (a b : List Event) :
    backendCalls (a ++ b) = backendCalls a ++ backendCalls b := by
  simp [backendCalls]

theorem backendCalls_callEvents (sf dst : String) (ns : Namespace) (rc : Bool) (tok : String)
    (calls : List (String × Ret (Int × GoError))) (h : ∀ c ∈ calls, recognised c.1 = true) :
    backendCalls (callEvents sf dst ns rc tok calls) = calls := by
  induction calls with
  | nil => simp [callEvents, backendCalls]
  | cons c cs ih =>
    have hc := h c (List.mem_cons_self _ _)
    have ih' := ih (fun x hx => h x (List.mem_cons_of_mem _ hx))
    simp only [callEvents, backendCalls, List.map_cons] at ih' ⊢
    rw [List.filterMap_cons, backend_backendEvent _ _ _ _ _ _ _ hc]
    simp [ih']

theorem backendEvent_kinds (m sf dst : String) (ns : Namespace) (rc : Bool) (tok : String)
    (res : Ret (Int × GoError)) :
    (backendEvent m sf dst ns rc tok res).isUploadFile = false ∧
    (backendEvent m sf dst ns rc tok res).isEsSend = false ∧
    (backendEvent m sf dst ns rc tok res).isAddError = false ∧
    ∀ sf' dst' ns' b tok' res',
      backendEvent m sf dst ns rc tok res = Event.download_http sf' dst' ns' b tok' res' →
      b = rc := by
  unfold backendEvent
  split
  · simp [Event.isUploadFile, Event.isEsSend, Event.isAddError]
  · split
    · simp [Event.isUploadFile, Event.isEsSend, Event.isAddError]
    · refine ⟨rfl, rfl, rfl, ?_⟩
      intro sf' dst' ns' b tok' res' h
      injection h with _ _ _ h4
      exact h4.symm

theorem backendCalls_plain (tr : List Event) (h : ∀ e ∈ tr, e.plain) : backendCalls tr = [] := by
  induction tr with
  | nil => rfl
  | cons e es ih =>
    have he := (h e (List.mem_cons_self _ _)).1
    have := ih (fun x hx => h x (List.mem_cons_of_mem _ hx))
    simp only [backendCalls] at this ⊢
    rw [List.filterMap_cons, he]
    exact this

theorem facts_of_shape (wb : Prop) (eff : List String) (rc : Bool) (r : Ret (Int × GoError))
    (tr0 : List Event) (sf dst : String) (ns : Namespace) (tok : String)
    (calls : List (String × Ret (Int × GoError))) (tail : List Event)
    (h0 : ∀ e ∈ tr0, e.plain)
    (hrec : ∀ c ∈ calls, recognised c.1 = true)
    (hpre : calls.map Prod.fst <+: eff.filter recognised)
    (hstop : ∀ pre c post, calls = pre ++ c :: post → returnsNil c.2 = true → post = [])
    (htail : tail = [] ∨ ∃ p e, tail = [Event.es_send p e])
    (hres : ∀ n err, r = .val (n, err) →
      (err = none ∧ ∃ pre m, calls = pre ++ [(m, .val (n, none))]) ∨
      (err ≠ none ∧ ∀ c ∈ calls, returnsNil c.2 = false))
    (hfault : (∀ x, r ≠ .val x) → ∀ c ∈ calls, returnsNil c.2 = false)
    (hp : ∀ m p, (m, Ret.panic p) ∈ calls → r = .panic p)
    (he : ∀ m code, (m, Ret.exit code) ∈ calls → r = .exit code)
    (hcomplete : tail ≠ [] → (∀ c ∈ calls, returnsNil c.2 = false) →
      calls.map Prod.fst = eff.filter recognised) :
    BodyFacts wb eff rc r (tr0 ++ callEvents sf dst ns rc tok calls ++ tail) := by
  have htailb : backendCalls tail = [] := by
    rcases htail with rfl | ⟨p, e, rfl⟩ <;> simp [backendCalls, Event.backend]
  have hcalls : backendCalls (tr0 ++ callEvents sf dst ns rc tok calls ++ tail) = calls := by
    rw [backendCalls_append, backendCalls_append, backendCalls_plain tr0 h0,
      backendCalls_callEvents _ _ _ _ _ _ hrec, htailb]
    simp
  have hmem : ∀ e ∈ tr0 ++ callEvents sf dst ns rc tok calls ++ tail,
      e ∈ tr0 ∨ (∃ c ∈ calls, e = backendEvent c.1 sf dst ns rc tok c.2) ∨ e ∈ tail := by
    intro e hmem
    simp only [List.mem_append, callEvents, List.mem_map] at hmem
    rcases hmem with (h | ⟨c, hc, rfl⟩) | h
    · exact Or.inl h
    · exact Or.inr (Or.inl ⟨c, hc, rfl⟩)
    · exact Or.inr (Or.inr h)
  refine ⟨?_, ?_, ?_, ?_, ?_, ?_, ?_, ?_, ?_, ?_⟩
  · rw [hcalls]; exact hpre
  · rw [hcalls]; exact hstop
  · intro n err hr
    rw [hcalls]
    rcases hres n err hr with h | h
    · exact Or.inl h
    · exact Or.inr (Or.inl h)
  · rw [hcalls]; exact hfault
  · rw [hcalls]; exact hp
  · rw [hcalls]; exact he
  · intro sf' dst' ns' b tok' res' hmem'
    rcases hmem _ hmem' with h | ⟨c, _, h⟩ | h
    · have := (h0 _ h).1
      simp [Event.backend] at this
    · exact (backendEvent_kinds c.1 sf dst ns rc tok c.2).2.2.2 _ _ _ _ _ _ h.symm
    · rcases htail with rfl | ⟨p, e, rfl⟩ <;> simp at h
  · rintro ⟨e, hmem', hes⟩ hno
    rw [hcalls]
    rcases hmem _ hmem' with h | ⟨c, _, h⟩ | h
    · rw [(h0 _ h).2.2.1] at hes; cases hes
    · rw [h, (backendEvent_kinds c.1 sf dst ns rc tok c.2).2.1] at hes; cases hes
    · apply hcomplete
      · intro ht; rw [ht] at h; cases h
      · rw [hcalls] at hno; exact hno
  · intro e hmem'
    rcases hmem _ hmem' with h | ⟨c, _, h⟩ | h
    · exact (h0 _ h).2.2.2
    · rw [h]; exact (backendEvent_kinds c.1 sf dst ns rc tok c.2).2.2.1
    · rcases htail with rfl | ⟨p, e', rfl⟩
      · cases h
      · simp at h; subst h; rfl
  · intro pre e post heq hes
    rcases htail with rfl | ⟨p, e', rfl⟩
    · have : e ∈ tr0 ++ callEvents sf dst ns rc tok calls ++ [] := by rw [heq]; simp
      rcases hmem _ this with h | ⟨c, _, h⟩ | h
      · rw [(h0 _ h).2.2.1] at hes; cases hes
      · rw [h, (backendEvent_kinds c.1 sf dst ns rc tok c.2).2.1] at hes; cases hes
      · cases h
    · rcases List.eq_nil_or_concat post with hpost | ⟨post', x, hpost⟩
      · exact hpost
      · exfalso
        rw [hpost, List.concat_eq_append, ← List.cons_append, ← List.append_assoc] at heq
        have h1 := List.append_inj_left' heq rfl
        have : e ∈ tr0 ++ callEvents sf dst ns rc tok calls := by rw [h1]; simp
        simp only [List.mem_append, callEvents, List.mem_map] at this
        rcases this with h | ⟨c, _, rfl⟩
        · rw [(h0 _ h).2.2.1] at hes; cases hes
        · rw [(backendEvent_kinds c.1 sf dst ns rc tok c.2).2.1] at hes; cases hes

theorem facts_of_fault (wb : Prop) (eff : List String) (rc : Bool) (r : Ret (Int × GoError))
    (tr0 : List Event) (h0 : ∀ e ∈ tr0, e.plain)
    (hr : ∀ n err, r = .val (n, err) → err ≠ none) : BodyFacts wb eff rc r tr0 := by
  have h := facts_of_shape wb eff rc r tr0 "" "" ⟨0⟩ "" [] [] h0 (by simp) (by simp [callEvents])
    (by simp) (Or.inl rfl) (fun n err hv => Or.inr ⟨hr n err hv, by simp⟩) (by simp) (by simp)
    (by simp) (by simp)
  simpa [callEvents] using h

theorem transfer_facts (env : Env) (sf dst : String) (su : URL) (ns : Namespace)
    (methods : List String) (rc : Bool) (tr : List Event) (h0 : ∀ e ∈ tr, e.plain)
    (wb : Prop) :
    BodyFacts wb (effectiveMethods methods rc) rc
      (transfer env sf dst su ns methods rc tr).1 (transfer env sf dst su ns methods rc tr).2 := by
  unfold transfer
  simp only
  split
  · exact facts_of_fault _ _ _ _ _ h0 (by simp)
  · exact facts_of_fault _ _ _ _ _ h0 (by simp)
  · rename_i dst' _
    split
    · exact facts_of_fault _ _ _ _ _ h0 (by simp)
    · exact facts_of_fault _ _ _ _ _ h0 (by simp)
    · generalize hout : methodLoop env sf dst' ns rc (getTokenName su).2
        (if rc = true then ["http"] else methods) ⟨initialPayload env su, 0, false⟩ tr = out
      obtain ⟨calls, h1, h2, h3, h4, h5, h6, h7, h8⟩ := methodLoop_spec env sf dst' ns rc
        (getTokenName su).2 (if rc = true then ["http"] else methods)
        ⟨initialPayload env su, 0, false⟩ tr
      rw [hout] at h1 h5 h6 h7 h8
      obtain ⟨res, tr1⟩ := out
      simp only at h1 h5 h6 h7 h8
      subst h1
      have happ : ∀ (tl : List Event), tr ++ callEvents sf dst' ns rc (getTokenName su).2 calls
          = tr ++ callEvents sf dst' ns rc (getTokenName su).2 calls ++ [] := by simp
      cases res with
      | panic r =>
        simp only
        rw [happ []]
        exact facts_of_shape _ _ _ _ _ _ _ _ _ _ _ h0 h2 h3 h4 (Or.inl rfl) (by simp)
          (fun _ => h6 (by simp))
          (fun m p hm => by have := h7 m p hm; cases this; rfl)
          (fun m p hm => by have := h8 m p hm; cases this) (by simp)
      | exit code =>
        simp only
        rw [happ []]
        exact facts_of_shape _ _ _ _ _ _ _ _ _ _ _ h0 h2 h3 h4 (Or.inl rfl) (by simp)
          (fun _ => h6 (by simp))
          (fun m p hm => by have := h7 m p hm; cases this)
          (fun m p hm => by have := h8 m p hm; cases this; rfl) (by simp)
      | val w =>
        simp only [report]
        rcases h5 w rfl with ⟨hs, pre, m, hc⟩ | ⟨hs, hno, hall⟩
        · simp only [hs, if_true]
          refine facts_of_shape _ _ _ _ _ _ _ _ _ _ _ h0 h2 h3 h4 (Or.inr ⟨_, _, rfl⟩) ?_ (by simp)
            (fun m p hm => by have := h7 m p hm; cases this)
            (fun m p hm => by have := h8 m p hm; cases this) ?_
          · intro n err hv
            left
            simp at hv
            obtain ⟨rfl, rfl⟩ := hv
            exact ⟨rfl, pre, m, hc⟩
          · intro _ hno
            have := hno (m, .val (w.downloaded, none)) (by simp [hc])
            simp [returnsNil] at this
        · simp only [hs, Bool.false_eq_true, if_false]
          refine facts_of_shape _ _ _ _ _ _ _ _ _ _ _ h0 h2 h3 h4 (Or.inr ⟨_, _, rfl⟩) ?_ (by simp)
            (fun m p hm => by have := h7 m p hm; cases this)
            (fun m p hm => by have := h8 m p hm; cases this) ?_
          · intro n err hv
            right
            simp at hv
            obtain ⟨rfl, rfl⟩ := hv
            exact ⟨by simp, hno⟩
          · intro _ _
            exact hall

theorem facts_of_quiet (wb : Prop) (eff : List String) (rc : Bool) (r : Ret (Int × GoError))
    (tr0 : List Event)
    (h0 : ∀ e ∈ tr0, e.backend = none ∧ e.isEsSend = false ∧ e.isAddError = false)
    (hr : ∀ n err, r = .val (n, err) → err ≠ none ∨ wb) :
    BodyFacts wb eff rc r tr0 := by
  have hb : backendCalls tr0 = [] := by
    unfold backendCalls
    rw [List.filterMap_eq_nil_iff]
    intro e he
    exact (h0 e he).1
  refine ⟨?_, ?_, ?_, ?_, ?_, ?_, ?_, ?_, ?_, ?_⟩
  · rw [hb]; simp
  · rw [hb]; intro pre c post h; simp at h
  · intro n err hv
    rcases hr n err hv with h | h
    · exact Or.inr (Or.inl ⟨h, by rw [hb]; simp⟩)
    · exact Or.inr (Or.inr h)
  · rw [hb]; simp
  · rw [hb]; simp
  · rw [hb]; simp
  · intro sf dst ns b tok res hmem
    have := (h0 _ hmem).1
    simp [Event.backend] at this
  · rintro ⟨e, he, hes⟩
    rw [(h0 e he).2.1] at hes
    cases hes
  · intro e he
    exact (h0 e he).2.2
  · intro pre e post heq hes
    have he : e ∈ tr0 := by rw [heq]; simp
    rw [(h0 e he).2.1] at hes
    cases hes

theorem body_facts (env : Env) (sf dst : String) (methods : List String) (rc : Bool) :
    BodyFacts (destSchemeOf env dst = "stash" ∨ destSchemeOf env dst = "osdf")
      (effectiveMethods methods rc) rc
      (body env sf dst methods rc).1 (body env sf dst methods rc).2 := by
  unfold body
  simp only
  split
  · exact facts_of_quiet _ _ _ _ _ (by simp) (by simp)
  · split
    · exact facts_of_quiet _ _ _ _ _ (by simp) (by simp)
    · rename_i du hdu
      have hwb : destSchemeOf env dst = (getTokenName (foldHost env du)).1 := by
        simp [destSchemeOf, hdu]
      rw [hwb]
      split
      · exact facts_of_quiet _ _ _ _ _ (by simp) (by simp)
      · split
        · exact facts_of_quiet _ _ _ _ _ (by simp) (by simp)
        · split
          · rename_i hw
            split
            · unfold doWriteBack
              simp only
              split
              · exact facts_of_quiet _ _ _ _ _
                  (by simp [Event.backend, Event.isEsSend, Event.isAddError]) (by simp)
              · exact facts_of_quiet _ _ _ _ _
                  (by simp [Event.backend, Event.isEsSend, Event.isAddError])
                  (fun _ _ _ => Or.inr hw)
            · exact facts_of_quiet _ _ _ _ _
                (by simp [Event.backend, Event.isEsSend, Event.isAddError]) (by simp)
            · exact facts_of_quiet _ _ _ _ _
                (by simp [Event.backend, Event.isEsSend, Event.isAddError]) (by simp)
          · split
            · exact facts_of_quiet _ _ _ _ _ (by simp) (by simp)
            · split
              · exact transfer_facts _ _ _ _ _ _ _ _
                  (by simp [Event.plain, Event.backend, Event.isEsSend, Event.isAddError,
                    Event.isUploadFile]) _
              · exact facts_of_quiet _ _ _ _ _
                  (by simp [Event.backend, Event.isEsSend, Event.isAddError]) (by simp)
              · exact facts_of_quiet _ _ _ _ _
                  (by simp [Event.backend, Event.isEsSend, Event.isAddError]) (by simp)
              · exact facts_of_quiet _ _ _ _ _
                  (by simp [Event.backend, Event.isEsSend, Event.isAddError]) (by simp)

theorem backendCalls_concat_AddError (tr : List Event) (m : String) :
    backendCalls (tr ++ [Event.AddError m]) = backendCalls tr := by
  simp [backendCalls, Event.backend]

/-- How a run relates to its body: the exporter failed, or the body ended in one of the
four ways the deferred calls tell apart. -/
theorem run_shape (env : Env) (sf dst : String) (methods : List String) (rc : Bool) :
    (∃ e0, env.otlptrace_New = some e0 ∧
      DoStashCPSingle env sf dst methods rc = ⟨.returned 0 (some e0), []⟩) ∨
    (env.otlptrace_New = none ∧ ∃ r tr, body env sf dst methods rc = (r, tr) ∧
      BodyFacts (destSchemeOf env dst = "stash" ∨ destSchemeOf env dst = "osdf")
        (effectiveMethods methods rc) rc r tr ∧
      ((∃ code, r = .exit code ∧ DoStashCPSingle env sf dst methods rc = ⟨.exited code, tr⟩) ∨
       (∃ e1, env.tp_Shutdown = some e1 ∧ (∀ code, r ≠ .exit code) ∧
          DoStashCPSingle env sf dst methods rc = ⟨.exited 1, tr⟩) ∨
       (env.tp_Shutdown = none ∧ ∃ n err, r = .val (n, err) ∧
          DoStashCPSingle env sf dst methods rc = ⟨.returned n err, tr⟩) ∨
       (env.tp_Shutdown = none ∧ ∃ p, r = .panic p ∧
          DoStashCPSingle env sf dst methods rc =
            ⟨.returned 0 (some (panicMessage p)), tr ++ [Event.AddError (panicMessage p)]⟩))) := by
  have hf := body_facts env sf dst methods rc
  unfold DoStashCPSingle
  cases h0 : env.otlptrace_New with
  | some e0 => exact Or.inl ⟨e0, rfl, rfl⟩
  | none =>
    right
    refine ⟨rfl, ?_⟩
    generalize body env sf dst methods rc = b at hf
    obtain ⟨r, tr⟩ := b
    refine ⟨r, tr, rfl, hf, ?_⟩
    cases r with
    | exit code => exact Or.inl ⟨code, rfl, rfl⟩
    | val a =>
      obtain ⟨n, err⟩ := a
      cases h1 : env.tp_Shutdown with
      | some e1 => exact Or.inr (Or.inl ⟨e1, rfl, by simp, rfl⟩)
      | none => exact Or.inr (Or.inr (Or.inl ⟨rfl, n, err, rfl, rfl⟩))
    | panic p =>
      cases h1 : env.tp_Shutdown with
      | some e1 => exact Or.inr (Or.inl ⟨e1, rfl, by simp, rfl⟩)
      | none => exact Or.inr (Or.inr (Or.inr ⟨rfl, p, rfl, rfl⟩))

theorem backendEvent_exitsWith (m sf dst : String) (ns : Namespace) (rc : Bool) (tok : String)
    (code : Nat) : (backendEvent m sf dst ns rc tok (.exit code)).exitsWith code := by
  unfold backendEvent Event.exitsWith
  split
  · rfl
  · split <;> rfl

theorem methodLoop_exit (env : Env) (sf dst : String) (ns : Namespace) (rc : Bool)
    (tok : String) (code : Nat) : ∀ (ms : List String) (v : LoopVars) (tr : List Event),
    (methodLoop env sf dst ns rc tok ms v tr).1 = .exit code →
    ∃ e ∈ (methodLoop env sf dst ns rc tok ms v tr).2, e.exitsWith code := by
  intro ms
  induction ms with
  | nil => intro v tr h; simp [methodLoop] at h
  | cons m rest ih =>
    intro v tr
    unfold methodLoop
    cases callBackend env tr m sf dst v.payload ns rc tok with
    | none => exact ih v tr
    | some res =>
      cases res with
      | val a =>
        obtain ⟨p, n, err⟩ := a
        cases err with
        | none => intro h; simp at h
        | some e => exact ih _ _
      | panic r => intro h; simp at h
      | exit c =>
        intro h
        simp only [Ret.exit.injEq] at h
        subst h
        exact ⟨_, by simp [Ret.dropPayload], backendEvent_exitsWith m sf dst ns rc tok c⟩

theorem transfer_exit (env : Env) (sf dst : String) (su : URL) (ns : Namespace)
    (methods : List String) (rc : Bool) (tr : List Event) (code : Nat)
    (h : (transfer env sf dst su ns methods rc tr).1 = .exit code) :
    parse_job_ad env = .exit code ∨
      ∃ e ∈ (transfer env sf dst su ns methods rc tr).2, e.exitsWith code := by
  unfold transfer at h ⊢
  simp only at h ⊢
  split at h
  · simp at h
  · rename_i hd
    split at hd <;> cases hd
  · split at h
    · simp at h
    · rename_i hpj
      left
      simp only [Ret.exit.injEq] at h
      rw [hpj, h]
    · right
      rename_i dst' _ _ _ _
      have hl := methodLoop_exit env sf dst' ns rc (getTokenName su).2 code
        (if rc = true then ["http"] else methods) ⟨initialPayload env su, 0, false⟩ tr
      generalize methodLoop env sf dst' ns rc (getTokenName su).2
        (if rc = true then ["http"] else methods) ⟨initialPayload env su, 0, false⟩ tr = out
        at h hl ⊢
      obtain ⟨res, tr1⟩ := out
      cases res with
      | panic r => simp at h
      | exit c =>
        simp only [Ret.exit.injEq] at h
        subst h
        exact hl rfl
      | val w =>
        simp only [report] at h
        split at h <;> simp at h


theorem exitCause_of_val (env : Env) (code : Nat) (x : Int × GoError) (tr : List Event) :
    ExitCause env code (.val x, tr) := by
  intro h; cases h

theorem exitCause_of_panic (env : Env) (code : Nat) (p : String) (tr : List Event) :
    ExitCause env code (.panic p, tr) := by
  intro h; cases h

theorem exitCause_of_event (env : Env) (code c : Nat) (tr : List Event) (e : Event)
    (he : e ∈ tr) (hx : e.exitsWith c) : ExitCause env code (.exit c, tr) := by
  intro h
  simp only [Ret.exit.injEq] at h
  subst h
  exact Or.inr ⟨e, he, hx⟩

theorem body_exit (env : Env) (sf dst : String) (methods : List String) (rc : Bool)
    (code : Nat) : ExitCause env code (body env sf dst methods rc) := by
  unfold body
  simp only
  split
  · exact exitCause_of_val _ _ _ _
  · split
    · exact exitCause_of_val _ _ _ _
    · split
      · exact exitCause_of_val _ _ _ _
      · split
        · exact exitCause_of_val _ _ _ _
        · split
          · split
            · unfold doWriteBack
              simp only
              split
              · exact exitCause_of_val _ _ _ _
              · intro h
                simp only at h
                refine Or.inr ⟨_, List.mem_append_right _ (List.mem_singleton_self _), ?_⟩
                simp only [Event.exitsWith, Event.ret, Ret.bind]
                rw [h]
            · exact exitCause_of_panic _ _ _ _
            · exact exitCause_of_event _ _ _ _ _ (List.mem_singleton_self _) rfl
          · split
            · exact exitCause_of_panic _ _ _ _
            · split
              · intro h
                exact transfer_exit _ _ _ _ _ _ _ _ _ h
              · exact exitCause_of_val _ _ _ _
              · exact exitCause_of_panic _ _ _ _
              · exact exitCause_of_event _ _ _ _ _ (List.mem_singleton_self _) rfl

/-- A run returns to its caller unless something ended the process: the deferred
`log.Fatal` after a failed shutdown of the tracer provider, the `log.Fatal` of
`parse_job_ad`, or a collaborator. -/
theorem run_returns (env : Env) (sf dst : String) (methods : List String) (rc : Bool)
    (hshut : env.tp_Shutdown = none) (hjob : ∀ code, parse_job_ad env ≠ .exit code)
    (hcalls : ∀ e ∈ (DoStashCPSingle env sf dst methods rc).trace, ∀ code, ¬ e.exitsWith code) :
    ∃ n err, (DoStashCPSingle env sf dst methods rc).outcome = .returned n err := by
  rcases run_shape env sf dst methods rc with ⟨e0, _, h⟩ | ⟨_, r, tr, hb, _, h⟩
  · exact ⟨0, some e0, by rw [h]⟩
  · rcases h with ⟨code, hr, h⟩ | ⟨e1, hs, _, _⟩ | ⟨_, n, err, _, h⟩ | ⟨_, p, _, h⟩
    · exfalso
      have hex : (body env sf dst methods rc).1 = .exit code := by rw [hb, hr]
      rcases body_exit env sf dst methods rc code hex with hj | ⟨e, he, hx⟩
      · exact hjob code hj
      · rw [hb] at he
        rw [h] at hcalls
        exact hcalls e he code hx
    · rw [hshut] at hs
      cases hs
    · exact ⟨n, err, by rw [h]⟩
    · exact ⟨0, _, by rw [h]⟩

/-! ## The claims -/

/-- Every run comes from a body that satisfies `BodyFacts`; the run took the trace of the
body, and after a recovered panic the call of `AddError` on top of it. -/
theorem run_facts (env : Env) (sf dst : String) (methods : List String) (rc : Bool) :
    ∃ r tr, BodyFacts (destSchemeOf env dst = "stash" ∨ destSchemeOf env dst = "osdf")
        (effectiveMethods methods rc) rc r tr ∧
      ((∃ code, DoStashCPSingle env sf dst methods rc = ⟨.exited code, tr⟩) ∨
       (∃ n err, r = .val (n, err) ∧
          DoStashCPSingle env sf dst methods rc = ⟨.returned n err, tr⟩) ∨
       (∃ p, r = .panic p ∧ DoStashCPSingle env sf dst methods rc =
          ⟨.returned 0 (some (panicMessage p)), tr ++ [Event.AddError (panicMessage p)]⟩)) := by
  rcases run_shape env sf dst methods rc with ⟨e0, _, h⟩ | ⟨_, r, tr, _, hf, h⟩
  · exact ⟨.val (0, some e0), [], facts_of_quiet _ _ _ _ _ (by simp) (by simp),
      Or.inr (Or.inl ⟨0, some e0, rfl, h⟩)⟩
  · refine ⟨r, tr, hf, ?_⟩
    rcases h with ⟨code, _, h⟩ | ⟨e1, _, _, h⟩ | ⟨_, n, err, hr, h⟩ | ⟨_, p, hr, h⟩
    · exact Or.inl ⟨code, h⟩
    · exact Or.inl ⟨1, h⟩
    · exact Or.inr (Or.inl ⟨n, err, hr, h⟩)
    · exact Or.inr (Or.inr ⟨p, hr, h⟩)

/-- The backend calls of a run are those of its body. -/
theorem run_backendCalls (env : Env) (sf dst : String) (methods : List String) (rc : Bool) :
    ∃ r tr, BodyFacts (destSchemeOf env dst = "stash" ∨ destSchemeOf env dst = "osdf")
        (effectiveMethods methods rc) rc r tr ∧
      backendCalls (DoStashCPSingle env sf dst methods rc).trace = backendCalls tr ∧
      ((DoStashCPSingle env sf dst methods rc).trace = tr ∨
        ∃ m, (DoStashCPSingle env sf dst methods rc).trace = tr ++ [Event.AddError m]) := by
  obtain ⟨r, tr, hf, h⟩ := run_facts env sf dst methods rc
  refine ⟨r, tr, hf, ?_⟩
  rcases h with ⟨code, h⟩ | ⟨n, err, _, h⟩ | ⟨p, _, h⟩
  · rw [h]; exact ⟨rfl, Or.inl rfl⟩
  · rw [h]; exact ⟨rfl, Or.inl rfl⟩
  · rw [h]; exact ⟨backendCalls_concat_AddError _ _, Or.inr ⟨_, rfl⟩⟩

/-- C1. In every run of `DoStashCPSingle`, for every method list and every behaviour of
the backends: the methods of the backend calls, in the order the calls were made, are an
initial segment of the recognised entries of the list the loop ranges over (so the calls
follow the list order, one call at most per recognised entry and none skipped in
between); a backend call that returned without error is the last backend call; when the
run reached `es_send` and no call returned without error, every recognised entry was
tried. In the example, `cvmfs` and `xrootd` fail, `http` succeeds with 1024 bytes:
exactly these three calls happen, in this order, and the run returns `(1024, nil)`. -/
theorem C1_backends_in_list_order_until_first_success (env : Env) (sourceFile destination : String)
    (methods : List String) (recursive : Bool) :
    ((backendCalls (DoStashCPSingle env sourceFile destination methods recursive).trace).map
        Prod.fst <+: (effectiveMethods methods recursive).filter recognised) ∧
    (∀ pre c post,
      backendCalls (DoStashCPSingle env sourceFile destination methods recursive).trace
          = pre ++ c :: post →
        returnsNil c.2 = true → post = []) ∧
    ((∃ e ∈ (DoStashCPSingle env sourceFile destination methods recursive).trace,
          e.isEsSend = true) →
      (∀ c ∈ backendCalls (DoStashCPSingle env sourceFile destination methods recursive).trace,
          returnsNil c.2 = false) →
      (backendCalls (DoStashCPSingle env sourceFile destination methods recursive).trace).map
        Prod.fst = (effectiveMethods methods recursive).filter recognised) ∧
    (DoStashCPSingle fallbackEnv "stash:///osgconnect/public/data.txt" "/tmp/data.txt"
        ["cvmfs", "xrootd", "http"] false).outcome = .returned 1024 none ∧
    backendCalls (DoStashCPSingle fallbackEnv "stash:///osgconnect/public/data.txt"
        "/tmp/data.txt" ["cvmfs", "xrootd", "http"] false).trace =
      [("cvmfs", .val (0, some "cvmfs failed")), ("xrootd", .val (0, some "xrootd failed")),
        ("http", .val (1024, none))] := by
  obtain ⟨r, tr, hf, hb, htr⟩ := run_backendCalls env sourceFile destination methods recursive
  refine ⟨?_, ?_, ?_, by decide, by decide⟩
  · rw [hb]; exact hf.order
  · rw [hb]; exact hf.stop
  · rw [hb]
    rintro ⟨e, he, hes⟩
    apply hf.complete
    rcases htr with h | ⟨m, h⟩
    · exact ⟨e, h ▸ he, hes⟩
    · rw [h] at he
      rcases List.mem_append.1 he with h' | h'
      · exact ⟨e, h', hes⟩
      · simp at h'
        subst h'
        cases hes

theorem methodLoop_skip (env : Env) (sf dst : String) (ns : Namespace) (rc : Bool)
    (tok method : String) (rest : List String) (v : LoopVars) (tr : List Event)
    (h : recognised method = false) :
    methodLoop env sf dst ns rc tok (method :: rest) v tr
      = methodLoop env sf dst ns rc tok rest v tr := by
  have hc := (callBackend_eq_none env tr method sf dst v.payload ns rc tok).2 h
  rw [methodLoop, hc]

theorem last_of_stop {α : Type} (calls pre : List α) (c x : α) (hc : c ∈ calls)
    (hlast : calls = pre ++ [x])
    (hstop : ∀ p1 p2, calls = p1 ++ c :: p2 → p2 = []) : c = x := by
  obtain ⟨p1, p2, hsplit⟩ := List.append_of_mem hc
  have h2 := hstop p1 p2 hsplit
  subst h2
  rw [hsplit] at hlast
  have := List.append_inj_right' hlast rfl
  simpa using this

/-- C2. When the transport scheme of the destination is neither `stash` nor `osdf` (the run
is not a writeback), the error `DoStashCPSingle` returns is non-nil exactly when no backend
call returned without error; when a backend call did, the error is `nil` and the byte
count is the one that call returned. The call does return unless the process is ended
by a `log.Fatal` (of the deferred shutdown of the tracer provider or of `parse_job_ad`) or
by a collaborator. A method name the `switch` does not know is skipped:
the loop goes on with the rest of the list. On the download path an empty list and a list
of unknown names only give the error "failed to download file", after `es_send` and
without any backend call. -/
theorem C2_error_iff_no_backend_returned_nil (env : Env) (sourceFile destination : String)
    (methods : List String) (recursive : Bool)
    (hdest : destSchemeOf env destination ≠ "stash" ∧ destSchemeOf env destination ≠ "osdf") :
    (∀ n err, (DoStashCPSingle env sourceFile destination methods recursive).outcome
        = .returned n err →
      (err ≠ none ↔
        ∀ c ∈ backendCalls (DoStashCPSingle env sourceFile destination methods recursive).trace,
          returnsNil c.2 = false) ∧
      (∀ c ∈ backendCalls (DoStashCPSingle env sourceFile destination methods recursive).trace,
          returnsNil c.2 = true → err = none ∧ c.2 = .val (n, none))) ∧
    (env.tp_Shutdown = none → (∀ code, parse_job_ad env ≠ .exit code) →
      (∀ e ∈ (DoStashCPSingle env sourceFile destination methods recursive).trace,
        ∀ code, ¬ e.exitsWith code) →
      ∃ n err, (DoStashCPSingle env sourceFile destination methods recursive).outcome
        = .returned n err) ∧
    (∀ sf dst ns tok method rest v tr, recognised method = false →
      methodLoop env sf dst ns recursive tok (method :: rest) v tr
        = methodLoop env sf dst ns recursive tok rest v tr) ∧
    (DoStashCPSingle fallbackEnv "stash:///osgconnect/public/data.txt" "/tmp/data.txt"
        [] false).outcome = .returned 0 (some "failed to download file") ∧
    (DoStashCPSingle fallbackEnv "stash:///osgconnect/public/data.txt" "/tmp/data.txt"
        ["gridftp", "scp"] false).outcome = .returned 0 (some "failed to download file") ∧
    (DoStashCPSingle fallbackEnv "stash:///osgconnect/public/data.txt" "/tmp/data.txt"
        ["gridftp", "scp"] false).trace.map Event.isEsSend = [false, true] ∧
    (DoStashCPSingle fallbackEnv "stash:///osgconnect/public/data.txt" "/tmp/data.txt"
        ["gridftp", "http", "cvmfs"] false).outcome = .returned 1024 none := by
  refine ⟨?_, run_returns env sourceFile destination methods recursive, ?_, by decide,
    by decide, by decide, by decide⟩
  · intro n err hout
    obtain ⟨r, tr, hf, h⟩ := run_facts env sourceFile destination methods recursive
    rcases h with ⟨code, h⟩ | ⟨n', err', hr, h⟩ | ⟨p, hr, h⟩
    · rw [h] at hout; cases hout
    · rw [h] at hout ⊢
      simp only [Outcome.returned.injEq] at hout
      obtain ⟨rfl, rfl⟩ := hout
      rcases hf.result n' err' hr with ⟨he, pre, m, hc⟩ | ⟨he, hno⟩ | hwb
      · subst he
        refine ⟨?_, ?_⟩
        · constructor
          · intro hne; exact absurd rfl hne
          · intro hno
            have := hno (m, .val (n', none)) (by rw [hc]; simp)
            simp [returnsNil] at this
        · intro c hcm hok
          refine ⟨rfl, ?_⟩
          have := last_of_stop _ pre c _ hcm hc (fun p1 p2 hs => hf.stop p1 c p2 hs hok)
          rw [this]
      · refine ⟨⟨fun _ => hno, fun _ => he⟩, ?_⟩
        intro c hcm hok
        rw [hno c hcm] at hok
        cases hok
      · rcases hwb with hwb | hwb
        · exact absurd hwb hdest.1
        · exact absurd hwb hdest.2
    · rw [h] at hout ⊢
      simp only [Outcome.returned.injEq] at hout
      obtain ⟨rfl, rfl⟩ := hout
      have hno := hf.fault (by intro x hx; rw [hr] at hx; cases hx)
      rw [backendCalls_concat_AddError]
      refine ⟨⟨fun _ => hno, fun _ => by simp⟩, ?_⟩
      intro c hcm hok
      rw [hno c hcm] at hok
      cases hok
  · intro sf dst ns tok method rest v tr h
    exact methodLoop_skip env sf dst ns recursive tok method rest v tr h

theorem C2_witness :
    (destSchemeOf fallbackEnv "/tmp/data.txt" ≠ "stash" ∧
      destSchemeOf fallbackEnv "/tmp/data.txt" ≠ "osdf") ∧
    ∀ n err, (DoStashCPSingle fallbackEnv "stash:///osgconnect/public/data.txt" "/tmp/data.txt"
        ["cvmfs", "http"] false).outcome = .returned n err →
      (err ≠ none ↔
        ∀ c ∈ backendCalls (DoStashCPSingle fallbackEnv "stash:///osgconnect/public/data.txt"
            "/tmp/data.txt" ["cvmfs", "http"] false).trace,
          returnsNil c.2 = false) ∧
      (∀ c ∈ backendCalls (DoStashCPSingle fallbackEnv "stash:///osgconnect/public/data.txt"
            "/tmp/data.txt" ["cvmfs", "http"] false).trace,
          returnsNil c.2 = true → err = none ∧ c.2 = .val (n, none)) :=
  ⟨by decide, (C2_error_iff_no_backend_returned_nil fallbackEnv
    "stash:///osgconnect/public/data.txt" "/tmp/data.txt" ["cvmfs", "http"] false
    (by decide)).1⟩

theorem Find_loop_found (val : String) (slice : List String) (i : Nat) :
    (Find.loop val slice i).2 = true ↔ val ∈ slice := by
  induction slice generalizing i with
  | nil => simp [Find.loop]
  | cons item rest ih =>
    unfold Find.loop
    by_cases h : item = val
    · simp [h]
    · have h' : ¬ val = item := fun e => h e.symm
      simp [h, h', ih]

theorem Find_found (slice : List String) (val : String) :
    (Find slice val).2 = true ↔ val ∈ slice :=
  Find_loop_found val slice 0

theorem getTokenName_foldHost (env : Env) (u : URL) :
    getTokenName (foldHost env u) = getTokenName u := by
  unfold foldHost
  split <;> rfl

/-- With both locators parsed and a transport scheme outside `understoodSchemes`, the body
returns one of the two scheme errors without having called anything. -/
theorem body_reject (env : Env) (sf dst : String) (methods : List String) (rc : Bool)
    (hs : (env.url_Parse sf).2 = none) (hd : (env.url_Parse dst).2 = none)
    (hbad : (getTokenName (env.url_Parse sf).1).1 ∉ understoodSchemes ∨
      (getTokenName (env.url_Parse dst).1).1 ∉ understoodSchemes) :
    body env sf dst methods rc = (.val (0, some "Do not understand source scheme"), []) ∨
    body env sf dst methods rc = (.val (0, some "Do not understand destination scheme"), []) := by
  unfold body
  rcases hps : env.url_Parse sf with ⟨su, es⟩
  rcases hpd : env.url_Parse dst with ⟨du, ed⟩
  rw [hps] at hs hbad
  rw [hpd] at hd hbad
  simp only at hs hd hbad
  subst hs
  subst hd
  simp only [getTokenName_foldHost]
  by_cases h1 : (Find understoodSchemes (getTokenName su).1).2 = false
  · left
    simp [h1]
  · right
    have h1' : (Find understoodSchemes (getTokenName su).1).2 = true := by simpa using h1
    have h2 : (getTokenName du).1 ∉ understoodSchemes := by
      rcases hbad with h | h
      · exact absurd ((Find_found _ _).1 h1') h
      · exact h
    have h3 : (Find understoodSchemes (getTokenName du).1).2 = false := by
      cases hf : (Find understoodSchemes (getTokenName du).1).2 with
      | false => rfl
      | true => exact absurd ((Find_found _ _).1 hf) h2
    simp [h1', h3]

/-- C3. For every source and destination that `url.Parse` accepts, when the transport
scheme (the last `+` segment of the URL scheme) of the source or of the destination is not
one of `stash`, `file`, `osdf`, `""`, `DoStashCPSingle` returns `(0, err)` with a non-nil
error and calls none of the collaborators: its trace is empty, so there is no call of
`MatchNamespace`, `getToken`, `UploadFile`, `download_cvmfs`, `download_xrootd`,
`download_http` or `es_send`. The error is one of the two scheme errors, or the error of
`otlptrace.New` when the exporter could not be created. The deferred
`tp.Shutdown(context.Background())` reports no error, as in every run of the program. -/
theorem C3_unknown_scheme_calls_no_collaborator (env : Env) (sourceFile destination : String)
    (methods : List String) (recursive : Bool)
    (hs : (env.url_Parse sourceFile).2 = none) (hd : (env.url_Parse destination).2 = none)
    (hbad : (getTokenName (env.url_Parse sourceFile).1).1 ∉ understoodSchemes ∨
      (getTokenName (env.url_Parse destination).1).1 ∉ understoodSchemes)
    (hshut : env.tp_Shutdown = none) :
    (DoStashCPSingle env sourceFile destination methods recursive).trace = [] ∧
    (∃ err, (DoStashCPSingle env sourceFile destination methods recursive).outcome
        = .returned 0 (some err)) ∧
    (env.otlptrace_New = none →
      (DoStashCPSingle env sourceFile destination methods recursive).outcome
          = .returned 0 (some "Do not understand source scheme") ∨
      (DoStashCPSingle env sourceFile destination methods recursive).outcome
          = .returned 0 (some "Do not understand destination scheme")) ∧
    (∀ e0, env.otlptrace_New = some e0 →
      (DoStashCPSingle env sourceFile destination methods recursive).outcome
          = .returned 0 (some e0)) ∧
    (∀ e ∈ (DoStashCPSingle env sourceFile destination methods recursive).trace,
      e.isEsSend = false ∧ e.isUploadFile = false ∧ e.backend = none) := by
  have hb := body_reject env sourceFile destination methods recursive hs hd hbad
  unfold DoStashCPSingle
  cases h0 : env.otlptrace_New with
  | some e0 => simp
  | none =>
    rw [hshut]
    rcases hb with hb | hb <;> simp [hb]

theorem C3_witness :
    ((quietEnv.url_Parse "ftp://host/path").2 = none ∧
      (quietEnv.url_Parse "/tmp/data.txt").2 = none ∧
      (getTokenName (quietEnv.url_Parse "ftp://host/path").1).1 ∉ understoodSchemes ∧
      quietEnv.tp_Shutdown = none) ∧
    (DoStashCPSingle quietEnv "ftp://host/path" "/tmp/data.txt" ["cvmfs", "http"] false).trace
      = [] ∧
    ∃ err, (DoStashCPSingle quietEnv "ftp://host/path" "/tmp/data.txt" ["cvmfs", "http"]
      false).outcome = .returned 0 (some err) :=
  ⟨by decide,
    (C3_unknown_scheme_calls_no_collaborator quietEnv "ftp://host/path" "/tmp/data.txt"
      ["cvmfs", "http"] false (by decide) (by decide) (Or.inl (by decide)) (by decide)).1,
    (C3_unknown_scheme_calls_no_collaborator quietEnv "ftp://host/path" "/tmp/data.txt"
      ["cvmfs", "http"] false (by decide) (by decide) (Or.inl (by decide)) (by decide)).2.1⟩

theorem splitChars_join (sep : Char) (cs : List Char) :
    List.intercalate [sep] (splitChars sep cs) = cs := by
  induction cs with
  | nil => simp [splitChars, List.intercalate]
  | cons c cs ih =>
    unfold splitChars
    by_cases h : c = sep
    · simp only [h, if_true]
      have hne := splitChars_ne_nil sep cs
      cases hsp : splitChars sep cs with
      | nil => exact absurd hsp hne
      | cons p ps =>
        rw [hsp] at ih
        rw [← ih]
        simp [List.intercalate, List.intersperse]
    · simp only [h, if_false]
      cases hsp : splitChars sep cs with
      | nil => exact absurd hsp (splitChars_ne_nil sep cs)
      | cons p ps =>
        rw [hsp] at ih
        simp only
        rw [← ih]
        cases ps <;> simp [List.intercalate, List.intersperse]

theorem splitChars_no_sep (sep : Char) (cs : List Char) :
    ∀ p ∈ splitChars sep cs, sep ∉ p := by
  induction cs with
  | nil => simp [splitChars]
  | cons c cs ih =>
    unfold splitChars
    by_cases h : c = sep
    · simp only [h, if_true]
      intro p hp
      rcases List.mem_cons.1 hp with rfl | hp
      · simp
      · exact ih p hp
    · simp only [h, if_false]
      cases hsp : splitChars sep cs with
      | nil => exact absurd hsp (splitChars_ne_nil sep cs)
      | cons q qs =>
        rw [hsp] at ih
        intro p hp
        rcases List.mem_cons.1 hp with rfl | hp
        · intro hmem
          rcases List.mem_cons.1 hmem with h' | h'
          · exact h h'.symm
          · exact ih q (List.mem_cons_self _ _) h'
        · exact ih p (List.mem_cons_of_mem _ hp)

theorem splitChars_of_no_sep (sep : Char) (cs : List Char) (h : sep ∉ cs) :
    splitChars sep cs = [cs] := by
  induction cs with
  | nil => simp [splitChars]
  | cons c cs ih =>
    have hc : ¬ c = sep := fun e => h (by simp [e])
    have hcs : sep ∉ cs := fun e => h (List.mem_cons_of_mem _ e)
    unfold splitChars
    simp [hc, ih hcs]

theorem splitChars_length_of_sep (sep : Char) (cs : List Char) (h : sep ∈ cs) :
    1 < (splitChars sep cs).length := by
  by_contra hle
  have hne := splitChars_ne_nil sep cs
  cases hsp : splitChars sep cs with
  | nil => exact hne hsp
  | cons p ps =>
    cases ps with
    | cons q qs => rw [hsp] at hle; simp at hle
    | nil =>
      have hj := splitChars_join sep cs
      rw [hsp] at hj
      simp [List.intercalate, List.intersperse] at hj
      have := splitChars_no_sep sep cs p (by rw [hsp]; simp)
      rw [hj] at this
      exact this h

theorem intercalate_concat {α : Type} (sep : List α) (init : List (List α)) (last : List α)
    (h : init ≠ []) :
    List.intercalate sep (init ++ [last]) = List.intercalate sep init ++ sep ++ last := by
  induction init with
  | nil => exact absurd rfl h
  | cons x xs ih =>
    cases xs with
    | nil => simp [List.intercalate, List.intersperse]
    | cons y ys =>
      have := ih (by simp)
      simp only [List.intercalate, List.cons_append, List.intersperse, List.flatten_cons,
        List.append_assoc, List.append_eq] at this ⊢
      rw [this]

theorem String_mk_data_map (l : List (List Char)) :
    (l.map String.mk).map String.data = l := by
  induction l with
  | nil => rfl
  | cons x xs ih => rw [List.map_cons, List.map_cons, ih]

/-- The pieces of a scheme: all but the last, and the last. -/
theorem strings_Split_snoc (s : String) (sep : Char) :
    strings_Split s sep = (strings_Split s sep).dropLast ++
      [(strings_Split s sep).getLast (strings_Split_ne_nil s sep)] :=
  (List.dropLast_append_getLast (strings_Split_ne_nil s sep)).symm

theorem getTokenName_of_split (u : URL) (pre : List String) (last : String)
    (h : strings_Split u.Scheme '+' = pre ++ [last]) :
    getTokenName u = (last, strings_Join pre "+") := by
  unfold getTokenName
  simp only
  have hl : (strings_Split u.Scheme '+').getLast (strings_Split_ne_nil _ _) = last := by
    simp [h]
  have hd : (strings_Split u.Scheme '+').dropLast = pre := by
    simp [h]
  rw [hl, hd]
  by_cases hlen : (strings_Split u.Scheme '+').length > 1
  · simp [hlen]
  · have : pre = [] := by
      rw [h] at hlen
      simp at hlen
      exact hlen
    simp [hlen, this, strings_Join]
    rfl

/-- C4. For every URL, with `s` its scheme: whenever `strings.Split(s, "+")` is `pre`
followed by `last`, `getTokenName` returns `last` as scheme and `pre` joined with `+` as
token name. Said without the split: the scheme returned holds no `+`; when `s` holds no
`+` the result is `(s, "")`; when `s` holds a `+`, `s` is the token name, a `+`, and the
scheme, so the scheme is what follows the last `+` and the token name what precedes it.
For `a+b+https` the result is `("https", "a+b")` and for `file` it is `("file", "")`. -/
theorem C4_getTokenName_last_segment_and_joined_rest (u : URL) :
    (∀ pre last, strings_Split u.Scheme '+' = pre ++ [last] →
      getTokenName u = (last, strings_Join pre "+")) ∧
    ('+' ∉ (getTokenName u).1.data) ∧
    ('+' ∉ u.Scheme.data → getTokenName u = (u.Scheme, "")) ∧
    ('+' ∈ u.Scheme.data → u.Scheme = (getTokenName u).2 ++ "+" ++ (getTokenName u).1) ∧
    getTokenName ⟨"a+b+https", u.Host, u.Path⟩ = ("https", "a+b") ∧
    getTokenName ⟨"file", u.Host, u.Path⟩ = ("file", "") := by
  refine ⟨getTokenName_of_split u, ?_, ?_, ?_, ?_, ?_⟩
  · unfold getTokenName
    simp only
    have hmem := List.getLast_mem (strings_Split_ne_nil u.Scheme '+')
    simp only [strings_Split, List.mem_map] at hmem
    obtain ⟨p, hp, hpe⟩ := hmem
    simp only [strings_Split] at hpe ⊢
    rw [← hpe]
    exact splitChars_no_sep '+' _ p hp
  · intro h
    unfold getTokenName
    simp only
    have hs : strings_Split u.Scheme '+' = [u.Scheme] := by
      simp [strings_Split, splitChars_of_no_sep _ _ h]
    simp [hs]
  · intro h
    have hlen : 1 < (strings_Split u.Scheme '+').length := by
      simpa [strings_Split] using splitChars_length_of_sep '+' _ h
    obtain ⟨pre, last, hpl⟩ : ∃ pre last, strings_Split u.Scheme '+' = pre ++ [last] :=
      ⟨_, _, strings_Split_snoc u.Scheme '+'⟩
    have hpre : pre ≠ [] := by
      intro he
      rw [hpl, he] at hlen
      simp at hlen
    have hj := splitChars_join '+' u.Scheme.data
    have hdata : (strings_Split u.Scheme '+').map String.data = splitChars '+' u.Scheme.data := by
      simp only [strings_Split]
      exact String_mk_data_map _
    rw [← hdata, hpl, List.map_append, List.map_cons, List.map_nil,
      intercalate_concat _ _ _ (by simpa using hpre)] at hj
    rw [getTokenName_of_split u pre last hpl]
    apply String.ext
    rw [← hj]
    simp [String.data_append, strings_Join]
  · exact getTokenName_of_split _ ["a", "b"] "https"
      (show strings_Split "a+b+https" '+' = ["a", "b"] ++ ["https"] by decide)
  · exact getTokenName_of_split _ [] "file"
      (show strings_Split "file" '+' = [] ++ ["file"] by decide)

theorem existing_ne (env : Env) (hStat : (env.Stat "").ok = false) (path : Option String)
    (p : String) (h : existing env path = some p) : p ≠ "" := by
  unfold existing at h
  cases path with
  | none => simp at h
  | some q =>
    simp only [Option.some_bind] at h
    split at h
    · rename_i hok
      simp only [Option.some.injEq] at h
      subst h
      intro he
      rw [he, hStat] at hok
      cases hok
    · cases h

theorem chain_foldl (cs : List (Option String)) (hne : ∀ p, some p ∈ cs → p ≠ "") :
    ∀ loc, cs.foldl chain loc = if loc = "" then (cs.findSome? id).getD "" else loc := by
  induction cs with
  | nil => intro loc; by_cases h : loc = "" <;> simp [h]
  | cons c cs ih =>
    intro loc
    have ih' := ih (fun p hp => hne p (List.mem_cons_of_mem _ hp))
    rw [List.foldl_cons, ih']
    by_cases h : loc = ""
    · cases c with
      | none => simp [chain, h]
      | some p =>
        have hp := hne p (List.mem_cons_self _ _)
        simp [chain, h, hp]
    · simp [chain, h]

theorem tryBearerTokenFile_chain (env : Env) :
    tryBearerTokenFile env = chain "" (existing env (env.LookupEnv "BEARER_TOKEN_FILE")) := by
  unfold tryBearerTokenFile chain existing
  cases env.LookupEnv "BEARER_TOKEN_FILE" with
  | none => rfl
  | some f => by_cases h : (env.Stat f).ok = true <;> simp [h]

theorem tryXdgRuntimeDir_chain (env : Env) (loc : String) :
    tryXdgRuntimeDir env loc = chain loc (existing env ((env.LookupEnv "XDG_RUNTIME_DIR").map
      fun d => env.Join [d, "bt_u" ++ toString env.Getuid])) := by
  unfold tryXdgRuntimeDir chain existing
  cases env.LookupEnv "XDG_RUNTIME_DIR" with
  | none => by_cases hl : loc = "" <;> simp [hl]
  | some d =>
    by_cases hl : loc = ""
    · by_cases h : (env.Stat (env.Join [d, "bt_u" ++ toString env.Getuid])).ok = true <;>
        simp [h, hl]
    · simp [hl]

theorem tryTmp_chain (env : Env) (loc : String) :
    tryTmp env loc = chain loc (existing env (some ("/tmp/bt_u" ++ toString env.Getuid))) := by
  unfold tryTmp chain existing
  by_cases hl : loc = ""
  · by_cases h : (env.Stat ("/tmp/bt_u" ++ toString env.Getuid)).ok = true <;> simp [h, hl]
  · simp [hl]

theorem tryTokenVariable_chain (env : Env) (loc : String) :
    tryTokenVariable env loc = chain loc (existing env (env.LookupEnv "TOKEN")) := by
  unfold tryTokenVariable chain existing
  cases env.LookupEnv "TOKEN" with
  | none => by_cases hl : loc = "" <;> simp [hl]
  | some f =>
    by_cases hl : loc = ""
    · by_cases h : (env.Stat f).ok = true <;> simp [h, hl]
    · simp [hl]

theorem tryCondorCreds_chain (env : Env) (name loc : String) :
    tryCondorCreds env name loc = chain loc (existing env ((env.LookupEnv "_CONDOR_CREDS").map
      fun d => env.Join [d, token_filename name])) := by
  unfold tryCondorCreds chain existing
  cases env.LookupEnv "_CONDOR_CREDS" with
  | none => by_cases hl : loc = "" <;> simp [hl]
  | some d =>
    by_cases hl : loc = ""
    · by_cases h : (env.Stat (env.Join [d, token_filename name])).ok = true <;> simp [h, hl]
    · simp [hl]

theorem tryLocalCreds_chain (env : Env) (name loc : String) :
    tryLocalCreds env name loc = chain loc
      ((existing env (some (".condor_creds/" ++ token_filename name))).map fun _ =>
        (env.Abs (".condor_creds/" ++ token_filename name)).1) := by
  unfold tryLocalCreds chain existing
  by_cases hl : loc = ""
  · by_cases h : (env.Stat (".condor_creds/" ++ token_filename name)).ok = true <;> simp [h, hl]
  · simp [hl]

theorem fileCandidates_ne (env : Env) (name : String) (hStat : (env.Stat "").ok = false)
    (hAbs : (env.Abs (".condor_creds/" ++ token_filename name)).1 ≠ "") :
    ∀ p, some p ∈ fileCandidates env name → p ≠ "" := by
  intro p hp
  simp only [fileCandidates, List.mem_cons, List.mem_singleton, List.not_mem_nil, or_false] at hp
  rcases hp with h | h | h | h | h | h
  · exact existing_ne env hStat _ p h.symm
  · exact existing_ne env hStat _ p h.symm
  · exact existing_ne env hStat _ p h.symm
  · exact existing_ne env hStat _ p h.symm
  · exact existing_ne env hStat _ p h.symm
  · cases hx : existing env (some (".condor_creds/" ++ token_filename name)) with
    | none => rw [hx] at h; cases h
    | some q =>
      rw [hx] at h
      simp only [Option.map_some', Option.some.injEq] at h
      rw [h]
      exact hAbs

theorem laterSteps_eq (env : Env) (name : String) :
    laterSteps env name = (env.LookupEnv "BEARER_TOKEN").map TokenSearch.literal ::
      (fileCandidates env name).map (Option.map TokenSearch.location) := by
  simp [laterSteps, fileCandidates, Option.map_map, Function.comp_def]

theorem findSome_map_location (cs : List (Option String)) :
    (cs.map (Option.map TokenSearch.location)).findSome? id =
      (cs.findSome? id).map TokenSearch.location := by
  induction cs with
  | nil => rfl
  | cons c cs ih =>
    cases c with
    | none => simpa using ih
    | some p => simp

theorem searchToken_firstMatch (env : Env) (name : String) (hStat : (env.Stat "").ok = false)
    (hAbs : (env.Abs (".condor_creds/" ++ token_filename name)).1 ≠ "") :
    searchToken env name = firstMatch (laterSteps env name) := by
  rw [laterSteps_eq]
  unfold searchToken firstMatch
  cases hb : env.LookupEnv "BEARER_TOKEN" with
  | some t => simp
  | none =>
    have hne := fileCandidates_ne env name hStat hAbs
    have hfold : tryLocalCreds env name (tryCondorCreds env name (tryTokenVariable env
        (tryTmp env (tryXdgRuntimeDir env (tryBearerTokenFile env)))))
        = (fileCandidates env name).foldl chain "" := by
      rw [tryLocalCreds_chain, tryCondorCreds_chain, tryTokenVariable_chain, tryTmp_chain,
        tryXdgRuntimeDir_chain, tryBearerTokenFile_chain]
      rfl
    simp only [hfold, chain_foldl _ hne, if_true, Option.map_none', List.findSome?_cons, id,
      findSome_map_location]
    cases hf : (fileCandidates env name).findSome? id with
    | none => simp
    | some p =>
      have hp : p ≠ "" := by
        apply hne
        have := List.exists_of_findSome?_eq_some hf
        obtain ⟨a, ha, hid⟩ := this
        simp only [id] at hid
        rw [← hid]
        exact ha
      simp [hp]


theorem token_filename_of_hint (name : String) (h : name ≠ "") :
    token_filename name = name ++ ".use" := by
  unfold token_filename
  have hlen : name.length > 0 := by
    rcases name with ⟨cs⟩
    cases cs with
    | nil => exact absurd rfl h
    | cons c cs => simp [String.length]
  simp [hlen]

/-- C5, as the code has it. Provided `os.Stat("")` fails and `filepath.Abs` of the local
credential-store path yields a path, `getToken` takes the credential from the first step
that matches, in this order: (1) the configured file `Options.Token` whenever it is not
empty, without an existence check, so that its content or the error of reading it is the
result and no later step is tried; (2) the literal value of `BEARER_TOKEN`; then the files
(3) named by `BEARER_TOKEN_FILE`, (4) `$XDG_RUNTIME_DIR/bt_u<uid>`, (5) `/tmp/bt_u<uid>`,
(6) named by `TOKEN`, (7) `$_CONDOR_CREDS/<hint>.use`, (8) `./.condor_creds/<hint>.use`,
each skipped when its file does not exist, with `scitokens.use` for an empty hint; with no
match the result is the error "failed to find token...". With no configured file and
`BEARER_TOKEN` set, the value of `BEARER_TOKEN` is the result, whatever files exist. -/
theorem C5_getToken_first_match_in_order (env : Env) (token_name : String)
    (hStat : (env.Stat "").ok = false)
    (hAbs : (env.Abs (".condor_creds/" ++ token_filename token_name)).1 ≠ "") :
    getToken env token_name
      = resolveToken env (firstMatch (codeStepOne env :: laterSteps env token_name)) ∧
    (env.Options_Token ≠ "" → getToken env token_name = readToken env env.Options_Token) ∧
    (env.Options_Token = "" → ∀ t, env.LookupEnv "BEARER_TOKEN" = some t →
      getToken env token_name = (t, none)) ∧
    (firstMatch (codeStepOne env :: laterSteps env token_name) = .notFound →
      getToken env token_name = ("", some "failed to find token...")) ∧
    token_filename "" = "scitokens.use" ∧
    (token_name ≠ "" → token_filename token_name = token_name ++ ".use") := by
  have hloc : locateToken env token_name
      = firstMatch (codeStepOne env :: laterSteps env token_name) := by
    unfold locateToken codeStepOne
    by_cases h : env.Options_Token = ""
    · simp only [h, ne_eq, not_true_eq_false, if_false]
      rw [searchToken_firstMatch env token_name hStat hAbs]
      simp [firstMatch]
    · simp [h, firstMatch]
  have hget : getToken env token_name
      = resolveToken env (firstMatch (codeStepOne env :: laterSteps env token_name)) := by
    rw [← hloc]
    unfold getToken resolveToken
    cases locateToken env token_name <;> rfl
  refine ⟨hget, ?_, ?_, ?_, by decide, token_filename_of_hint token_name⟩
  · intro h
    rw [hget]
    simp [codeStepOne, h, firstMatch, resolveToken]
  · intro h t ht
    rw [hget]
    simp [codeStepOne, h, firstMatch, laterSteps, ht, resolveToken]
  · intro h
    rw [hget, h]
    rfl

theorem C5_witness :
    ((bearerAndStoreEnv.Stat "").ok = false ∧
      (bearerAndStoreEnv.Abs (".condor_creds/" ++ token_filename "")).1 ≠ "" ∧
      (bearerAndStoreEnv.Stat "/var/lib/condor/creds/scitokens.use").ok = true) ∧
    getToken bearerAndStoreEnv "" = ("abc", none) :=
  ⟨by decide, (C5_getToken_first_match_in_order bearerAndStoreEnv "" (by decide)
    (by decide)).2.2.1 (by decide) "abc" (by decide)⟩

/-- C5 as stated fails: the configured token file does not exist, so the claim has
step (1) skipped and the value of `BEARER_TOKEN` returned, as `specGetToken` does; the
code does not check that the file exists, tries to read it, and returns the error of
`os.ReadFile`. -/
theorem C5_counterexample :
    missingConfiguredTokenEnv.Options_Token = "/home/user/token" ∧
    (missingConfiguredTokenEnv.Stat "/home/user/token").ok = false ∧
    missingConfiguredTokenEnv.LookupEnv "BEARER_TOKEN" = some "abc" ∧
    specGetToken missingConfiguredTokenEnv "" = ("abc", none) ∧
    getToken missingConfiguredTokenEnv "" = ("", some "no such file or directory") ∧
    getToken missingConfiguredTokenEnv "" ≠ specGetToken missingConfiguredTokenEnv "" := by
  refine ⟨by decide, by decide, by decide, by decide, by decide, by decide⟩

/-- What `strings.TrimSpace` does to the characters: it removes a leading and a trailing
run of white space, and what is left neither starts nor ends with white space. -/
theorem strings_TrimSpace_spec (s : String) :
    ∃ lead trail : List Char,
      s.data = lead ++ (strings_TrimSpace s).data ++ trail ∧
      (∀ c ∈ lead, unicode_IsSpace c = true) ∧ (∀ c ∈ trail, unicode_IsSpace c = true) ∧
      (∀ c, (strings_TrimSpace s).data.head? = some c → unicode_IsSpace c = false) ∧
      (∀ c, (strings_TrimSpace s).data.getLast? = some c → unicode_IsSpace c = false) := by
  have hm := List.takeWhile_append_dropWhile unicode_IsSpace s.data
  have hr := List.takeWhile_append_dropWhile unicode_IsSpace
    (s.data.dropWhile unicode_IsSpace).reverse
  have hr' : s.data.dropWhile unicode_IsSpace
      = ((s.data.dropWhile unicode_IsSpace).reverse.dropWhile unicode_IsSpace).reverse ++
        ((s.data.dropWhile unicode_IsSpace).reverse.takeWhile unicode_IsSpace).reverse := by
    rw [← List.reverse_append, hr, List.reverse_reverse]
  have hlast : ∀ c, (((s.data.dropWhile unicode_IsSpace).reverse.dropWhile
      unicode_IsSpace).reverse).getLast? = some c → unicode_IsSpace c = false := by
    intro c hc
    rw [List.getLast?_reverse] at hc
    have := List.head?_dropWhile_not unicode_IsSpace (s.data.dropWhile unicode_IsSpace).reverse
    rw [hc] at this
    simpa using this
  refine ⟨s.data.takeWhile unicode_IsSpace,
    ((s.data.dropWhile unicode_IsSpace).reverse.takeWhile unicode_IsSpace).reverse, ?_, ?_, ?_,
    ?_, hlast⟩
  · simp only [strings_TrimSpace]
    rw [List.append_assoc, ← hr', hm]
  · intro c hc
    exact List.mem_takeWhile_imp hc
  · intro c hc
    exact List.mem_takeWhile_imp (List.mem_reverse.1 hc)
  · intro c hc
    simp only [strings_TrimSpace] at hc
    have hhead := List.head?_dropWhile_not unicode_IsSpace s.data
    rw [hr'] at hhead
    cases ht : ((s.data.dropWhile unicode_IsSpace).reverse.dropWhile unicode_IsSpace).reverse with
    | nil => rw [ht] at hc; cases hc
    | cons x xs =>
      rw [ht] at hc hhead
      simp only [List.head?_cons, Option.some.injEq] at hc
      subst hc
      simpa using hhead


theorem storeMember_error (intSize : Nat) (st : tokenJson × GoError) (m : List Char × JSON) :
    ((storeMember intSize st m).2 = none ↔ st.2 = none ∧ memberFits intSize m = true) := by
  obtain ⟨t, e⟩ := st
  obtain ⟨k, v⟩ := m
  unfold storeMember memberFits
  split
  · cases v <;> cases e <;> simp [saveError]
  · split
    · cases v with
      | num literal => cases hp : parseInt intSize literal <;> cases e <;> simp [saveError, hp]
      | _ => cases e <;> simp [saveError]
    · simp

theorem storeMember_sticky (intSize : Nat) (st : tokenJson × GoError) (m : List Char × JSON)
    (e : String) (h : st.2 = some e) : (storeMember intSize st m).2 = some e := by
  obtain ⟨t, e0⟩ := st
  obtain ⟨k, v⟩ := m
  simp only at h
  subst h
  unfold storeMember
  split
  · cases v <;> simp [saveError]
  · split
    · cases v with
      | num literal => cases hp : parseInt intSize literal <;> simp [saveError, hp]
      | _ => simp [saveError]
    · simp

theorem storeMember_AccessKey (intSize : Nat) (st : tokenJson × GoError)
    (m : List Char × JSON) :
    (storeMember intSize st m).1.AccessKey = (accessTokenMember m).getD st.1.AccessKey := by
  obtain ⟨t, e⟩ := st
  obtain ⟨k, v⟩ := m
  unfold storeMember accessTokenMember
  split
  · cases v <;> simp
  · split
    · cases v with
      | num literal => cases hp : parseInt intSize literal <;> simp [hp]
      | _ => simp
    · simp

theorem foldl_storeMember_error (intSize : Nat) (members : List (List Char × JSON))
    (st : tokenJson × GoError) :
    ((members.foldl (storeMember intSize) st).2 = none ↔
      st.2 = none ∧ ∀ m ∈ members, memberFits intSize m = true) := by
  induction members generalizing st with
  | nil => simp
  | cons m ms ih =>
    rw [List.foldl_cons, ih, storeMember_error]
    simp only [List.mem_cons, forall_eq_or_imp]
    tauto

theorem foldl_storeMember_AccessKey (intSize : Nat) (members : List (List Char × JSON))
    (st : tokenJson × GoError) :
    (members.foldl (storeMember intSize) st).1.AccessKey
      = ((members.filterMap accessTokenMember).getLast?).getD st.1.AccessKey := by
  induction members generalizing st with
  | nil => simp
  | cons m ms ih =>
    rw [List.foldl_cons, ih, storeMember_AccessKey, List.filterMap_cons]
    cases accessTokenMember m with
    | none => simp
    | some s =>
      cases hl : ms.filterMap accessTokenMember with
      | nil => simp
      | cons x xs =>
        rw [List.getLast?_eq_getLast _ (List.cons_ne_nil x xs)]
        rfl

/-- What `json.Unmarshal` makes of an object: no error exactly when every member fits, and
then the `access_token` field is the string of the last member under that key. -/
theorem json_Unmarshal_obj (intSize : Nat) (data : String) (members : List (List Char × JSON))
    (h : parseJSON data = some (.obj members)) :
    ((json_Unmarshal intSize data).2 = none ↔ ∀ m ∈ members, memberFits intSize m = true) ∧
    (json_Unmarshal intSize data).1.AccessKey = accessTokenField members := by
  unfold json_Unmarshal
  rw [h]
  refine ⟨?_, ?_⟩
  · simp only
    rw [foldl_storeMember_error]
    exact ⟨fun hm => hm.2, fun hm => ⟨rfl, hm⟩⟩
  · simp only
    rw [foldl_storeMember_AccessKey]
    rfl

/-- C6. When the search of `getToken` ends at a file that `os.ReadFile` reads, `getToken`
reports no error, and for every content of that file its result is: the whole content with
leading and trailing white space removed when the content is not JSON; the value of the
`access_token` field when the content is a JSON object that `json.Unmarshal` decodes into
`tokenJson`, which is when every member under `access_token` is a string or `null` and every
member under `expires_in` is an integer that fits an `int` or `null`; the whole trimmed
content again, and not the `access_token` field, when the content is a JSON object with a
member that does not fit, or a JSON value that is neither an object nor `null`; the empty
string when the content is `null`. So the JSON object with `access_token` `abc` and
`expires_in` 3600 resolves to `abc`, the text `xyz123` with a newline resolves to `xyz123`,
and the JSON object with `access_token` `abc` and `expires_in` the string `3600` resolves
to its whole text. -/
theorem C6_token_file_json_or_trimmed_text (env : Env)
    (token_name token_location contents : String)
    (hloc : locateToken env token_name = .location token_location)
    (hread : env.ReadFile token_location = (contents, none)) :
    (getToken env token_name).2 = none ∧
    (parseJSON contents = none →
      getToken env token_name = (strings_TrimSpace contents, none)) ∧
    (∀ members, parseJSON contents = some (.obj members) →
      (∀ m ∈ members, memberFits env.IntSize m = true) →
      getToken env token_name = (accessTokenField members, none)) ∧
    (∀ members, parseJSON contents = some (.obj members) →
      (∃ m ∈ members, memberFits env.IntSize m = false) →
      getToken env token_name = (strings_TrimSpace contents, none)) ∧
    (parseJSON contents = some .null → getToken env token_name = ("", none)) ∧
    (∀ v, parseJSON contents = some v → v.isObjOrNull = false →
      getToken env token_name = (strings_TrimSpace contents, none)) ∧
    (∃ lead trail : List Char,
      contents.data = lead ++ (strings_TrimSpace contents).data ++ trail ∧
      (∀ c ∈ lead, unicode_IsSpace c = true) ∧ (∀ c ∈ trail, unicode_IsSpace c = true) ∧
      (∀ c, (strings_TrimSpace contents).data.head? = some c → unicode_IsSpace c = false) ∧
      (∀ c, (strings_TrimSpace contents).data.getLast? = some c → unicode_IsSpace c = false)) ∧
    (env.IntSize = 32 ∨ env.IntSize = 64 →
      contents = "\x7b\"access_token\":\"abc\",\"expires_in\":3600\x7d" →
      getToken env token_name = ("abc", none)) ∧
    (contents = "xyz123\n" → getToken env token_name = ("xyz123", none)) ∧
    (contents = "\x7b\"access_token\":\"abc\",\"expires_in\":\"3600\"\x7d" →
      getToken env token_name
        = ("\x7b\"access_token\":\"abc\",\"expires_in\":\"3600\"\x7d", none)) ∧
    getToken jsonTokenEnv "" = ("abc", none) ∧
    getToken plainTokenEnv "" = ("xyz123", none) ∧
    getToken stringExpiryTokenEnv ""
      = ("\x7b\"access_token\":\"abc\",\"expires_in\":\"3600\"\x7d", none) := by
  have hok : ∀ parsed, json_Unmarshal env.IntSize contents = (parsed, none) →
      getToken env token_name = (parsed.AccessKey, none) := by
    intro parsed hp
    simp [getToken, hloc, readToken, hread, hp]
  have herr : ∀ parsed e, json_Unmarshal env.IntSize contents = (parsed, some e) →
      getToken env token_name = (strings_TrimSpace contents, none) := by
    intro parsed e hp
    simp [getToken, hloc, readToken, hread, hp]
  have hnone : parseJSON contents = none →
      getToken env token_name = (strings_TrimSpace contents, none) := by
    intro hp
    exact herr _ _ (by unfold json_Unmarshal; rw [hp])
  have hfit : ∀ members, parseJSON contents = some (.obj members) →
      (∀ m ∈ members, memberFits env.IntSize m = true) →
      getToken env token_name = (accessTokenField members, none) := by
    intro members hp hm
    have hobj := json_Unmarshal_obj env.IntSize contents members hp
    rcases hj : json_Unmarshal env.IntSize contents with ⟨parsed, e⟩
    rw [hj] at hobj
    have he : e = none := hobj.1.2 hm
    subst he
    rw [hok parsed hj, ← hobj.2]
  have hunfit : ∀ members, parseJSON contents = some (.obj members) →
      (∃ m ∈ members, memberFits env.IntSize m = false) →
      getToken env token_name = (strings_TrimSpace contents, none) := by
    intro members hp hm
    have hobj := json_Unmarshal_obj env.IntSize contents members hp
    rcases hj : json_Unmarshal env.IntSize contents with ⟨parsed, e⟩
    rw [hj] at hobj
    cases e with
    | some e => exact herr parsed e hj
    | none =>
      obtain ⟨m, hmem, hfalse⟩ := hm
      have := hobj.1.1 rfl m hmem
      rw [hfalse] at this
      cases this
  refine ⟨?_, hnone, hfit, hunfit, ?_, ?_, strings_TrimSpace_spec contents, ?_, ?_, ?_,
    by decide, by decide, by decide⟩
  · rcases hj : json_Unmarshal env.IntSize contents with ⟨parsed, e⟩
    cases e with
    | none => rw [hok parsed hj]
    | some e => rw [herr parsed e hj]
  · intro hp
    exact hok ⟨"", 0⟩ (by unfold json_Unmarshal; rw [hp])
  · intro v hp hv
    cases v with
    | null => cases hv
    | obj members => cases hv
    | bool b => exact herr _ _ (by unfold json_Unmarshal; rw [hp])
    | num literal => exact herr _ _ (by unfold json_Unmarshal; rw [hp])
    | str s => exact herr _ _ (by unfold json_Unmarshal; rw [hp])
    | arr elems => exact herr _ _ (by unfold json_Unmarshal; rw [hp])
  · intro hsize hc
    subst hc
    rcases hsize with h | h
    · exact hok ⟨"abc", 3600⟩ (by rw [h]; decide)
    · exact hok ⟨"abc", 3600⟩ (by rw [h]; decide)
  · intro hc
    subst hc
    rw [hnone rfl]
    decide
  · intro hc
    subst hc
    rw [hunfit [("access_token".data, .str "abc".data), ("expires_in".data, .str "3600".data)]
      rfl ⟨("expires_in".data, .str "3600".data), by simp, rfl⟩]
    decide

theorem C6_witness :
    (locateToken jsonTokenEnv "" = .location "/home/user/token" ∧
      jsonTokenEnv.ReadFile "/home/user/token"
        = ("\x7b\"access_token\":\"abc\",\"expires_in\":3600\x7d", none) ∧
      jsonTokenEnv.IntSize = 64) ∧
    getToken jsonTokenEnv "" = ("abc", none) :=
  ⟨by decide, (C6_token_file_json_or_trimmed_text jsonTokenEnv "" "/home/user/token"
    "\x7b\"access_token\":\"abc\",\"expires_in\":3600\x7d" (by decide) (by decide)).2.2.2.2.2.2.2.1
    (Or.inr rfl) rfl⟩

/-- C6, counterexample. The configured token file holds a JSON object whose `access_token`
is the string `abc` and whose `expires_in` is the string `3600`: the content parses as a
JSON object and the value of its `access_token` field is `abc`, but `json.Unmarshal` reports
that a string does not fit the field `ExpiresIn int`, and `getToken` returns the whole
content of the file, with no error, not `abc`. -/
theorem C6_counterexample :
    locateToken stringExpiryTokenEnv "" = .location "/home/user/token" ∧
    stringExpiryTokenEnv.ReadFile "/home/user/token"
      = ("\x7b\"access_token\":\"abc\",\"expires_in\":\"3600\"\x7d", none) ∧
    (∃ members,
      parseJSON "\x7b\"access_token\":\"abc\",\"expires_in\":\"3600\"\x7d" = some (.obj members) ∧
      accessTokenField members = "abc") ∧
    (json_Unmarshal stringExpiryTokenEnv.IntSize
      "\x7b\"access_token\":\"abc\",\"expires_in\":\"3600\"\x7d").2 ≠ none ∧
    getToken stringExpiryTokenEnv ""
      = ("\x7b\"access_token\":\"abc\",\"expires_in\":\"3600\"\x7d", none) ∧
    getToken stringExpiryTokenEnv "" ≠ ("abc", none) := by
  refine ⟨by decide, by decide,
    ⟨[("access_token".data, .str "abc".data), ("expires_in".data, .str "3600".data)], rfl,
      by decide⟩, by decide, by decide, by decide⟩

theorem transfer_recursive (env : Env) (sf dst : String) (su : URL) (ns : Namespace)
    (methods : List String) (tr : List Event) :
    transfer env sf dst su ns methods true tr = transfer env sf dst su ns ["http"] true tr := by
  rfl

theorem body_recursive (env : Env) (sf dst : String) (methods : List String) :
    body env sf dst methods true = body env sf dst ["http"] true := by
  unfold body
  simp only [transfer_recursive env _ _ _ _ methods]

theorem mem_backendCalls (tr : List Event) (e : Event) (c : String × Ret (Int × GoError))
    (he : e ∈ tr) (hb : e.backend = some c) : c ∈ backendCalls tr := by
  unfold backendCalls
  rw [List.mem_filterMap]
  exact ⟨e, he, hb⟩

theorem faithful_nil (env : Env) : Faithful env [] := by
  intro pre e post h
  cases pre <;> cases h

theorem faithful_concat (env : Env) (tr : List Event) (e : Event) (h : Faithful env tr)
    (he : e.madeBy env tr) : Faithful env (tr ++ [e]) := by
  intro pre x post hsplit
  rcases List.eq_nil_or_concat post with hp | ⟨post', y, hp⟩
  · subst hp
    have h1 := List.append_inj_left' hsplit rfl
    have h2 := List.append_inj_right' hsplit rfl
    simp only [List.cons.injEq, and_true] at h2
    subst h1 h2
    exact he
  · subst hp
    rw [List.concat_eq_append, ← List.cons_append, ← List.append_assoc] at hsplit
    have h1 := List.append_inj_left' hsplit rfl
    exact h pre x post' h1

theorem callBackend_madeBy (env : Env) (tr : List Event) (m sf dst : String)
    (p : payloadStruct) (ns : Namespace) (rc : Bool) (tok : String)
    (res : Ret (payloadStruct × Int × GoError))
    (h : callBackend env tr m sf dst p ns rc tok = some res) :
    (backendEvent m sf dst ns rc tok res.dropPayload).madeBy env tr := by
  unfold callBackend at h
  unfold backendEvent
  by_cases h1 : m = "cvmfs"
  · subst h1
    simp only [if_true, Option.some.injEq] at h
    exact ⟨p, by rw [h]⟩
  · by_cases h2 : m = "xrootd"
    · subst h2
      simp at h
      exact ⟨p, by rw [h]⟩
    · by_cases h3 : m = "http"
      · subst h3
        simp at h
        exact ⟨p, by rw [h]⟩
      · simp [h1, h2, h3] at h

theorem methodLoop_faithful (env : Env) (sf dst : String) (ns : Namespace) (rc : Bool)
    (tok : String) : ∀ (ms : List String) (v : LoopVars) (tr : List Event),
    Faithful env tr → Faithful env (methodLoop env sf dst ns rc tok ms v tr).2 := by
  intro ms
  induction ms with
  | nil => intro v tr h; exact h
  | cons m rest ih =>
    intro v tr h
    unfold methodLoop
    cases hcb : callBackend env tr m sf dst v.payload ns rc tok with
    | none => exact ih v tr h
    | some res =>
      have hev := faithful_concat env tr _ h (callBackend_madeBy env tr m sf dst v.payload ns rc
        tok res hcb)
      cases res with
      | val a =>
        obtain ⟨p, n, err⟩ := a
        cases err with
        | none => exact hev
        | some e => exact ih _ _ hev
      | panic r => exact hev
      | exit code => exact hev

theorem transfer_faithful (env : Env) (sf dst : String) (su : URL) (ns : Namespace)
    (methods : List String) (rc : Bool) (tr : List Event) (h : Faithful env tr) :
    Faithful env (transfer env sf dst su ns methods rc tr).2 := by
  unfold transfer
  simp only
  split
  · exact h
  · exact h
  · rename_i dst' _
    split
    · exact h
    · exact h
    · have hl := methodLoop_faithful env sf dst' ns rc (getTokenName su).2
        (if rc = true then ["http"] else methods) ⟨initialPayload env su, 0, false⟩ tr h
      generalize methodLoop env sf dst' ns rc (getTokenName su).2
        (if rc = true then ["http"] else methods) ⟨initialPayload env su, 0, false⟩ tr = out
        at hl
      obtain ⟨res, tr1⟩ := out
      cases res with
      | panic r => exact hl
      | exit code => exact hl
      | val w =>
        simp only [report]
        split
        · exact faithful_concat env tr1 _ hl rfl
        · exact faithful_concat env tr1 _ hl rfl

theorem faithful_single (env : Env) (e : Event) (h : e.madeBy env []) : Faithful env [e] := by
  have := faithful_concat env [] e (faithful_nil env) h
  simpa using this

theorem body_faithful (env : Env) (sf dst : String) (methods : List String) (rc : Bool) :
    Faithful env (body env sf dst methods rc).2 := by
  unfold body
  simp only
  split
  · exact faithful_nil env
  · split
    · exact faithful_nil env
    · split
      · exact faithful_nil env
      · split
        · exact faithful_nil env
        · split
          · split
            · rename_i hmn
              unfold doWriteBack
              simp only
              have h1 := faithful_single env (Event.MatchNamespace _ _) hmn.symm
              split
              · exact faithful_concat env _ _ h1 rfl
              · exact faithful_concat env _ _ (faithful_concat env _ _ h1 rfl) rfl
            · rename_i hmn
              exact faithful_single env (Event.MatchNamespace _ _) hmn.symm
            · rename_i hmn
              exact faithful_single env (Event.MatchNamespace _ _) hmn.symm
          · split
            · exact faithful_nil env
            · split
              · rename_i hmn
                exact transfer_faithful _ _ _ _ _ _ _ _
                  (faithful_single env (Event.MatchNamespace _ _) hmn.symm)
              · rename_i hmn
                exact faithful_single env (Event.MatchNamespace _ _) hmn.symm
              · rename_i hmn
                exact faithful_single env (Event.MatchNamespace _ _) hmn.symm
              · rename_i hmn
                exact faithful_single env (Event.MatchNamespace _ _) hmn.symm

/-- Every call recorded in the trace of a run was made by the program, with the recorded
arguments, after the calls recorded before it. -/
theorem run_faithful (env : Env) (sf dst : String) (methods : List String) (rc : Bool) :
    Faithful env (DoStashCPSingle env sf dst methods rc).trace := by
  have hb := body_faithful env sf dst methods rc
  rcases run_shape env sf dst methods rc with ⟨e0, _, h⟩ | ⟨_, r, tr, hbody, _, h⟩
  · rw [h]; exact faithful_nil env
  · rw [hbody] at hb
    rcases h with ⟨code, _, h⟩ | ⟨e1, _, _, h⟩ | ⟨_, n, err, _, h⟩ | ⟨_, p, _, h⟩
    · rw [h]; exact hb
    · rw [h]; exact hb
    · rw [h]; exact hb
    · rw [h]; exact faithful_concat env tr _ hb trivial


theorem methodLoop_http_withBackends (env : Env)
    (cvmfs xrootd : List Event → String → String → payloadStruct →
      Ret (payloadStruct × Int × GoError))
    (http : List Event → String → String → payloadStruct → Namespace → Bool → String →
      Ret (payloadStruct × Int × GoError))
    (hagree : ∀ tr sf dst p ns tok,
      http tr sf dst p ns true tok = env.download_http tr sf dst p ns true tok)
    (sf dst : String) (ns : Namespace) (tok : String) (v : LoopVars) (tr : List Event) :
    methodLoop (withBackends env cvmfs xrootd http) sf dst ns true tok ["http"] v tr
      = methodLoop env sf dst ns true tok ["http"] v tr := by
  have hcb : callBackend (withBackends env cvmfs xrootd http) tr "http" sf dst v.payload ns
      true tok = callBackend env tr "http" sf dst v.payload ns true tok := by
    simp [callBackend, withBackends, hagree]
  unfold methodLoop
  rw [hcb]
  cases callBackend env tr "http" sf dst v.payload ns true tok with
  | none => rfl
  | some res =>
    cases res with
    | val a =>
      obtain ⟨p, n, err⟩ := a
      cases err <;> rfl
    | panic r => rfl
    | exit code => rfl

theorem transfer_withBackends (env : Env)
    (cvmfs xrootd : List Event → String → String → payloadStruct →
      Ret (payloadStruct × Int × GoError))
    (http : List Event → String → String → payloadStruct → Namespace → Bool → String →
      Ret (payloadStruct × Int × GoError))
    (hagree : ∀ tr sf dst p ns tok,
      http tr sf dst p ns true tok = env.download_http tr sf dst p ns true tok)
    (sf dst : String) (su : URL) (ns : Namespace) (methods : List String) (tr : List Event) :
    transfer (withBackends env cvmfs xrootd http) sf dst su ns methods true tr
      = transfer env sf dst su ns methods true tr := by
  have hpj : parse_job_ad (withBackends env cvmfs xrootd http) = parse_job_ad env := rfl
  have hip : initialPayload (withBackends env cvmfs xrootd http) su = initialPayload env su := rfl
  have hrep : ∀ v t, report (withBackends env cvmfs xrootd http) v t = report env v t :=
    fun _ _ => rfl
  unfold transfer
  simp only [hpj, hip, hrep, if_true,
    methodLoop_http_withBackends env cvmfs xrootd http hagree]
  rfl

theorem body_withBackends (env : Env)
    (cvmfs xrootd : List Event → String → String → payloadStruct →
      Ret (payloadStruct × Int × GoError))
    (http : List Event → String → String → payloadStruct → Namespace → Bool → String →
      Ret (payloadStruct × Int × GoError))
    (hagree : ∀ tr sf dst p ns tok,
      http tr sf dst p ns true tok = env.download_http tr sf dst p ns true tok)
    (sf dst : String) (methods : List String) :
    body (withBackends env cvmfs xrootd http) sf dst methods true
      = body env sf dst methods true := by
  have hfold : ∀ u, foldHost (withBackends env cvmfs xrootd http) u = foldHost env u :=
    fun _ => rfl
  have hwb : ∀ tr s d n, doWriteBack (withBackends env cvmfs xrootd http) tr s d n
      = doWriteBack env tr s d n := fun _ _ _ _ => rfl
  have hparse : (withBackends env cvmfs xrootd http).url_Parse = env.url_Parse := rfl
  have hmn : (withBackends env cvmfs xrootd http).MatchNamespace = env.MatchNamespace := rfl
  unfold body
  simp only [hfold, hwb, hparse, hmn, transfer_withBackends env cvmfs xrootd http hagree]

theorem run_withBackends (env : Env)
    (cvmfs xrootd : List Event → String → String → payloadStruct →
      Ret (payloadStruct × Int × GoError))
    (http : List Event → String → String → payloadStruct → Namespace → Bool → String →
      Ret (payloadStruct × Int × GoError))
    (hagree : ∀ tr sf dst p ns tok,
      http tr sf dst p ns true tok = env.download_http tr sf dst p ns true tok)
    (sf dst : String) (methods : List String) :
    DoStashCPSingle (withBackends env cvmfs xrootd http) sf dst methods true
      = DoStashCPSingle env sf dst methods true := by
  have h0 : (withBackends env cvmfs xrootd http).otlptrace_New = env.otlptrace_New := rfl
  have h1 : (withBackends env cvmfs xrootd http).tp_Shutdown = env.tp_Shutdown := rfl
  unfold DoStashCPSingle
  rw [h0, h1, body_withBackends env cvmfs xrootd http hagree]

/-- What the trace of a run with `recursive = true` holds. -/
theorem recursive_run_facts (env : Env) (sourceFile destination : String)
    (methods : List String) :
    DoStashCPSingle env sourceFile destination methods true
      = DoStashCPSingle env sourceFile destination ["http"] true ∧
    effectiveMethods methods true = ["http"] ∧
    (∀ c ∈ backendCalls (DoStashCPSingle env sourceFile destination methods true).trace,
      c.1 = "http") ∧
    (backendCalls (DoStashCPSingle env sourceFile destination methods true).trace).length ≤ 1 ∧
    (∀ sf dst res,
      Event.download_cvmfs sf dst res ∉
          (DoStashCPSingle env sourceFile destination methods true).trace ∧
      Event.download_xrootd sf dst res ∉
          (DoStashCPSingle env sourceFile destination methods true).trace) ∧
    (∀ sf dst ns b tok res,
      Event.download_http sf dst ns b tok res ∈
          (DoStashCPSingle env sourceFile destination methods true).trace → b = true) ∧
    backendCalls (DoStashCPSingle fallbackEnv "stash:///osgconnect/public/data.txt"
        "/tmp/data.txt" ["cvmfs", "xrootd"] true).trace = [("http", .val (1024, none))] := by
  obtain ⟨r, tr, hf, hb, htr⟩ := run_backendCalls env sourceFile destination methods true
  have horder := hf.order
  rw [← hb] at horder
  have heff : effectiveMethods methods true = ["http"] := rfl
  have hfil : (effectiveMethods methods true).filter recognised = ["http"] := by
    rw [heff]; decide
  rw [hfil] at horder
  have hnames : ∀ c ∈ backendCalls (DoStashCPSingle env sourceFile destination methods true).trace,
      c.1 = "http" := by
    intro c hc
    have hmem : c.1 ∈ (backendCalls
        (DoStashCPSingle env sourceFile destination methods true).trace).map Prod.fst :=
      List.mem_map_of_mem _ hc
    have := horder.subset hmem
    simpa using this
  refine ⟨?_, heff, hnames, ?_, ?_, ?_, by decide⟩
  · unfold DoStashCPSingle
    rw [body_recursive]
  · have := horder.length_le
    simpa using this
  · intro sf dst res
    constructor
    · intro hmem
      have := hnames _ (mem_backendCalls _ _ ("cvmfs", res) hmem rfl)
      simp at this
    · intro hmem
      have := hnames _ (mem_backendCalls _ _ ("xrootd", res) hmem rfl)
      simp at this
  · intro sf dst ns b tok res hmem
    rcases htr with h | ⟨m, h⟩
    · rw [h] at hmem
      exact hf.flag sf dst ns b tok res hmem
    · rw [h] at hmem
      rcases List.mem_append.1 hmem with h' | h'
      · exact hf.flag sf dst ns b tok res h'
      · simp at h'

/-- C7. For every caller-supplied method list, a call of `DoStashCPSingle` with
`recursive = true` is the call with the method list `["http"]`: the list the loop ranges
over is exactly `["http"]`, every backend call of the run is a call of `download_http`,
there is at most one, and neither `download_cvmfs` nor `download_xrootd` is called. Each
recorded call of `download_http` is the call the program made: `download_http` applied,
after the calls recorded before it, to the recorded arguments with the recursive flag
`true`. Said without the trace: the run is the same on every host that has the same
`download_http` for the flag `true`, whatever its `download_cvmfs`, its `download_xrootd`
and its `download_http` for the flag `false` do. In the examples the caller asks for
`cvmfs` and `xrootd` and the one backend call is `download_http`; a `download_http` that
succeeds only with the flag succeeds in the recursive run and fails in the plain one. -/
theorem C7_recursive_runs_http_only (env : Env) (sourceFile destination : String)
    (methods : List String) :
    DoStashCPSingle env sourceFile destination methods true
      = DoStashCPSingle env sourceFile destination ["http"] true ∧
    effectiveMethods methods true = ["http"] ∧
    (∀ c ∈ backendCalls (DoStashCPSingle env sourceFile destination methods true).trace,
      c.1 = "http") ∧
    (backendCalls (DoStashCPSingle env sourceFile destination methods true).trace).length ≤ 1 ∧
    (∀ sf dst res,
      Event.download_cvmfs sf dst res ∉
          (DoStashCPSingle env sourceFile destination methods true).trace ∧
      Event.download_xrootd sf dst res ∉
          (DoStashCPSingle env sourceFile destination methods true).trace) ∧
    (∀ pre sf dst ns b tok res post,
      (DoStashCPSingle env sourceFile destination methods true).trace
          = pre ++ Event.download_http sf dst ns b tok res :: post →
      b = true ∧
      ∃ payload, res = (env.download_http pre sf dst payload ns true tok).dropPayload) ∧
    (∀ cvmfs xrootd http,
      (∀ tr sf dst p ns tok,
        http tr sf dst p ns true tok = env.download_http tr sf dst p ns true tok) →
      DoStashCPSingle (withBackends env cvmfs xrootd http) sourceFile destination methods true
        = DoStashCPSingle env sourceFile destination methods true) ∧
    backendCalls (DoStashCPSingle fallbackEnv "stash:///osgconnect/public/data.txt"
        "/tmp/data.txt" ["cvmfs", "xrootd"] true).trace = [("http", .val (1024, none))] ∧
    (DoStashCPSingle recursiveOnlyEnv "stash:///osgconnect/public/data.txt" "/tmp/data.txt"
        ["cvmfs", "xrootd"] true).outcome = .returned 1024 none ∧
    (DoStashCPSingle recursiveOnlyEnv "stash:///osgconnect/public/data.txt" "/tmp/data.txt"
        ["http"] false).outcome = .returned 0 (some "failed to download file") := by
  obtain ⟨h1, h2, h3, h4, h5, h6, h7⟩ := recursive_run_facts env sourceFile destination methods
  refine ⟨h1, h2, h3, h4, h5, ?_, ?_, h7, by decide, by decide⟩
  · intro pre sf dst ns b tok res post htr
    have hb : b = true :=
      h6 sf dst ns b tok res (by rw [htr]; simp)
    subst hb
    have hmade := run_faithful env sourceFile destination methods true pre _ post htr
    exact ⟨rfl, hmade⟩
  · intro cvmfs xrootd http hagree
    exact run_withBackends env cvmfs xrootd http hagree sourceFile destination methods

theorem swap_length (s : List String) (i j : Nat) : (swap s i j).length = s.length := by
  simp [swap]

theorem swap_perm (s : List String) (i j : Nat) (hi : i < s.length) (hj : j < s.length) :
    (swap s i j).Perm s := by
  rw [List.perm_iff_count]
  intro b
  have hgi : s.getD i "" = s[i] := by simp [List.getD, List.getElem?_eq_getElem hi]
  have hgj : s.getD j "" = s[j] := by simp [List.getD, List.getElem?_eq_getElem hj]
  unfold swap
  rw [hgi, hgj]
  have hj' : j < (s.set i s[j]).length := by simpa using hj
  rw [List.count_set _ _ _ _ hj', List.count_set _ _ _ _ hi]
  have hmid : (s.set i s[j])[j] = s[j] := by
    rw [List.getElem_set]
    split
    · rfl
    · rfl
  rw [hmid]
  have hci : (if (s[i] == b) = true then 1 else 0) ≤ s.count b := by
    split
    · rename_i h
      have hb : s[i] = b := by simpa using h
      have : b ∈ s := hb ▸ List.getElem_mem hi
      exact List.count_pos_iff.2 this
    · exact Nat.zero_le _
  omega

theorem shuffleFrom_perm (draw : Nat → Nat) :
    ∀ (i : Nat) (s : List String), i < s.length → (shuffleFrom draw i s).Perm s := by
  intro i
  induction i with
  | zero => intro s _; exact List.Perm.refl _
  | succ i ih =>
    intro s hi
    unfold shuffleFrom
    have hj : draw (i + 1) % (i + 2) < s.length :=
      Nat.lt_of_lt_of_le (Nat.mod_lt _ (by omega)) (by omega)
    have hsw := swap_perm s (i + 1) (draw (i + 1) % (i + 2)) hi hj
    have hlen : i < (swap s (i + 1) (draw (i + 1) % (i + 2))).length := by
      rw [swap_length]; omega
    exact (ih _ hlen).trans hsw

theorem rand_Shuffle_perm (draw : Nat → Nat) (s : List String) :
    (rand_Shuffle draw s).Perm s := by
  unfold rand_Shuffle
  cases s with
  | nil => exact List.Perm.refl _
  | cons x xs => exact shuffleFrom_perm draw _ _ (by simp)

theorem partitionIPs_eq (env : Env) (info : List String) :
    partitionIPs env info =
      (info.filter (isIPv4 env), (info.filter (isIPv6 env)).map fun a => "[" ++ a ++ "]") := by
  induction info with
  | nil => rfl
  | cons addr rest ih =>
    unfold partitionIPs
    simp only [ih]
    by_cases h4 : IP_To4 (env.net_ParseIP addr) = []
    · by_cases h6 : IP_To16 (env.net_ParseIP addr) = []
      · simp [isIPv4, isIPv6, h4, h6]
      · simp [isIPv4, isIPv6, h4, h6]
    · simp [isIPv4, isIPv6, h4]

/-- C8. For every list of addresses the DNS lookup returns and every outcome of the two
shuffles, the list `get_ips` returns is a permutation of the IPv4 addresses of the lookup
followed by a permutation of its IPv6 addresses, each of these wrapped in `[` and `]`: no
IPv6 entry comes before an IPv4 entry. In the example the lookup lists the IPv6 addresses
first and the result starts with the two IPv4 addresses. -/
theorem C8_get_ips_ipv4_before_ipv6 (env : Env) (draw4 draw6 : Nat → Nat) (name : String)
    (info : List String) (hlookup : env.net_LookupHost name = (info, none)) :
    (∃ v4 v6 : List String,
      get_ips env draw4 draw6 name = v4 ++ v6 ∧
      v4.Perm (info.filter (isIPv4 env)) ∧
      v6.Perm ((info.filter (isIPv6 env)).map fun a => "[" ++ a ++ "]")) ∧
    (get_ips env draw4 draw6 name).length
      = (info.filter (isIPv4 env)).length + (info.filter (isIPv6 env)).length ∧
    (∀ k x, (get_ips env draw4 draw6 name)[k]? = some x →
      (k < (info.filter (isIPv4 env)).length → x ∈ info.filter (isIPv4 env)) ∧
      ((info.filter (isIPv4 env)).length ≤ k →
        ∃ a ∈ info.filter (isIPv6 env), x = "[" ++ a ++ "]")) ∧
    (get_ips dnsEnv (fun _ => 0) (fun _ => 0) "cache.example.org").take 2
      = ["192.0.2.2", "192.0.2.1"] ∧
    (get_ips dnsEnv (fun _ => 0) (fun _ => 0) "cache.example.org").drop 2
      = ["[2001:db8::2]", "[2001:db8::1]"] := by
  have hget : get_ips env draw4 draw6 name
      = rand_Shuffle draw4 (info.filter (isIPv4 env)) ++
        rand_Shuffle draw6 ((info.filter (isIPv6 env)).map fun a => "[" ++ a ++ "]") := by
    unfold get_ips
    rw [hlookup]
    simp only [partitionIPs_eq]
  have h4 := rand_Shuffle_perm draw4 (info.filter (isIPv4 env))
  have h6 := rand_Shuffle_perm draw6 ((info.filter (isIPv6 env)).map fun a => "[" ++ a ++ "]")
  refine ⟨⟨_, _, hget, h4, h6⟩, ?_, ?_, by decide, by decide⟩
  · rw [hget, List.length_append, h4.length_eq, h6.length_eq, List.length_map]
  · intro k x hx
    rw [hget] at hx
    constructor
    · intro hlt
      have hlt' : k < (rand_Shuffle draw4 (info.filter (isIPv4 env))).length := by
        rw [h4.length_eq]; exact hlt
      rw [List.getElem?_append_left hlt'] at hx
      exact h4.subset (List.getElem?_mem hx)
    · intro hge
      have hge' : (rand_Shuffle draw4 (info.filter (isIPv4 env))).length ≤ k := by
        rw [h4.length_eq]; exact hge
      rw [List.getElem?_append_right hge'] at hx
      have hmem := h6.subset (List.getElem?_mem hx)
      rw [List.mem_map] at hmem
      obtain ⟨a, ha, hae⟩ := hmem
      exact ⟨a, ha, hae.symm⟩

theorem C8_witness :
    dnsEnv.net_LookupHost "cache.example.org"
      = (["2001:db8::1", "192.0.2.1", "2001:db8::2", "192.0.2.2"], none) ∧
    (get_ips dnsEnv (fun n => n) (fun _ => 1) "cache.example.org").length
      = (["2001:db8::1", "192.0.2.1", "2001:db8::2", "192.0.2.2"].filter (isIPv4 dnsEnv)).length +
        (["2001:db8::1", "192.0.2.1", "2001:db8::2", "192.0.2.2"].filter (isIPv6 dnsEnv)).length :=
  ⟨by decide, (C8_get_ips_ipv4_before_ipv6 dnsEnv (fun n => n) (fun _ => 1) "cache.example.org"
    ["2001:db8::1", "192.0.2.1", "2001:db8::2", "192.0.2.2"] (by decide)).2.1⟩

theorem methodLoop_withEsSend (env : Env) (marshal : payloadStruct → String × GoError)
    (race : List Event → String → EsRace) (sf dst : String) (ns : Namespace) (rc : Bool)
    (tok : String) : ∀ (ms : List String) (v : LoopVars) (tr : List Event),
    methodLoop (withEsSend env marshal race) sf dst ns rc tok ms v tr
      = methodLoop env sf dst ns rc tok ms v tr := by
  intro ms
  induction ms with
  | nil => intro v tr; rfl
  | cons m rest ih =>
    intro v tr
    unfold methodLoop
    have hcb : callBackend (withEsSend env marshal race) tr m sf dst v.payload ns rc tok
        = callBackend env tr m sf dst v.payload ns rc tok := rfl
    rw [hcb]
    cases callBackend env tr m sf dst v.payload ns rc tok with
    | none => exact ih v tr
    | some res =>
      cases res with
      | val a =>
        obtain ⟨p, n, err⟩ := a
        cases err with
        | none => rfl
        | some e => exact ih _ _
      | panic r => rfl
      | exit code => rfl

theorem report_withEsSend (env : Env) (marshal : payloadStruct → String × GoError)
    (race : List Event → String → EsRace) (v : LoopVars) (tr : List Event) :
    (report (withEsSend env marshal race) v tr).1 = (report env v tr).1 ∧
    (report (withEsSend env marshal race) v tr).2.map Event.eraseEsResult
      = (report env v tr).2.map Event.eraseEsResult := by
  unfold report
  cases v.success <;> simp [Event.eraseEsResult, withEsSend]

theorem transfer_withEsSend (env : Env) (marshal : payloadStruct → String × GoError)
    (race : List Event → String → EsRace) (sf dst : String) (su : URL) (ns : Namespace)
    (methods : List String) (rc : Bool) (tr : List Event) :
    (transfer (withEsSend env marshal race) sf dst su ns methods rc tr).1
      = (transfer env sf dst su ns methods rc tr).1 ∧
    (transfer (withEsSend env marshal race) sf dst su ns methods rc tr).2.map Event.eraseEsResult
      = (transfer env sf dst su ns methods rc tr).2.map Event.eraseEsResult := by
  have hpj : parse_job_ad (withEsSend env marshal race) = parse_job_ad env := rfl
  have hip : initialPayload (withEsSend env marshal race) su = initialPayload env su := rfl
  unfold transfer
  simp only [hpj, hip, methodLoop_withEsSend]
  simp only [withEsSend]
  split
  · exact ⟨rfl, rfl⟩
  · exact ⟨rfl, rfl⟩
  · split
    · exact ⟨rfl, rfl⟩
    · exact ⟨rfl, rfl⟩
    · split
      · exact ⟨rfl, rfl⟩
      · exact ⟨rfl, rfl⟩
      · exact report_withEsSend env marshal race _ _


theorem body_withEsSend (env : Env) (marshal : payloadStruct → String × GoError)
    (race : List Event → String → EsRace) (sf dst : String) (methods : List String)
    (rc : Bool) :
    (body (withEsSend env marshal race) sf dst methods rc).1 = (body env sf dst methods rc).1 ∧
    (body (withEsSend env marshal race) sf dst methods rc).2.map Event.eraseEsResult
      = (body env sf dst methods rc).2.map Event.eraseEsResult := by
  have hfold : ∀ u, foldHost (withEsSend env marshal race) u = foldHost env u := fun _ => rfl
  have hwb : ∀ tr s d n, doWriteBack (withEsSend env marshal race) tr s d n
      = doWriteBack env tr s d n := fun _ _ _ _ => rfl
  have hparse : (withEsSend env marshal race).url_Parse = env.url_Parse := rfl
  have hmn : (withEsSend env marshal race).MatchNamespace = env.MatchNamespace := rfl
  unfold body
  simp only [hfold, hwb, hparse, hmn]
  split
  · exact ⟨rfl, rfl⟩
  · split
    · exact ⟨rfl, rfl⟩
    · split
      · exact ⟨rfl, rfl⟩
      · split
        · exact ⟨rfl, rfl⟩
        · split
          · split <;> exact ⟨rfl, rfl⟩
          · split
            · exact ⟨rfl, rfl⟩
            · split
              · exact transfer_withEsSend env marshal race _ _ _ _ _ _ _
              · exact ⟨rfl, rfl⟩
              · exact ⟨rfl, rfl⟩
              · exact ⟨rfl, rfl⟩

/-- The error `es_send` returns is `nil`, the error of `json.Marshal`, the error the POST
goroutine sent, or "ES send timed out". -/
theorem es_send_results (env : Env) (tr : List Event) (payload : payloadStruct) :
    (∀ js e, env.json_Marshal { payload with timestamp := env.time_Now 2 } = (js, some e) →
      (es_send env tr payload).2 = some e) ∧
    (∀ js e, env.json_Marshal { payload with timestamp := env.time_Now 2 } = (js, none) →
      env.doEsSend_race tr js = .posted e → (es_send env tr payload).2 = e) ∧
    (∀ js, env.json_Marshal { payload with timestamp := env.time_Now 2 } = (js, none) →
      env.doEsSend_race tr js = .timeout →
      (es_send env tr payload).2 = some "ES send timed out") := by
  refine ⟨?_, ?_, ?_⟩
  · intro js e h
    simp [es_send, h]
  · intro js e h hr
    simp [es_send, h, hr]
  · intro js h hr
    simp [es_send, h, hr]

/-- C9. The results of `DoStashCPSingle` do not depend on how `es_send` ends: whatever
`json.Marshal` returns and however the race between the POST and the 5 second timer ends
(so whether `es_send` returns `nil`, the serialization error, the error of the POST or "ES
send timed out"), the run ends the same way, with the same byte count and the same error,
after the same collaborator calls; only the error recorded for `es_send` differs. In the
example the transfer succeeds with 1024 bytes and `es_send` times out: the run returns
`(1024, nil)`. -/
theorem C9_result_independent_of_es_send (env : Env)
    (marshal : payloadStruct → String × GoError) (race : List Event → String → EsRace)
    (sourceFile destination : String) (methods : List String) (recursive : Bool) :
    (DoStashCPSingle (withEsSend env marshal race) sourceFile destination methods
        recursive).outcome
      = (DoStashCPSingle env sourceFile destination methods recursive).outcome ∧
    (DoStashCPSingle (withEsSend env marshal race) sourceFile destination methods
        recursive).trace.map Event.eraseEsResult
      = (DoStashCPSingle env sourceFile destination methods recursive).trace.map
          Event.eraseEsResult ∧
    (∀ tr payload,
      (∀ js e, env.json_Marshal { payload with timestamp := env.time_Now 2 } = (js, some e) →
        (es_send env tr payload).2 = some e) ∧
      (∀ js e, env.json_Marshal { payload with timestamp := env.time_Now 2 } = (js, none) →
        env.doEsSend_race tr js = .posted e → (es_send env tr payload).2 = e) ∧
      (∀ js, env.json_Marshal { payload with timestamp := env.time_Now 2 } = (js, none) →
        env.doEsSend_race tr js = .timeout →
        (es_send env tr payload).2 = some "ES send timed out")) ∧
    (DoStashCPSingle (withEsSend fallbackEnv fallbackEnv.json_Marshal (fun _ _ => .timeout))
        "stash:///osgconnect/public/data.txt" "/tmp/data.txt" ["http"] false).outcome
      = .returned 1024 none ∧
    (DoStashCPSingle (withEsSend fallbackEnv fallbackEnv.json_Marshal (fun _ _ => .timeout))
        "stash:///osgconnect/public/data.txt" "/tmp/data.txt" ["http"] false).trace.filterMap
          Event.esSendResult = [some "ES send timed out"] ∧
    (DoStashCPSingle (withEsSend fallbackEnv (fun _ => ("", some "json: unsupported value"))
        fallbackEnv.doEsSend_race)
        "stash:///osgconnect/public/data.txt" "/tmp/data.txt" ["cvmfs"] false).outcome
      = .returned 0 (some "failed to download file") := by
  have hb := body_withEsSend env marshal race sourceFile destination methods recursive
  have h0 : (withEsSend env marshal race).otlptrace_New = env.otlptrace_New := rfl
  have h1 : (withEsSend env marshal race).tp_Shutdown = env.tp_Shutdown := rfl
  have hrun : (DoStashCPSingle (withEsSend env marshal race) sourceFile destination methods
        recursive).outcome
      = (DoStashCPSingle env sourceFile destination methods recursive).outcome ∧
    (DoStashCPSingle (withEsSend env marshal race) sourceFile destination methods
        recursive).trace.map Event.eraseEsResult
      = (DoStashCPSingle env sourceFile destination methods recursive).trace.map
          Event.eraseEsResult := by
    unfold DoStashCPSingle
    rw [h0, h1]
    generalize body (withEsSend env marshal race) sourceFile destination methods recursive = b1
      at hb
    generalize body env sourceFile destination methods recursive = b2 at hb
    obtain ⟨r1, t1⟩ := b1
    obtain ⟨r2, t2⟩ := b2
    obtain ⟨hr, ht⟩ := hb
    simp only at hr ht
    subst hr
    cases env.otlptrace_New with
    | some e0 => exact ⟨rfl, rfl⟩
    | none =>
      cases r1 with
      | exit code => exact ⟨rfl, ht⟩
      | val a =>
        obtain ⟨n, err⟩ := a
        cases env.tp_Shutdown with
        | some e1 => exact ⟨rfl, ht⟩
        | none => exact ⟨rfl, ht⟩
      | panic p =>
        cases env.tp_Shutdown with
        | some e1 => exact ⟨rfl, ht⟩
        | none =>
          refine ⟨rfl, ?_⟩
          simp only [List.map_append, ht]
  exact ⟨hrun.1, hrun.2, es_send_results env, by decide, by decide, by decide⟩

/-- With an empty source locator that parses to the empty URL and a destination outside
the federation, the body faults at `sourceFile[0]` before any call. -/
theorem body_empty_source (env : Env) (destination : String) (methods : List String)
    (recursive : Bool) (hsrc : env.url_Parse "" = (⟨"", "", ""⟩, none))
    (hdst : (env.url_Parse destination).2 = none)
    (hund : destSchemeOf env destination ∈ understoodSchemes)
    (hnw : destSchemeOf env destination ≠ "stash" ∧ destSchemeOf env destination ≠ "osdf") :
    body env "" destination methods recursive
      = (.panic "runtime error: index out of range [0] with length 0", []) := by
  rcases hpd : env.url_Parse destination with ⟨du, ed⟩
  rw [hpd] at hdst
  simp only at hdst
  subst hdst
  have hds : destSchemeOf env destination = (getTokenName (foldHost env du)).1 := by
    simp [destSchemeOf, hpd]
  rw [hds] at hund hnw
  have hfs : foldHost env ⟨"", "", ""⟩ = ⟨"", "", ""⟩ := by
    simp [foldHost]
  have hgs : getTokenName ⟨"", "", ""⟩ = ("", "") := by decide
  have hf1 : (Find understoodSchemes "").2 = true := by decide
  have hf2 : (Find understoodSchemes (getTokenName (foldHost env du)).1).2 = true :=
    (Find_found _ _).2 hund
  unfold body
  simp only [hsrc, hpd, hfs, hgs, hf1, hf2]
  simp [hnw.1, hnw.2]

/-- C10. Every run of `DoStashCPSingle` in which a panic occurs returns to its caller with
`bytesTransferred = 0` and a non-nil error that carries the panic value, and its last call
is `AddError` with that error. This holds for a panic of the body at any point; for an
empty source locator with a destination outside the federation, which faults at
`sourceFile[0]` before any call; and for a panic raised inside a backend. `AddError` is
called in no other run. The deferred `tp.Shutdown(context.Background())` reports no error,
as in every run of the program. -/
theorem C10_panic_becomes_error_and_AddError (env : Env) (sourceFile destination : String)
    (methods : List String) (recursive : Bool) (hshut : env.tp_Shutdown = none) :
    (∀ p tr, env.otlptrace_New = none →
      body env sourceFile destination methods recursive = (.panic p, tr) →
      DoStashCPSingle env sourceFile destination methods recursive
        = ⟨.returned 0 (some (panicMessage p)), tr ++ [Event.AddError (panicMessage p)]⟩) ∧
    (env.otlptrace_New = none → env.url_Parse "" = (⟨"", "", ""⟩, none) →
      (env.url_Parse destination).2 = none →
      destSchemeOf env destination ∈ understoodSchemes →
      destSchemeOf env destination ≠ "stash" ∧ destSchemeOf env destination ≠ "osdf" →
      DoStashCPSingle env "" destination methods recursive
        = ⟨.returned 0
            (some (panicMessage "runtime error: index out of range [0] with length 0")),
          [Event.AddError (panicMessage "runtime error: index out of range [0] with length 0")]⟩) ∧
    (∀ m p, (m, Ret.panic p) ∈
        backendCalls (DoStashCPSingle env sourceFile destination methods recursive).trace →
      (DoStashCPSingle env sourceFile destination methods recursive).outcome
        = .returned 0 (some (panicMessage p)) ∧
      (DoStashCPSingle env sourceFile destination methods recursive).trace.getLast?
        = some (Event.AddError (panicMessage p))) ∧
    (∀ msg, Event.AddError msg ∈
        (DoStashCPSingle env sourceFile destination methods recursive).trace →
      (DoStashCPSingle env sourceFile destination methods recursive).outcome
        = .returned 0 (some msg)) ∧
    DoStashCPSingle panickingBackendEnv "stash:///osgconnect/public/data.txt" "/tmp/data.txt"
        ["cvmfs", "http", "xrootd"] false
      = ⟨.returned 0 (some (panicMessage "assignment to entry in nil map")),
        [Event.MatchNamespace "/osgconnect/public/data.txt" (.val (⟨1⟩, none)),
          Event.download_cvmfs "/osgconnect/public/data.txt" "/tmp/data.txt"
            (.val (0, some "cvmfs failed")),
          Event.download_http "/osgconnect/public/data.txt" "/tmp/data.txt" ⟨1⟩ false ""
            (.panic "assignment to entry in nil map"),
          Event.AddError (panicMessage "assignment to entry in nil map")]⟩ := by
  have hpanic : ∀ (sf : String) p tr, env.otlptrace_New = none →
      body env sf destination methods recursive = (.panic p, tr) →
      DoStashCPSingle env sf destination methods recursive
        = ⟨.returned 0 (some (panicMessage p)), tr ++ [Event.AddError (panicMessage p)]⟩ := by
    intro sf p tr h0 hb
    unfold DoStashCPSingle
    rw [h0, hb, hshut]
  refine ⟨hpanic sourceFile, ?_, ?_, ?_, by decide⟩
  · intro h0 hsrc hdst hund hnw
    have hb := body_empty_source env destination methods recursive hsrc hdst hund hnw
    have := hpanic "" _ _ h0 hb
    simpa using this
  · intro m p hmem
    rcases run_shape env sourceFile destination methods recursive with
      ⟨e0, _, h⟩ | ⟨_, r, tr, _, hf, h⟩
    · rw [h] at hmem
      simp [backendCalls] at hmem
    · rcases h with ⟨code, hr, h⟩ | ⟨e1, hs, _, _⟩ | ⟨_, n, err, hr, h⟩ | ⟨_, p', hr, h⟩
      · rw [h] at hmem
        have := hf.panics m p hmem
        rw [hr] at this
        cases this
      · rw [hshut] at hs
        cases hs
      · rw [h] at hmem
        have := hf.panics m p hmem
        rw [hr] at this
        cases this
      · rw [h] at hmem ⊢
        simp only at hmem
        rw [backendCalls_concat_AddError] at hmem
        have := hf.panics m p hmem
        rw [hr] at this
        cases this
        simp
  · intro msg hmem
    rcases run_shape env sourceFile destination methods recursive with
      ⟨e0, _, h⟩ | ⟨_, r, tr, _, hf, h⟩
    · rw [h] at hmem
      simp at hmem
    · rcases h with ⟨code, hr, h⟩ | ⟨e1, hs, _, _⟩ | ⟨_, n, err, hr, h⟩ | ⟨_, p', hr, h⟩
      · rw [h] at hmem
        have := hf.noAddError _ hmem
        cases this
      · rw [hshut] at hs
        cases hs
      · rw [h] at hmem
        have := hf.noAddError _ hmem
        cases this
      · rw [h] at hmem ⊢
        simp only at hmem
        rcases List.mem_append.1 hmem with h' | h'
        · have := hf.noAddError _ h'
          cases this
        · simp at h'
          rw [h']

theorem C10_witness :
    (quietEnv.tp_Shutdown = none ∧ quietEnv.otlptrace_New = none ∧
      quietEnv.url_Parse "" = (⟨"", "", ""⟩, none)) ∧
    DoStashCPSingle quietEnv "" "/tmp/data.txt" ["cvmfs", "http"] false
      = ⟨.returned 0
          (some (panicMessage "runtime error: index out of range [0] with length 0")),
        [Event.AddError (panicMessage "runtime error: index out of range [0] with length 0")]⟩ :=
  ⟨by decide, (C10_panic_becomes_error_and_AddError quietEnv "" "/tmp/data.txt"
    ["cvmfs", "http"] false (by decide)).2.1 (by decide) (by decide) (by decide) (by decide)
    (by decide)⟩

theorem methodLoop_onlyAdds (env : Env) (sf dst : String) (ns : Namespace) (rc : Bool)
    (tok : String) (ms : List String) (v : LoopVars) (tr : List Event) :
    ∀ e ∈ (methodLoop env sf dst ns rc tok ms v tr).2, e ∈ tr ∨ e.backend ≠ none := by
  obtain ⟨calls, h1, h2, _⟩ := methodLoop_spec env sf dst ns rc tok ms v tr
  intro e he
  rw [h1] at he
  rcases List.mem_append.1 he with h | h
  · exact Or.inl h
  · right
    simp only [callEvents, List.mem_map] at h
    obtain ⟨c, hc, rfl⟩ := h
    rw [backend_backendEvent _ _ _ _ _ _ _ (h2 c hc)]
    simp

theorem onlyAdds_same (tr : List Event) (r : Ret (Int × GoError)) : OnlyAdds tr (r, tr) :=
  fun _ he => Or.inl he

theorem transfer_onlyAdds (env : Env) (sf dst : String) (su : URL) (ns : Namespace)
    (methods : List String) (rc : Bool) (tr : List Event) :
    OnlyAdds tr (transfer env sf dst su ns methods rc tr) := by
  unfold transfer
  simp only
  split
  · exact onlyAdds_same _ _
  · exact onlyAdds_same _ _
  · rename_i dst' _
    split
    · exact onlyAdds_same _ _
    · exact onlyAdds_same _ _
    · have hl := methodLoop_onlyAdds env sf dst' ns rc (getTokenName su).2
        (if rc = true then ["http"] else methods) ⟨initialPayload env su, 0, false⟩ tr
      generalize methodLoop env sf dst' ns rc (getTokenName su).2
        (if rc = true then ["http"] else methods) ⟨initialPayload env su, 0, false⟩ tr = out
        at hl
      obtain ⟨res, tr1⟩ := out
      simp only at hl
      cases res with
      | panic r =>
        intro e he
        rcases hl e he with h | h
        · exact Or.inl h
        · exact Or.inr (Or.inl h)
      | exit code =>
        intro e he
        rcases hl e he with h | h
        · exact Or.inl h
        · exact Or.inr (Or.inl h)
      | val w =>
        intro e he
        simp only [report] at he
        have he' : e ∈ tr1 ∨ e.isEsSend = true := by
          split at he
          · rcases List.mem_append.1 he with h | h
            · exact Or.inl h
            · simp only [List.mem_singleton] at h
              subst h
              exact Or.inr rfl
          · rcases List.mem_append.1 he with h | h
            · exact Or.inl h
            · simp only [List.mem_singleton] at h
              subst h
              exact Or.inr rfl
        rcases he' with h | h
        · rcases hl e h with h' | h'
          · exact Or.inl h'
          · exact Or.inr (Or.inl h')
        · exact Or.inr (Or.inr h)


theorem doWriteBack_mem (env : Env) (tr : List Event) (source : String) (destination : URL)
    (ns : Namespace) (path : String) (res : Ret (Namespace × GoError))
    (h : Event.MatchNamespace path res ∈ (doWriteBack env tr source destination ns).2) :
    Event.MatchNamespace path res ∈ tr := by
  unfold doWriteBack at h
  simp only at h
  split at h
  · simpa using h
  · simpa using h

theorem namespaceErrorCases_nil (env : Env) (sf dst path : String) (ns : Namespace)
    (e : String) (r : Ret (Int × GoError)) : NamespaceErrorCases env sf dst path ns e (r, []) := by
  intro h
  cases h

theorem namespaceErrorCases_fault (env : Env) (sf dst path p : String) (ns : Namespace)
    (e : String) (r : Ret (Int × GoError)) (res : Ret (Namespace × GoError))
    (hres : ∀ x, res ≠ .val x) :
    NamespaceErrorCases env sf dst path ns e (r, [Event.MatchNamespace p res]) := by
  intro h
  simp only [List.mem_singleton, Event.MatchNamespace.injEq] at h
  exact absurd h.2.symm (hres _)

theorem body_namespace_error (env : Env) (sf dst : String) (methods : List String) (rc : Bool)
    (path : String) (ns : Namespace) (e : String) :
    NamespaceErrorCases env sf dst path ns e (body env sf dst methods rc) := by
  unfold body
  simp only
  split
  · exact namespaceErrorCases_nil _ _ _ _ _ _ _
  · split
    · exact namespaceErrorCases_nil _ _ _ _ _ _ _
    · rename_i _ su hsu _ du hdu
      have hD : destSchemeOf env dst = (getTokenName (foldHost env du)).1 := by
        simp [destSchemeOf, hdu]
      have hDU : destUrlOf env dst = foldHost env du := by simp [destUrlOf, hdu]
      have hSU : sourceUrlOf env sf = foldHost env su := by simp [sourceUrlOf, hsu]
      split
      · exact namespaceErrorCases_nil _ _ _ _ _ _ _
      · split
        · exact namespaceErrorCases_nil _ _ _ _ _ _ _
        · split
          · rename_i hw
            split
            · rename_i ns' err' hmn
              intro h
              have hm := doWriteBack_mem _ _ _ _ _ _ _ h
              simp only [List.mem_singleton, Event.MatchNamespace.injEq, Ret.val.injEq,
                Prod.mk.injEq] at hm
              obtain ⟨hp, hn, he⟩ := hm
              subst hp hn he
              right
              rw [hD, hDU, hSU]
              exact ⟨hw, rfl, rfl⟩
            · exact namespaceErrorCases_fault _ _ _ _ _ _ _ _ _ (by simp)
            · exact namespaceErrorCases_fault _ _ _ _ _ _ _ _ _ (by simp)
          · rename_i hw
            split
            · exact namespaceErrorCases_nil _ _ _ _ _ _ _
            · split
              · intro h
                exfalso
                rcases transfer_onlyAdds _ _ _ _ _ _ _ _ _ h with h' | h' | h'
                · simp at h'
                · exact h' rfl
                · cases h'
              · intro h
                simp only [List.mem_singleton, Event.MatchNamespace.injEq, Ret.val.injEq,
                  Prod.mk.injEq, Option.some.injEq] at h
                obtain ⟨hp, hn, he⟩ := h
                subst hp hn he
                left
                rw [hD]
                exact ⟨hw, rfl⟩
              · exact namespaceErrorCases_fault _ _ _ _ _ _ _ _ _ (by simp)
              · exact namespaceErrorCases_fault _ _ _ _ _ _ _ _ _ (by simp)


/-- A run that recorded a `MatchNamespace` call returning an error had its exporter
created, and its body is in one of the two cases of `NamespaceErrorCases`. -/
theorem run_namespace_error (env : Env) (sf dst : String) (methods : List String) (rc : Bool)
    (path : String) (ns : Namespace) (e : String)
    (hmn : Event.MatchNamespace path (.val (ns, some e)) ∈
      (DoStashCPSingle env sf dst methods rc).trace) :
    env.otlptrace_New = none ∧
    ((¬ (destSchemeOf env dst = "stash" ∨ destSchemeOf env dst = "osdf") ∧
      body env sf dst methods rc
        = (.val (0, some e), [Event.MatchNamespace path (.val (ns, some e))])) ∨
    ((destSchemeOf env dst = "stash" ∨ destSchemeOf env dst = "osdf") ∧
      path = (destUrlOf env dst).Path ∧
      body env sf dst methods rc
        = doWriteBack env [Event.MatchNamespace path (.val (ns, some e))]
          (sourceUrlOf env sf).Path (destUrlOf env dst) ns)) := by
  rcases run_shape env sf dst methods rc with ⟨e0, _, h⟩ | ⟨h0, r, tr, hb, _, h⟩
  · rw [h] at hmn
    cases hmn
  · refine ⟨h0, ?_⟩
    have hin : Event.MatchNamespace path (.val (ns, some e)) ∈ (body env sf dst methods rc).2 := by
      rw [hb]
      rcases h with ⟨code, _, h⟩ | ⟨e1, _, _, h⟩ | ⟨_, n, err, _, h⟩ | ⟨_, p, _, h⟩
      · rw [h] at hmn; exact hmn
      · rw [h] at hmn; exact hmn
      · rw [h] at hmn; exact hmn
      · rw [h] at hmn
        rcases List.mem_append.1 hmn with h' | h'
        · exact h'
        · simp at h'
    exact body_namespace_error env sf dst methods rc path ns e hin

/-- C11, as the code has it. For every run in which `MatchNamespace` returns an error `e`
together with a namespace value `ns`: in a writeback (destination scheme `stash` or
`osdf`) the failure is not fatal, the call was made for the destination path, the error is
only logged and the run goes on as `doWriteBack` with `ns`: it calls `getToken` and, when a
token is found, `UploadFile` with `ns`, and returns what `UploadFile` returns; in a download
the failure is fatal: `MatchNamespace` is the only call of the run, no backend is called,
`es_send` is not called, and the run returns `(0, e)`. (A run returns when the deferred
`tp.Shutdown` reports no error.) -/
theorem C11_namespace_error_logged_in_writeback_returned_in_download (env : Env)
    (sourceFile destination : String) (methods : List String) (recursive : Bool)
    (path : String) (ns : Namespace) (e : String)
    (hmn : Event.MatchNamespace path (.val (ns, some e)) ∈
      (DoStashCPSingle env sourceFile destination methods recursive).trace) :
    (¬ (destSchemeOf env destination = "stash" ∨ destSchemeOf env destination = "osdf") →
      (DoStashCPSingle env sourceFile destination methods recursive).trace
        = [Event.MatchNamespace path (.val (ns, some e))] ∧
      backendCalls (DoStashCPSingle env sourceFile destination methods recursive).trace = [] ∧
      (env.tp_Shutdown = none →
        (DoStashCPSingle env sourceFile destination methods recursive).outcome
          = .returned 0 (some e))) ∧
    (destSchemeOf env destination = "stash" ∨ destSchemeOf env destination = "osdf" →
      path = (destUrlOf env destination).Path ∧
      body env sourceFile destination methods recursive
        = doWriteBack env [Event.MatchNamespace path (.val (ns, some e))]
          (sourceUrlOf env sourceFile).Path (destUrlOf env destination) ns ∧
      (DoStashCPSingle env sourceFile destination methods recursive).trace.take 2
        = [Event.MatchNamespace path (.val (ns, some e)),
            Event.getToken (getTokenName (destUrlOf env destination)).2
              (getToken env (getTokenName (destUrlOf env destination)).2)] ∧
      ((getToken env (getTokenName (destUrlOf env destination)).2).2 = none →
        ∃ res, res = env.UploadFile
            [Event.MatchNamespace path (.val (ns, some e)),
              Event.getToken (getTokenName (destUrlOf env destination)).2
                (getToken env (getTokenName (destUrlOf env destination)).2)]
            (sourceUrlOf env sourceFile).Path (destUrlOf env destination)
            (getToken env (getTokenName (destUrlOf env destination)).2).1 ns ∧
          (DoStashCPSingle env sourceFile destination methods recursive).trace.take 3
            = [Event.MatchNamespace path (.val (ns, some e)),
                Event.getToken (getTokenName (destUrlOf env destination)).2
                  (getToken env (getTokenName (destUrlOf env destination)).2),
                Event.UploadFile (sourceUrlOf env sourceFile).Path (destUrlOf env destination)
                  (getToken env (getTokenName (destUrlOf env destination)).2).1 ns res] ∧
          (∀ n err, res = .val (n, err) → env.tp_Shutdown = none →
            (DoStashCPSingle env sourceFile destination methods recursive).outcome
              = .returned n err)) ∧
      (∀ te, (getToken env (getTokenName (destUrlOf env destination)).2).2 = some te →
        env.tp_Shutdown = none →
        (DoStashCPSingle env sourceFile destination methods recursive).outcome
          = .returned 0 (some te))) ∧
    DoStashCPSingle namespaceFailsUploadEnv "/tmp/data.txt"
        "stash:///osgconnect/public/data.txt" ["cvmfs", "http"] false
      = ⟨.returned 2048 none,
        [Event.MatchNamespace "/osgconnect/public/data.txt"
            (.val (⟨0⟩, some "no namespace found")),
          Event.getToken "" ("abc", none),
          Event.UploadFile "/tmp/data.txt" ⟨"stash", "", "/osgconnect/public/data.txt"⟩ "abc"
            ⟨0⟩ (.val (2048, none))]⟩ := by
  obtain ⟨h0, hcases⟩ := run_namespace_error env sourceFile destination methods recursive
    path ns e hmn
  refine ⟨?_, ?_, by decide⟩
  · intro hnw
    rcases hcases with ⟨_, hb⟩ | ⟨hw, _⟩
    · unfold DoStashCPSingle
      rw [h0, hb]
      cases hs : env.tp_Shutdown with
      | none => simp [backendCalls, Event.backend]
      | some e1 => simp [backendCalls, Event.backend]
    · exact absurd hw hnw
  · intro hw
    rcases hcases with ⟨hnw, _⟩ | ⟨_, hp, hb⟩
    · exact absurd hw hnw
    · have hsome : ∀ te, (getToken env (getTokenName (destUrlOf env destination)).2).2 = some te →
          body env sourceFile destination methods recursive
            = (.val (0, some te),
                [Event.MatchNamespace path (.val (ns, some e)),
                  Event.getToken (getTokenName (destUrlOf env destination)).2
                    (getToken env (getTokenName (destUrlOf env destination)).2)]) := by
        intro te htok
        rw [hb]
        unfold doWriteBack
        simp only [htok]
        rfl
      have hnone : (getToken env (getTokenName (destUrlOf env destination)).2).2 = none →
          body env sourceFile destination methods recursive
            = (env.UploadFile
                [Event.MatchNamespace path (.val (ns, some e)),
                  Event.getToken (getTokenName (destUrlOf env destination)).2
                    (getToken env (getTokenName (destUrlOf env destination)).2)]
                (sourceUrlOf env sourceFile).Path (destUrlOf env destination)
                (getToken env (getTokenName (destUrlOf env destination)).2).1 ns,
              [Event.MatchNamespace path (.val (ns, some e)),
                Event.getToken (getTokenName (destUrlOf env destination)).2
                  (getToken env (getTokenName (destUrlOf env destination)).2),
                Event.UploadFile (sourceUrlOf env sourceFile).Path (destUrlOf env destination)
                  (getToken env (getTokenName (destUrlOf env destination)).2).1 ns
                  (env.UploadFile
                    [Event.MatchNamespace path (.val (ns, some e)),
                      Event.getToken (getTokenName (destUrlOf env destination)).2
                        (getToken env (getTokenName (destUrlOf env destination)).2)]
                    (sourceUrlOf env sourceFile).Path (destUrlOf env destination)
                    (getToken env (getTokenName (destUrlOf env destination)).2).1 ns)]) := by
        intro htok
        rw [hb]
        unfold doWriteBack
        simp only [htok]
        rfl
      refine ⟨hp, hb, ?_, ?_, ?_⟩
      · unfold DoStashCPSingle
        rw [h0]
        cases htok : (getToken env (getTokenName (destUrlOf env destination)).2).2 with
        | some te =>
          rw [hsome te htok]
          cases env.tp_Shutdown <;> rfl
        | none =>
          rw [hnone htok]
          generalize env.UploadFile _ (sourceUrlOf env sourceFile).Path
            (destUrlOf env destination)
            (getToken env (getTokenName (destUrlOf env destination)).2).1 ns = res
          cases res with
          | val a => cases env.tp_Shutdown <;> rfl
          | panic p => cases env.tp_Shutdown <;> rfl
          | exit code => rfl
      · intro htok
        refine ⟨_, rfl, ?_, ?_⟩
        · unfold DoStashCPSingle
          rw [h0, hnone htok]
          generalize env.UploadFile _ (sourceUrlOf env sourceFile).Path
            (destUrlOf env destination)
            (getToken env (getTokenName (destUrlOf env destination)).2).1 ns = res
          cases res with
          | val a => cases env.tp_Shutdown <;> rfl
          | panic p => cases env.tp_Shutdown <;> rfl
          | exit code => rfl
        · intro n err hres hshut
          unfold DoStashCPSingle
          rw [h0, hnone htok, hres, hshut]
      · intro te htok hshut
        unfold DoStashCPSingle
        rw [h0, hsome te htok, hshut]


theorem C11_witness :
    Event.MatchNamespace "/osgconnect/public/data.txt" (.val (⟨0⟩, some "no namespace found")) ∈
      (DoStashCPSingle namespaceFailsEnv "stash:///osgconnect/public/data.txt" "/tmp/data.txt"
        ["cvmfs", "http"] false).trace ∧
    (DoStashCPSingle namespaceFailsEnv "stash:///osgconnect/public/data.txt" "/tmp/data.txt"
        ["cvmfs", "http"] false).outcome = .returned 0 (some "no namespace found") :=
  ⟨by decide, ((C11_namespace_error_logged_in_writeback_returned_in_download namespaceFailsEnv
    "stash:///osgconnect/public/data.txt" "/tmp/data.txt" ["cvmfs", "http"] false
    "/osgconnect/public/data.txt" ⟨0⟩ "no namespace found" (by decide)).1 (by decide)).2.2
    (by decide)⟩

/-- C11 as stated fails: in a download `MatchNamespace` returns an error, and the run
returns that very error with 0 bytes right after the call; the method loop is not entered
and no backend is called, although `download_http` succeeds with 1024 bytes on the same
host when the lookup succeeds. -/
theorem C11_counterexample :
    namespaceFailsEnv.MatchNamespace [] "/osgconnect/public/data.txt"
      = .val (⟨0⟩, some "no namespace found") ∧
    DoStashCPSingle namespaceFailsEnv "stash:///osgconnect/public/data.txt" "/tmp/data.txt"
        ["cvmfs", "xrootd", "http"] false
      = ⟨.returned 0 (some "no namespace found"),
        [Event.MatchNamespace "/osgconnect/public/data.txt"
          (.val (⟨0⟩, some "no namespace found"))]⟩ ∧
    backendCalls (DoStashCPSingle namespaceFailsEnv "stash:///osgconnect/public/data.txt"
        "/tmp/data.txt" ["cvmfs", "xrootd", "http"] false).trace = [] ∧
    (DoStashCPSingle fallbackEnv "stash:///osgconnect/public/data.txt" "/tmp/data.txt"
        ["cvmfs", "xrootd", "http"] false).outcome = .returned 1024 none := by
  refine ⟨by decide, by decide, by decide, by decide⟩

end Stashcp
